import Mathlib

/-!
# botKit: the signed session token, the error table and the error handler

A shallow embedding of `GenerateSession`, `VerifySession`, `newSession` and
`newSignature` (`session/session.go`), together with executable models of the Go
standard-library routines they call (`strconv.Itoa`, `time.Format` / `time.Parse` for
the layout `20060102150405`, `crypto/sha1`, `fmt.Sprintf("%x")`, `encoding/json` on the
`Session` struct and `base64.URLEncoding`), and of `errCodeConfig`
(`commonHTTP/config.go`), `init`, `Errorf` and `ErrHandler`
(`errorHandler/errHandler.go`).

Conventions.
* A Go `string` / `[]byte` is a list of byte values (`Bytes`).
* A Go `int` is an `Int`; where the 64-bit range matters it is a hypothesis.
* `time.Now()` is a parameter `now`; the secret resolver is a state-passing
  function, so that "the resolver is not called" is the statement that the
  resolver state is returned untouched.
* `from` is a reserved word of Lean, so the parameter is written `from'`.
* A Go `error` of the error handler is `none` for nil and otherwise an `ErrorObject`;
  what `ErrHandler` asks echo to send is returned as a value (`Handled`).
-/

namespace BotKit

/-! ## Byte strings -/

/-- A Go string: its bytes. -/
abbrev Bytes := List Nat

/-- Go `utf8.EncodeRune`: the UTF-8 bytes of a rune; surrogates and values past
U+10FFFF become U+FFFD. -/
def EncodeRune (r : Nat) : Bytes :=
  if r < 0x80 then [r]
  else if r < 0x800 then [0xC0 + r / 64, 0x80 + r % 64]
  else if (0xD800 ≤ r ∧ r ≤ 0xDFFF) ∨ 0x10FFFF < r then [0xEF, 0xBF, 0xBD]
  else if r < 0x10000 then [0xE0 + r / 4096, 0x80 + r / 64 % 64, 0x80 + r % 64]
  else [0xF0 + r / 262144, 0x80 + r / 4096 % 64, 0x80 + r / 64 % 64, 0x80 + r % 64]

/-- The bytes of a string literal of the source (UTF-8). -/
def utf8 (s : String) : Bytes :=
  s.data.foldr (fun c acc => EncodeRune c.toNat ++ acc) []

/-- Decimal digits of `n`, most significant first, `fuel` bounding the number of
digits produced. -/
def decDigits : Nat → Nat → Bytes
  | 0, _ => []
  | fuel + 1, n => if n < 10 then [48 + n] else decDigits fuel (n / 10) ++ [48 + n % 10]

/-- Go `strconv.FormatUint(n, 10)`. -/
def FormatUint (n : Nat) : Bytes := decDigits (n + 1) n

/-- Go `strconv.Itoa`. -/
def Itoa (n : Int) : Bytes :=
  if n < 0 then 45 :: FormatUint n.natAbs else FormatUint n.natAbs

/-- One lowercase hexadecimal digit. -/
def hexDigit (d : Nat) : Nat := if d < 10 then 48 + d else 87 + d

/-- Go `fmt.Sprintf("%x", b)` for a byte slice: two lowercase hex digits a byte. -/
def hexEncode : Bytes → Bytes
  | [] => []
  | b :: bs => hexDigit (b / 16 % 16) :: hexDigit (b % 16) :: hexEncode bs

/-! ## `crypto/sha1` -/

/-- Rotate a 32-bit word left by `n`. -/
def rotl (n x : Nat) : Nat := ((x <<< n) ||| (x >>> (32 - n))) % 2 ^ 32

/-- The five 32-bit chaining words of SHA-1. -/
structure Digest where
  a : Nat
  b : Nat
  c : Nat
  d : Nat
  e : Nat

deriving DecidableEq, Repr

/-- One of the 80 rounds of the SHA-1 compression function, on message word `w`. -/
def sha1Round (t w : Nat) (s : Digest) : Digest :=
  let f : Nat :=
    if t < 20 then (s.b &&& s.c) ||| ((s.b ^^^ 0xFFFFFFFF) &&& s.d)
    else if t < 40 then s.b ^^^ s.c ^^^ s.d
    else if t < 60 then (s.b &&& s.c) ||| (s.b &&& s.d) ||| (s.c &&& s.d)
    else s.b ^^^ s.c ^^^ s.d
  let k : Nat :=
    if t < 20 then 0x5A827999 else if t < 40 then 0x6ED9EBA1
    else if t < 60 then 0x8F1BBCDC else 0xCA62C1D6
  { a := (rotl 5 s.a + f + s.e + k + w) % 2 ^ 32, b := s.a, c := rotl 30 s.b, d := s.c, e := s.d }

/-- Runs `n` rounds from round `t`; `w` is the sliding window of the 16 latest
schedule words, oldest first. -/
def sha1Rounds : Nat → Nat → List Nat → Digest → Digest
  | 0, _, _, s => s
  | n + 1, t, w, s =>
    match w with
    | [] => s
    | w0 :: rest =>
      let next := rotl 1 (rest.getD 12 0 ^^^ rest.getD 7 0 ^^^ rest.getD 1 0 ^^^ w0)
      sha1Rounds n (t + 1) (rest ++ [next]) (sha1Round t w0 s)

/-- Big-endian value of a byte list. -/
def beValue (bs : Bytes) : Nat := bs.foldl (fun acc b => acc * 256 + b) 0

/-- The first `n` big-endian 32-bit words of a byte list. -/
def beWords : Nat → Bytes → List Nat
  | 0, _ => []
  | n + 1, bs => beValue (bs.take 4) :: beWords n (bs.drop 4)

/-- The `k` low bytes of `n`, big-endian. -/
def beBytes (n : Nat) : Nat → Bytes
  | 0 => []
  | k + 1 => beBytes (n / 256) k ++ [n % 256]

/-- The compression function on one 64-byte block. -/
def sha1Block (h : Digest) (block : Bytes) : Digest :=
  let r := sha1Rounds 80 0 (beWords 16 block) h
  { a := (h.a + r.a) % 2 ^ 32, b := (h.b + r.b) % 2 ^ 32, c := (h.c + r.c) % 2 ^ 32,
    d := (h.d + r.d) % 2 ^ 32, e := (h.e + r.e) % 2 ^ 32 }

/-- Folds the compression function over `n` consecutive blocks. -/
def sha1Blocks : Nat → Digest → Bytes → Digest
  | 0, h, _ => h
  | n + 1, h, bs => sha1Blocks n (sha1Block h (bs.take 64)) (bs.drop 64)

/-- SHA-1 padding: `0x80`, zeros up to 56 mod 64, then the bit length on 8 bytes. -/
def sha1Pad (m : Bytes) : Bytes :=
  m ++ [0x80] ++ List.replicate ((119 - m.length % 64) % 64) 0 ++ beBytes (8 * m.length) 8

/-- Go `sha1.New()`, `io.WriteString`, `Sum(nil)`: the 20-byte SHA-1 digest. -/
def sha1Sum (m : Bytes) : Bytes :=
  let p := sha1Pad m
  let h := sha1Blocks (p.length / 64)
    { a := 0x67452301, b := 0xEFCDAB89, c := 0x98BADCFE, d := 0x10325476, e := 0xC3D2E1F0 } p
  beBytes h.a 4 ++ beBytes h.b 4 ++ beBytes h.c 4 ++ beBytes h.d 4 ++ beBytes h.e 4

/-! ## `time`: instants, zones, the layout `20060102150405` -/

/-- A Go `*time.Location`: the offset east of UTC, in seconds, that the zone has
in force at a given Unix second. -/
structure Location where
  offsetAt : Int → Int

/-- Go `time.UTC`. -/
def UTC : Location := ⟨fun _ => 0⟩

/-- A Go `time.Time`: an instant (nanoseconds since 1970-01-01T00:00:00Z) and the
location it is displayed in. -/
structure Time where
  unixNano : Int
  loc : Location

/-- A Go `time.Duration`: nanoseconds. -/
abbrev Duration := Int

/-- Go `Time.Add`. -/
def Time.Add (t : Time) (d : Duration) : Time := { t with unixNano := t.unixNano + d }

/-- Go `Time.Before`: compares the instants only. -/
def Time.Before (t u : Time) : Bool := decide (t.unixNano < u.unixNano)

/-- Go `Time.Unix`: whole seconds since the Unix epoch (rounded down). -/
def Time.Unix (t : Time) : Int := t.unixNano / 1000000000

/-- Seconds since 0001-01-01T00:00:00 on the wall clock of the time's location. -/
def Time.abs (t : Time) : Int := t.Unix + t.loc.offsetAt t.Unix + 62135596800

/-- Go `isLeap`. -/
def isLeap (year : Int) : Bool :=
  decide (year % 4 = 0) && (decide (year % 100 ≠ 0) || decide (year % 400 = 0))

/-- Go `daysBefore[m]`: days of a non-leap year before month `m + 1`. -/
def daysBefore : Int → Int
  | 0 => 0 | 1 => 31 | 2 => 59 | 3 => 90 | 4 => 120 | 5 => 151 | 6 => 181
  | 7 => 212 | 8 => 243 | 9 => 273 | 10 => 304 | 11 => 334 | _ => 365

/-- Go `daysIn`. -/
def daysIn (month year : Int) : Int :=
  if month = 2 ∧ isLeap year then 29 else daysBefore month - daysBefore (month - 1)

/-- Go `daysSinceEpoch`, with 0001-01-01 as day 0: days before January 1 of `year`. -/
def daysSinceEpoch (year : Int) : Int :=
  let y := year - 1
  let n400 := y / 400
  let y1 := y - 400 * n400
  let n100 := y1 / 100
  let y2 := y1 - 100 * n100
  let n4 := y2 / 4
  let y3 := y2 - 4 * n4
  146097 * n400 + 36524 * n100 + 1461 * n4 + 365 * y3

/-- The civil date of a day count. -/
structure CivilDate where
  year : Int
  month : Int
  day : Int

deriving DecidableEq, Repr

/-- First half of Go `absDate`: the year of day number `days` (day 0 is 0001-01-01)
and the day within that year, counted from 0. -/
def absYear (days : Int) : Int × Int :=
  let n400 := days / 146097
  let d1 := days - 146097 * n400
  let n100 := d1 / 36524
  let n100 := n100 - n100 / 4
  let d2 := d1 - 36524 * n100
  let n4 := d2 / 1461
  let d3 := d2 - 1461 * n4
  let n1 := d3 / 365
  let n1 := n1 - n1 / 4
  (400 * n400 + 100 * n100 + 4 * n4 + n1 + 1, d3 - 365 * n1)

/-- Second half of Go `absDate`: month (1 to 12) and day of the month of day `yday`
of a year, `leap` telling whether the year is a leap year. -/
def absMonthDay (leap : Bool) (yday : Int) : Int × Int :=
  if leap = true ∧ yday = 31 + 29 - 1 then (2, 29)
  else
    let day := if leap = true ∧ yday > 31 + 29 - 1 then yday - 1 else yday
    let month := day / 31
    let stop := daysBefore (month + 1)
    if day ≥ stop then (month + 2, day - stop + 1)
    else (month + 1, day - daysBefore month + 1)

/-- Go `absDate`: the civil date of day number `days`. -/
def absDate (days : Int) : CivilDate :=
  let yd := absYear days
  let md := absMonthDay (isLeap yd.1) yd.2
  ⟨yd.1, md.1, md.2⟩

/-- Go `time.Date(year, month, day, hour, min, sec, nsec, time.UTC)` on fields
that are already in range (the only way `Parse` calls it). -/
def Date (year month day hour min sec nsec : Int) : Time :=
  let d := daysSinceEpoch year + daysBefore (month - 1)
    + (if isLeap year ∧ month ≥ 3 then 1 else 0) + (day - 1)
  let abs := d * 86400 + hour * 3600 + min * 60 + sec
  ⟨(abs - 62135596800) * 1000000000 + nsec, UTC⟩

/-- Go `appendInt(b, x, width)`: decimal, zero-padded to `width`, `-` first when
negative. -/
def appendInt (x : Int) (width : Nat) : Bytes :=
  let digits := FormatUint x.natAbs
  let padded := List.replicate (width - digits.length) 48 ++ digits
  if x < 0 then 45 :: padded else padded

/-- The layout constant `ConstTimeFormat = "20060102150405"`: year on four digits,
then month, day, hour, minute and second on two digits each. `Format` renders the
wall clock of the time's own location. -/
def Time.Format (t : Time) : Bytes :=
  let a := t.abs
  let date := absDate (a / 86400)
  let sod := a % 86400
  appendInt date.year 4 ++ appendInt date.month 2 ++ appendInt date.day 2
    ++ appendInt (sod / 3600) 2 ++ appendInt (sod % 3600 / 60) 2 ++ appendInt (sod % 60) 2

/-- Go `Time.Year`: the year on the wall clock of the time's location. -/
def Time.Year (t : Time) : Int := (absDate (t.abs / 86400)).year

/-- Go `isDigit(s, i)`. -/
def isDigit (s : Bytes) (i : Nat) : Bool :=
  match s.get? i with
  | some c => decide (48 ≤ c ∧ c ≤ 57)
  | none => false

/-- Go `getnum(s, fixed)`: one or two leading digits; exactly two when `fixed`. -/
def getnum (s : Bytes) ( fixed : Bool) : Option (Int × Bytes) :=
  if ¬ isDigit s 0 then none
  else if ¬ isDigit s 1 then
    if fixed then none else some (((s.getD 0 48 - 48 : Nat) : Int), s.drop 1)
  else some ((((s.getD 0 48 - 48) * 10 + (s.getD 1 48 - 48) : Nat) : Int), s.drop 2)

/-- Value of a string of decimal digits; `none` if empty or if a byte is not a
digit (Go `atoi` on an unsigned field). -/
def atoiDigits (s : Bytes) : Option Nat :=
  if s = [] then none
  else s.foldl (fun acc c => acc.bind fun v => if 48 ≤ c ∧ c ≤ 57 then some (v * 10 + (c - 48)) else none)
    (some 0)

/-- Go `parseNanoseconds(value, nbytes)`: `value` starts with the separator, then
digits up to index `nbytes`; digits past the ninth are dropped. -/
def parseNanoseconds (value : Bytes) (nbytes : Nat) : Option Int :=
  let nbytes := if nbytes > 10 then 10 else nbytes
  (atoiDigits ((value.take nbytes).drop 1)).map fun ns => ((ns * 10 ^ (10 - nbytes) : Nat) : Int)

/-- Length of the run of digits of `value` from index 2 on, plus 2 (the loop
`for n := 2; n < len(value) && isDigit(value, n); n++`). -/
def fractionEnd (value : Bytes) : Nat :=
  2 + ((value.drop 2).takeWhile fun c => decide (48 ≤ c ∧ c ≤ 57)).length

/-- Go `time.Parse(ConstTimeFormat, value)`; `none` is a parse error. The result
is in UTC, since the layout carries no zone. After the seconds a fractional
second (`.` or `,` and digits) is accepted although the layout has none. -/
def Parse (value : Bytes) : Option Time :=
  if value.length < 4 ∨ ¬ isDigit value 0 then none
  else
    (atoiDigits (value.take 4)).bind fun year =>
    (getnum (value.drop 4) true).bind fun (month, v1) =>
    if month ≤ 0 ∨ 12 < month then none
    else
      (getnum v1 true).bind fun (day, v2) =>
      (getnum v2 false).bind fun (hour, v3) =>
      if 24 ≤ hour then none
      else
        (getnum v3 true).bind fun (min, v4) =>
        if 60 ≤ min then none
        else
          (getnum v4 true).bind fun (sec, v5) =>
          if 60 ≤ sec then none
          else
            let frac : Option (Int × Bytes) :=
              if v5.length ≥ 2 ∧ (v5.get? 0 = some 46 ∨ v5.get? 0 = some 44) ∧ isDigit v5 1 then
                (parseNanoseconds v5 (fractionEnd v5)).map fun ns => (ns, v5.drop (fractionEnd v5))
              else some (0, v5)
            frac.bind fun (nsec, v6) =>
            if v6.length > 0 then none
            else if day < 1 ∨ day > daysIn month year then none
            else some (Date year month day hour min sec nsec)

/-! ## `encoding/base64`: `URLEncoding` (URL-safe alphabet, `=` padding) -/

/-- The URL-safe alphabet: the character of a 6-bit value. -/
def encodeURLChar (v : Nat) : Nat :=
  if v < 26 then 65 + v
  else if v < 52 then 97 + (v - 26)
  else if v < 62 then 48 + (v - 52)
  else if v = 62 then 45
  else 95

/-- The decode map of the URL-safe alphabet: the 6-bit value of a character. -/
def decodeURLChar (c : Nat) : Option Nat :=
  if 65 ≤ c ∧ c ≤ 90 then some (c - 65)
  else if 97 ≤ c ∧ c ≤ 122 then some (c - 97 + 26)
  else if 48 ≤ c ∧ c ≤ 57 then some (c - 48 + 52)
  else if c = 45 then some 62
  else if c = 95 then some 63
  else none

/-- Go `base64.URLEncoding.EncodeToString`. -/
def EncodeToString : Bytes → Bytes
  | [] => []
  | [a] => [encodeURLChar (a / 4), encodeURLChar (a % 4 * 16), 61, 61]
  | [a, b] => [encodeURLChar (a / 4), encodeURLChar (a % 4 * 16 + b / 16),
      encodeURLChar (b % 16 * 4), 61]
  | a :: b :: c :: rest =>
    encodeURLChar (a / 4) :: encodeURLChar (a % 4 * 16 + b / 16)
      :: encodeURLChar (b % 16 * 4 + c / 64) :: encodeURLChar (c % 64) :: EncodeToString rest

/-- Decodes input made of whole 4-character quanta; the last one may end in `==`
or `=`, whose unused low bits are ignored (the encoding is not strict). -/
def decodeQuanta : Bytes → Option Bytes
  | [] => some []
  | a :: b :: c :: d :: rest =>
    (decodeURLChar a).bind fun x =>
    (decodeURLChar b).bind fun y =>
    if c = 61 ∧ d = 61 ∧ rest = [] then some [x * 4 + y / 16]
    else
      (decodeURLChar c).bind fun z =>
      if d = 61 ∧ rest = [] then some [x * 4 + y / 16, y % 16 * 16 + z / 4]
      else
        (decodeURLChar d).bind fun w =>
        (decodeQuanta rest).map fun tl =>
          (x * 4 + y / 16) :: (y % 16 * 16 + z / 4) :: (z % 4 * 64 + w) :: tl
  | _ => none

/-- Go `base64.URLEncoding.DecodeString`; `none` is a `CorruptInputError`. Carriage
returns and line feeds are skipped wherever they stand. -/
def DecodeString (s : Bytes) : Option Bytes :=
  decodeQuanta (s.filter fun c => decide (c ≠ 10 ∧ c ≠ 13))

/-! ## `encoding/json` on the `Session` struct -/

/-- The claims of a token (`type Session struct`). -/
structure Session where
  From : Bytes
  SrcID : Int
  ManagerID : Int
  UserID : Int
  Expire : Bytes
  Signature : Bytes

deriving DecidableEq, Repr

/-- The zero value `&Session{}`. -/
def Session.zero : Session := ⟨[], 0, 0, 0, [], []⟩

/-- A UTF-8 continuation byte. -/
def isCont (b : Nat) : Bool := decide (0x80 ≤ b ∧ b ≤ 0xBF)

/-- Go `utf8.DecodeRune`: the first rune of `p` and its width; an invalid or
truncated encoding is `(U+FFFD, 1)`. -/
def DecodeRune (p : Bytes) : Nat × Nat :=
  match p with
  | [] => (0xFFFD, 0)
  | b0 :: r =>
    if b0 < 0x80 then (b0, 1)
    else if 0xC2 ≤ b0 ∧ b0 ≤ 0xDF then
      match r with
      | b1 :: _ => if isCont b1 then ((b0 - 0xC0) * 64 + (b1 - 0x80), 2) else (0xFFFD, 1)
      | [] => (0xFFFD, 1)
    else if 0xE0 ≤ b0 ∧ b0 ≤ 0xEF then
      match r with
      | b1 :: b2 :: _ =>
        if (if b0 = 0xE0 then 0xA0 else 0x80) ≤ b1 ∧ b1 ≤ (if b0 = 0xED then 0x9F else 0xBF)
            ∧ isCont b2 then
          ((b0 - 0xE0) * 4096 + (b1 - 0x80) * 64 + (b2 - 0x80), 3)
        else (0xFFFD, 1)
      | _ => (0xFFFD, 1)
    else if 0xF0 ≤ b0 ∧ b0 ≤ 0xF4 then
      match r with
      | b1 :: b2 :: b3 :: _ =>
        if (if b0 = 0xF0 then 0x90 else 0x80) ≤ b1 ∧ b1 ≤ (if b0 = 0xF4 then 0x8F else 0xBF)
            ∧ isCont b2 ∧ isCont b3 then
          ((b0 - 0xF0) * 262144 + (b1 - 0x80) * 4096 + (b2 - 0x80) * 64 + (b3 - 0x80), 4)
        else (0xFFFD, 1)
      | _ => (0xFFFD, 1)
    else (0xFFFD, 1)

/-- The `htmlSafeSet` of `encoding/json`: ASCII bytes written as they are. -/
def htmlSafe (b : Nat) : Bool :=
  decide (0x20 ≤ b ∧ b < 0x80 ∧ b ≠ 34 ∧ b ≠ 92 ∧ b ≠ 60 ∧ b ≠ 62 ∧ b ≠ 38)

/-- The escape `encoding/json` writes for an ASCII byte outside `htmlSafeSet`. -/
def escapeByte (b : Nat) : Bytes :=
  if b = 92 ∨ b = 34 then [92, b]
  else if b = 8 then [92, 98]
  else if b = 12 then [92, 102]
  else if b = 10 then [92, 110]
  else if b = 13 then [92, 114]
  else if b = 9 then [92, 116]
  else [92, 117, 48, 48, hexDigit (b / 16), hexDigit (b % 16)]

/-- The body of `appendString` of `encoding/json` with HTML escaping on: the text
between the quotes for the Go string `src`. `fuel` bounds the number of runes. -/
def appendStringBody : Nat → Bytes → Bytes
  | 0, _ => []
  | _ + 1, [] => []
  | fuel + 1, b :: r =>
    if b < 0x80 then
      (if htmlSafe b then [b] else escapeByte b) ++ appendStringBody fuel r
    else
      let rs := DecodeRune (b :: r)
      if rs.1 = 0xFFFD ∧ rs.2 = 1 then
        [92, 117, 102, 102, 102, 100] ++ appendStringBody fuel r
      else if rs.1 = 0x2028 ∨ rs.1 = 0x2029 then
        [92, 117, 50, 48, 50, hexDigit (rs.1 % 16)] ++ appendStringBody fuel (r.drop (rs.2 - 1))
      else (b :: r).take rs.2 ++ appendStringBody fuel (r.drop (rs.2 - 1))

/-- A Go string as a JSON string literal. -/
def appendString (src : Bytes) : Bytes := 34 :: appendStringBody src.length src ++ [34]

/-- Go `json.Marshal(&Session{...})`: the fields in declaration order under their
`json` tags, no white space. It cannot fail on this struct. -/
def Marshal (s : Session) : Bytes :=
  utf8 "\x7b\"from\":" ++ appendString s.From
    ++ utf8 ",\"src_id\":" ++ Itoa s.SrcID
    ++ utf8 ",\"manager_id\":" ++ Itoa s.ManagerID
    ++ utf8 ",\"user_id\":" ++ Itoa s.UserID
    ++ utf8 ",\"expire\":" ++ appendString s.Expire
    ++ utf8 ",\"signature\":" ++ appendString s.Signature
    ++ utf8 "\x7d"

/-- JSON white space. -/
def isSpace (c : Nat) : Bool := decide (c = 32 ∨ c = 9 ∨ c = 13 ∨ c = 10)

/-- Drops leading JSON white space. -/
def skipWS : Bytes → Bytes
  | [] => []
  | c :: r => if isSpace c then skipWS r else c :: r

/-- Value of a hexadecimal digit. -/
def hexVal (c : Nat) : Option Nat :=
  if 48 ≤ c ∧ c ≤ 57 then some (c - 48)
  else if 97 ≤ c ∧ c ≤ 102 then some (c - 87)
  else if 65 ≤ c ∧ c ≤ 70 then some (c - 55)
  else none

/-- Go `getu4`: the code unit of `\uXXXX` at the head of the input. -/
def getu4 (s : Bytes) : Option Nat :=
  match s with
  | 92 :: 117 :: a :: b :: c :: d :: _ =>
    (hexVal a).bind fun x => (hexVal b).bind fun y => (hexVal c).bind fun z =>
      (hexVal d).map fun w => ((x * 16 + y) * 16 + z) * 16 + w
  | _ => none

/-- Reads a JSON string whose opening quote has been consumed: the decoded Go
string (`unquote`) and the input after the closing quote. Control characters and
unknown escapes are syntax errors; invalid UTF-8 and unpaired surrogates are
replaced by U+FFFD. -/
def scanString : Nat → Bytes → Option (Bytes × Bytes)
  | 0, _ => none
  | _ + 1, [] => none
  | fuel + 1, c :: r =>
    if c = 34 then some ([], r)
    else if c = 92 then
      match r with
      | [] => none
      | e :: r1 =>
        if e = 117 then
          (getu4 (c :: r)).bind fun rr =>
          let r2 := r1.drop 4
          if 0xD800 ≤ rr ∧ rr ≤ 0xDFFF then
            match getu4 r2 with
            | some rr1 =>
              if rr ≤ 0xDBFF ∧ 0xDC00 ≤ rr1 ∧ rr1 ≤ 0xDFFF then
                (scanString fuel (r2.drop 6)).map fun (t, rest) =>
                  (EncodeRune ((rr - 0xD800) * 1024 + (rr1 - 0xDC00) + 0x10000) ++ t, rest)
              else (scanString fuel r2).map fun (t, rest) => (EncodeRune 0xFFFD ++ t, rest)
            | none => (scanString fuel r2).map fun (t, rest) => (EncodeRune 0xFFFD ++ t, rest)
          else (scanString fuel r2).map fun (t, rest) => (EncodeRune rr ++ t, rest)
        else
          let plain : Option Nat :=
            if e = 34 ∨ e = 92 ∨ e = 47 then some e
            else if e = 98 then some 8
            else if e = 102 then some 12
            else if e = 110 then some 10
            else if e = 114 then some 13
            else if e = 116 then some 9
            else none
          plain.bind fun b => (scanString fuel r1).map fun (t, rest) => (b :: t, rest)
    else if c < 0x20 then none
    else if c < 0x80 then (scanString fuel r).map fun (t, rest) => (c :: t, rest)
    else
      let rs := DecodeRune (c :: r)
      (scanString fuel (r.drop (rs.2 - 1))).map fun (t, rest) => (EncodeRune rs.1 ++ t, rest)

/-- Splits off the leading run of decimal digits. -/
def spanDigits : Bytes → Bytes × Bytes
  | [] => ([], [])
  | c :: r =>
    if 48 ≤ c ∧ c ≤ 57 then ((c :: (spanDigits r).1), (spanDigits r).2) else ([], c :: r)

/-- The optional exponent of a JSON number. -/
def scanExponent (bs : Bytes) : Option (Bytes × Bytes) :=
  match bs with
  | c :: r =>
    if c = 101 ∨ c = 69 then
      let signed : Bytes × Bytes :=
        match r with
        | sg :: r1 => if sg = 43 ∨ sg = 45 then ([sg], r1) else ([], r)
        | [] => ([], r)
      let ds := spanDigits signed.2
      if ds.1 = [] then none else some (c :: signed.1 ++ ds.1, ds.2)
    else some ([], bs)
  | [] => some ([], bs)

/-- The optional fraction and exponent of a JSON number. -/
def scanFraction (bs : Bytes) : Option (Bytes × Bytes) :=
  match bs with
  | c :: r =>
    if c = 46 then
      let ds := spanDigits r
      if ds.1 = [] then none
      else (scanExponent ds.2).map fun (e, rest) => (c :: ds.1 ++ e, rest)
    else scanExponent bs
  | [] => some ([], bs)

/-- Reads a JSON number: its literal and the rest of the input. -/
def scanNumber (bs : Bytes) : Option (Bytes × Bytes) :=
  let signed : Bytes × Bytes :=
    match bs with
    | c :: r => if c = 45 then ([45], r) else ([], bs)
    | [] => ([], bs)
  match signed.2 with
  | [] => none
  | c :: r =>
    if c = 48 then (scanFraction r).map fun (f, rest) => (signed.1 ++ 48 :: f, rest)
    else if 49 ≤ c ∧ c ≤ 57 then
      let ds := spanDigits r
      (scanFraction ds.2).map fun (f, rest) => (signed.1 ++ c :: ds.1 ++ f, rest)
    else none

/-- What a JSON value is, as far as storing it into a field of `Session` goes. -/
inductive Token where
  | null
  | bool
  | number (lit : Bytes)
  | string (s : Bytes)
  | array
  | object

deriving DecidableEq, Repr

/-- The scanner's `maxNestingDepth`. -/
def maxNestingDepth : Nat := 10000

/-- Fuel that lets `scanValue` read any value at the head of `bs`: a call passes
on one unit less, and between two calls on the same input at most one other call
is made (`scanValue_scanFuel`: more fuel reads the same). -/
def scanFuel (bs : Bytes) : Nat := 2 * bs.length + 2

mutual
/-- Reads one JSON value at the head of the input (no leading white space);
`depth` counts the enclosing arrays and objects. -/
def scanValue : Nat → Nat → Bytes → Option (Token × Bytes)
  | 0, _, _ => none
  | fuel + 1, depth, bs =>
    match bs with
    | [] => none
    | c :: r =>
      if c = 34 then (scanString bs.length r).map fun (s, rest) => (Token.string s, rest)
      else if c = 123 then
        if depth ≥ maxNestingDepth then none
        else
          match skipWS r with
          | [] => none
          | c1 :: r1 =>
            if c1 = 125 then some (Token.object, r1)
            else (scanMembers fuel (depth + 1) (c1 :: r1)).map fun rest => (Token.object, rest)
      else if c = 91 then
        if depth ≥ maxNestingDepth then none
        else
          match skipWS r with
          | [] => none
          | c1 :: r1 =>
            if c1 = 93 then some (Token.array, r1)
            else (scanElements fuel (depth + 1) (c1 :: r1)).map fun rest => (Token.array, rest)
      else if c = 116 then
        if r.take 3 = [114, 117, 101] then some (Token.bool, r.drop 3) else none
      else if c = 102 then
        if r.take 4 = [97, 108, 115, 101] then some (Token.bool, r.drop 4) else none
      else if c = 110 then
        if r.take 3 = [117, 108, 108] then some (Token.null, r.drop 3) else none
      else (scanNumber bs).map fun (lit, rest) => (Token.number lit, rest)
/-- Reads the elements of an array from the first element to the closing bracket. -/
def scanElements : Nat → Nat → Bytes → Option Bytes
  | 0, _, _ => none
  | fuel + 1, depth, bs =>
    (scanValue fuel depth bs).bind fun (_, r) =>
    match skipWS r with
    | [] => none
    | c :: r1 =>
      if c = 44 then scanElements fuel depth (skipWS r1)
      else if c = 93 then some r1
      else none
/-- Reads the members of an object from the first key to the closing brace. -/
def scanMembers : Nat → Nat → Bytes → Option Bytes
  | 0, _, _ => none
  | fuel + 1, depth, bs =>
    match bs with
    | [] => none
    | q :: r =>
      if q = 34 then
        (scanString bs.length r).bind fun (_, r1) =>
        match skipWS r1 with
        | [] => none
        | c :: r2 =>
          if c = 58 then
            (scanValue fuel depth (skipWS r2)).bind fun (_, r3) =>
            match skipWS r3 with
            | [] => none
            | c1 :: r4 =>
              if c1 = 44 then scanMembers fuel depth (skipWS r4)
              else if c1 = 125 then some r4
              else none
          else none
      else none
end

/-- Go `strconv.ParseInt(s, 10, 64)`. -/
def ParseInt (s : Bytes) : Option Int :=
  let signed : Bool × Bytes :=
    match s with
    | c :: r => if c = 45 then (true, r) else if c = 43 then (false, r) else (false, s)
    | [] => (false, s)
  (atoiDigits signed.2).bind fun v =>
    let n : Int := if signed.1 then -(v : Int) else (v : Int)
    if -9223372036854775808 ≤ n ∧ n ≤ 9223372036854775807 then some n else none

/-- The case folding under which `encoding/json` matches an object key to a field
name: ASCII letters to upper case, U+017F to `S`, U+212A to `K`. Any other rune
folds to a rune outside ASCII, which no field name of `Session` holds, and is kept.
`fuel` bounds the number of runes. -/
def foldName : Nat → Bytes → Bytes
  | 0, _ => []
  | _ + 1, [] => []
  | fuel + 1, c :: r =>
    if c = 0xC5 ∧ r.take 1 = [0xBF] then 83 :: foldName fuel (r.drop 1)
    else if c = 0xE2 ∧ r.take 2 = [0x84, 0xAA] then 75 :: foldName fuel (r.drop 2)
    else (if 97 ≤ c ∧ c ≤ 122 then c - 32 else c) :: foldName fuel r

/-- Stores a JSON value into the field of `s` that `key` names (`d.object` and
`literalStore`): an unknown key is skipped, `null` leaves the field as it is, and
a value of the wrong kind, or an integer that does not fit, is an
`UnmarshalTypeError`, here `none`. -/
def store (s : Session) (key : Bytes) (v : Token) : Option Session :=
  let storeString (set : Bytes → Session) : Option Session :=
    match v with
    | Token.string x => some (set x)
    | Token.null => some s
    | _ => none
  let storeInt (set : Int → Session) : Option Session :=
    match v with
    | Token.number lit => (ParseInt lit).map set
    | Token.null => some s
    | _ => none
  let name := foldName key.length key
  if name = utf8 "FROM" then storeString fun x => { s with From := x }
  else if name = utf8 "SRC_ID" then storeInt fun n => { s with SrcID := n }
  else if name = utf8 "MANAGER_ID" then storeInt fun n => { s with ManagerID := n }
  else if name = utf8 "USER_ID" then storeInt fun n => { s with UserID := n }
  else if name = utf8 "EXPIRE" then storeString fun x => { s with Expire := x }
  else if name = utf8 "SIGNATURE" then storeString fun x => { s with Signature := x }
  else some s

/-- Decodes the members of the top-level object into `s`, from the first key to
the closing brace; a later member overrides an earlier one of the same field. -/
def decodeMembers : Nat → Session → Bytes → Option (Session × Bytes)
  | 0, _, _ => none
  | fuel + 1, s, bs =>
    match bs with
    | [] => none
    | q :: r =>
      if q = 34 then
        (scanString bs.length r).bind fun (key, r1) =>
        match skipWS r1 with
        | [] => none
        | c :: r2 =>
          if c = 58 then
            (scanValue (scanFuel r2) 1 (skipWS r2)).bind fun (v, r3) =>
            (store s key v).bind fun s1 =>
            match skipWS r3 with
            | [] => none
            | c1 :: r4 =>
              if c1 = 44 then decodeMembers fuel s1 (skipWS r4)
              else if c1 = 125 then some (s1, r4)
              else none
          else none
      else none

/-- Go `json.Unmarshal(data, s)` with `s := &Session{}`; `none` is an error (a
syntax error or an `UnmarshalTypeError`). The input is one JSON value between
optional white space: an object is decoded member by member, `null` leaves the
zero value, any other value is a type error. -/
def Unmarshal (data : Bytes) : Option Session :=
  match skipWS data with
  | [] => none
  | c :: r =>
    if c = 123 then
      match skipWS r with
      | [] => none
      | c1 :: r1 =>
        if c1 = 125 then (if skipWS r1 = [] then some Session.zero else none)
        else
          (decodeMembers (data.length + 1) Session.zero (c1 :: r1)).bind fun (s, rest) =>
            if skipWS rest = [] then some s else none
    else
      (scanValue (scanFuel data) 0 (c :: r)).bind fun (v, rest) =>
        if skipWS rest = [] then (if v = Token.null then some Session.zero else none) else none

/-- What a Go string becomes when it is marshalled and unmarshalled again (Go
`strings.ToValidUTF8(s, "�")` applied byte by byte): valid UTF-8 is kept, every
byte that is not part of a valid encoding becomes U+FFFD. `fuel` bounds the number
of runes. -/
def toValidUTF8 : Nat → Bytes → Bytes
  | 0, _ => []
  | _ + 1, [] => []
  | fuel + 1, b :: r =>
    if b < 0x80 then b :: toValidUTF8 fuel r
    else
      let rs := DecodeRune (b :: r)
      EncodeRune rs.1 ++ toValidUTF8 fuel (r.drop (rs.2 - 1))

/-- The three ids of the claims are values of the 64-bit Go `int`. -/
def idsInt64 (s : Session) : Prop :=
  (-9223372036854775808 ≤ s.SrcID ∧ s.SrcID ≤ 9223372036854775807)
    ∧ (-9223372036854775808 ≤ s.ManagerID ∧ s.ManagerID ≤ 9223372036854775807)
    ∧ (-9223372036854775808 ≤ s.UserID ∧ s.UserID ≤ 9223372036854775807)

/-! ## `session/session.go` -/

/-- The layout constant and the three origin tags. -/
def ConstFromA : Bytes := utf8 "A"

/-- The origin tag `B`. -/
def ConstFromB : Bytes := utf8 "B"

/-- The origin tag `C`. -/
def ConstFromC : Bytes := utf8 "C"

/-- The text of a Go `error` value returned by the secret resolver. -/
abbrev GoError := String

/-- The errors of the package, one constructor for each `fmt.Errorf` of
`session.go`, with the values its message is formatted from. The text of an error
of the standard library (base64, json, time) is not kept. -/
inductive Error where
  | generateGetSecretKey (from' : Bytes) (srcID managerID userID : Int) (err : GoError)
  | base64Decode
  | jsonUnmarshal
  | diffFrom (from' sFrom : Bytes)
  | parseExpire (expire : Bytes)
  | timeout
  | verifyGetSecretKey (srcID managerID userID : Int) (err : GoError)
  | verifyNewSignature (srcID managerID userID : Int) (err : Error)
  | unauthorized
  | newSessionSignature (err : Error)
  | unknownFrom (from' : Bytes)

deriving DecidableEq, Repr

/-- The secret resolver `getSecretKey func(srcID int, managerID int) (string, error)`:
any Go function, so it reads and writes a state of its own. -/
abbrev Resolver (σ : Type) := Int → Int → σ → Except GoError Bytes × σ

/-- The string that `newSignature` hashes (line 104): origin tag, the three ids in
decimal, the expiry text and the secret, with nothing between them. -/
def signingInput (from' : Bytes) (srcID managerID userID : Int) (expireText secretKey : Bytes) :
    Bytes :=
  from' ++ Itoa srcID ++ Itoa managerID ++ Itoa userID ++ expireText ++ secretKey

/-- The function `newSignature` of `session.go`. -/
def newSignature (from' : Bytes) (srcID managerID userID : Int) (expire : Time)
    (secretKey : Bytes) : Except Error Bytes :=
  if from' = ConstFromA ∨ from' = ConstFromB ∨ from' = ConstFromC then
    let source := signingInput from' srcID managerID userID expire.Format secretKey
    Except.ok (hexEncode (sha1Sum source))
  else Except.error (Error.unknownFrom from')

/-- The function `newSession` of `session.go`. `json.Marshal` cannot fail on a
`Session`, so the error return of line 92 has no counterpart. -/
def newSession (from' : Bytes) (srcID managerID userID : Int) (expire : Time)
    (secretKey : Bytes) : Except Error Bytes :=
  match newSignature from' srcID managerID userID expire secretKey with
  | Except.error err => Except.error (Error.newSessionSignature err)
  | Except.ok signature =>
    let data := Marshal
      { From := from', SrcID := srcID, ManagerID := managerID, UserID := userID,
        Expire := expire.Format, Signature := signature }
    Except.ok (EncodeToString data)

/-- The function `GenerateSession` of `session.go`; `now` is what `time.Now()`
returns (its location is the process's local zone) and `st` the resolver's state. -/
def GenerateSession {σ : Type} (from' : Bytes) (srcID managerID userID : Int)
    (duration : Duration) (getSecretKey : Resolver σ) (now : Time) (st : σ) :
    Except Error Bytes × σ :=
  let expire := now.Add duration
  match getSecretKey srcID managerID st with
  | (Except.error err, st1) =>
    (Except.error (Error.generateGetSecretKey from' srcID managerID userID err), st1)
  | (Except.ok secretKey, st1) =>
    (newSession from' srcID managerID userID expire secretKey, st1)

/-- The function `VerifySession` of `session.go`; `now` is what `time.Now()` returns
at line 59 and `st` the resolver's state. -/
def VerifySession {σ : Type} (from' : Bytes) (session : Bytes) (getSecretKey : Resolver σ)
    (now : Time) (st : σ) : Except Error Session × σ :=
  match DecodeString session with
  | none => (Except.error Error.base64Decode, st)
  | some jsonSource =>
    match Unmarshal jsonSource with
    | none => (Except.error Error.jsonUnmarshal, st)
    | some s =>
      if from' ≠ s.From then (Except.error (Error.diffFrom from' s.From), st)
      else
        match Parse s.Expire with
        | none => (Except.error (Error.parseExpire s.Expire), st)
        | some expireTime =>
          if expireTime.Before now then (Except.error Error.timeout, st)
          else
            match getSecretKey s.SrcID s.ManagerID st with
            | (Except.error err, st1) =>
              (Except.error (Error.verifyGetSecretKey s.SrcID s.ManagerID s.UserID err), st1)
            | (Except.ok secretKey, st1) =>
              match newSignature s.From s.SrcID s.ManagerID s.UserID expireTime secretKey with
              | Except.error err =>
                (Except.error (Error.verifyNewSignature s.SrcID s.ManagerID s.UserID err), st1)
              | Except.ok signature =>
                if signature ≠ s.Signature then (Except.error Error.unauthorized, st1)
                else (Except.ok s, st1)

/-- The claims `newSession` marshals for a known origin: the struct literal of lines
83 to 90, its signature being the digest `newSignature` returns at line 107. -/
def mintedClaims (from' : Bytes) (srcID managerID userID : Int) (expire : Time)
    (secretKey : Bytes) : Session :=
  { From := from', SrcID := srcID, ManagerID := managerID, UserID := userID,
    Expire := expire.Format,
    Signature := hexEncode (sha1Sum
      (signingInput from' srcID managerID userID expire.Format secretKey)) }

/-! ## Concrete data -/

deriving instance DecidableEq for Except

/-- A resolver that always returns the secret `key` and counts its calls. -/
def fixedSecret (key : Bytes) : Resolver Nat := fun _ _ calls => (Except.ok key, calls + 1)

/-- A resolver that always fails, and counts its calls. -/
def failingResolver : Resolver Nat := fun _ _ calls => (Except.error "no key", calls + 1)

/-- The secret of the examples. -/
def exampleSecret : Bytes := utf8 "s3cret"

/-- 2025-11-04T12:20:00.123456789Z, displayed in UTC. -/
def exampleNow : Time := ⟨1762258800123456789, UTC⟩

/-- One hour, in nanoseconds. -/
def oneHour : Duration := 3600000000000

/-- The token `GenerateSession` mints at `exampleNow` for origin `A`, ids 12, 34, 56, one
hour and `exampleSecret`. -/
def exampleToken : Bytes := utf8 "eyJmcm9tIjoiQSIsInNyY19pZCI6MTIsIm1hbmFnZXJfaWQiOjM0LCJ1c2VyX2lkIjo1NiwiZXhwaXJlIjoiMjAyNTExMDQxMzIwMDAiLCJzaWduYXR1cmUiOiI1ZWNmYzE2ZTE0MTNkODg4NDA4Nzc5OTM1ZmFiZDgxYzM4MmRhMGMyIn0="

/-- The claims of `exampleToken`. -/
def exampleClaims : Session :=
  { From := utf8 "A", SrcID := 12, ManagerID := 34, UserID := 56,
    Expire := utf8 "20251104132000",
    Signature := utf8 "5ecfc16e1413d888408779935fabd81c382da0c2" }

/-- Half a second, in nanoseconds. -/
def halfSecond : Duration := 500000000

/-- The token `GenerateSession` mints at `exampleNow` for origin `A`, ids 12, 34, 56,
half a second and `exampleSecret`; its expire text is `20251104122000`. -/
def halfSecondToken : Bytes := utf8 "eyJmcm9tIjoiQSIsInNyY19pZCI6MTIsIm1hbmFnZXJfaWQiOjM0LCJ1c2VyX2lkIjo1NiwiZXhwaXJlIjoiMjAyNTExMDQxMjIwMDAiLCJzaWduYXR1cmUiOiI5NDFjNThlYTg0MTY1OWZmNWQ3NTRiMGY2MmRmNjM5NTE0N2FmZTY1In0="

/-- The instant 2025-11-04T13:20:00Z exactly, the expiry written in `exampleToken`. -/
def exampleExpiry : Time := ⟨1762262400000000000, UTC⟩

/-- The claims of `exampleToken` with the first character of the signature changed
from `5` to `6`. -/
def tamperedSignatureClaims : Session :=
  { exampleClaims with Signature := utf8 "6ecfc16e1413d888408779935fabd81c382da0c2" }

/-- The claims of `exampleToken` with the origin changed from `A` to `B`. -/
def tamperedFromClaims : Session := { exampleClaims with From := utf8 "B" }

/-- The claims of `exampleToken` with the last digit of `user_id` changed: 57 for 56. -/
def tamperedUserClaims : Session := { exampleClaims with UserID := 57 }

/-! ## More concrete data: zones, a negative lifetime, a fractional second -/

/-- A zone eight hours east of UTC all year (China Standard Time). -/
def utcPlus8 : Location := ⟨fun _ => 28800⟩

/-- A zone five hours west of UTC (Eastern Standard Time). -/
def utcMinus5 : Location := ⟨fun _ => -18000⟩

/-- The instant of `exampleNow` on the clock of a process whose local zone is `utcPlus8`:
20:20:00.123456789 local time. -/
def nowPlus8 : Time := ⟨1762258800123456789, utcPlus8⟩

/-- The instant of `exampleNow` on the clock of a process whose local zone is `utcMinus5`:
07:20:00.123456789 local time. -/
def nowMinus5 : Time := ⟨1762258800123456789, utcMinus5⟩

/-- One second back, in nanoseconds: the lifetime `-1 second`. -/
def minusOneSecond : Duration := -1000000000

/-- The claims of `exampleToken` with a fractional second appended to the expire text;
the signature is the one of `exampleToken`. -/
def fractionClaims : Session := { exampleClaims with Expire := utf8 "20251104132000.5" }

/-! ## `commonHTTP/config.go` and `errorHandler/errHandler.go` -/

/-- The struct `errConfig`: an error code and its message. -/
structure errConfig where
  code : Int
  msg : Bytes

deriving DecidableEq, Repr

/-- The function `errCodeConfig` of `config.go`: the table of error codes. -/
def errCodeConfig : List errConfig :=
  [ ⟨4001, utf8 "参数错误"⟩,
    ⟨4002, utf8 "验证码已存在"⟩,
    ⟨4003, utf8 "验证码错误"⟩,
    ⟨4004, utf8 "用户不存在"⟩,
    ⟨4005, utf8 "无效签名"⟩,
    ⟨4006, utf8 "用户密码不可为空"⟩,
    ⟨4007, utf8 "重复提交"⟩,
    ⟨5001, utf8 "系统错误"⟩ ]

/-- A Go `map[int]string`: its entries, one for each key, in no particular order. -/
abbrev CodeMap := List (Int × Bytes)

/-- Go `m[k]` with the comma-ok form: the value stored under `k`, if any. -/
def CodeMap.get (m : CodeMap) (k : Int) : Option Bytes := m.lookup k

/-- Go `m[k] = v`: the entry of `k` is added, or replaced when `k` is already a key. -/
def CodeMap.set (m : CodeMap) (k : Int) (v : Bytes) : CodeMap :=
  (k, v) :: m.filter fun e => e.1 ≠ k

/-- Go `len(m)`: the number of keys. -/
def CodeMap.len (m : CodeMap) : Nat := m.length

/-- The keys of the map. -/
def CodeMap.keys (m : CodeMap) : List Int := m.map Prod.fst

/-- The function `init` of `errHandler.go`: the map `codeMapping`, filled entry by entry
from the list that `config()` returns. The function `config` is not defined in the
source files at hand, so its result is the parameter `config`. -/
def init (config : List errConfig) : CodeMap :=
  config.foldl (fun codeMapping errConfig => codeMapping.set errConfig.code errConfig.msg) []

/-- The struct `ErrCode`: the JSON envelope, `err_no` and `err_msg`. -/
structure ErrCode where
  Code : Int
  Msg : Bytes

deriving DecidableEq, Repr

/-- The method `String` of `*ErrCode`: `errNo:%v errMsg:%v`. -/
def ErrCode.String (err : ErrCode) : Bytes :=
  utf8 "errNo:" ++ Itoa err.Code ++ utf8 " errMsg:" ++ err.Msg

/-- The struct `errCommon`. -/
structure errCommon where
  errCode : Int
  errMsg : Bytes
  logMsg : Bytes

deriving DecidableEq, Repr

/-- A Go `error` value that is not the nil interface, as the package meets it: a
`*errCommon` (the pointer may be nil) or a value of any other type, of which only the
text that its `Error()` returns is used. -/
inductive ErrorObject where
  | common (p : Option errCommon)
  | other (text : Bytes)

deriving DecidableEq, Repr

/-- A Go `error`: `none` is the nil interface. -/
abbrev GoErrorValue := Option ErrorObject

/-- The method `Error` of `*errCommon`, which answers for a nil pointer too. -/
def errCommon.Error (err : Option errCommon) : Bytes :=
  match err with
  | none => utf8 "nil errCommon in errHandler package"
  | some e => e.errMsg

/-- Go `err.Error()` on an `error` value that is not nil. -/
def ErrorObject.Error (err : ErrorObject) : Bytes :=
  match err with
  | ErrorObject.common p => errCommon.Error p
  | ErrorObject.other text => text

/-- Go `strings.Join(elems, sep)`. -/
def Join (elems : List Bytes) (sep : Bytes) : Bytes :=
  match elems with
  | [] => []
  | [a] => a
  | a :: b :: rest => a ++ sep ++ Join (b :: rest) sep

/-- The method `Errorf` of `*ErrCode` (the receiver is not used); `codeMapping` is the
package variable that `init` has filled. -/
def Errorf (codeMapping : CodeMap) (err : GoErrorValue) (errCode : Int) (msg : List Bytes) :
    GoErrorValue :=
  match err with
  | none => none
  | some e =>
    let errMsg : Bytes :=
      match codeMapping.get errCode with
      | some m => m
      | none => utf8 "undefind err msg code " ++ Itoa errCode
    let logMsg := errMsg ++ utf8 " - " ++ e.Error
    let logMsg := if msg.length > 0 then logMsg ++ utf8 " - " ++ Join msg (utf8 " ") else logMsg
    some (ErrorObject.common (some { errCode := errCode, errMsg := errMsg, logMsg := logMsg }))

/-- What `ErrHandler` reads of the `echo.Context`: the request URI and method, whether
the response is already committed, and the error, if any, that echo returns from
sending the response. -/
structure Context where
  RequestURI : Bytes
  Method : Bytes
  Committed : Bool
  sendError : Option Bytes

/-- What `ErrHandler` hands to echo to send: `c.NoContent(code)`, a status and no body,
or `c.JSON(code, msg)`, a status and the JSON text of the envelope `msg`. -/
inductive Sent where
  | noContent (code : Int)
  | json (code : Int) (msg : ErrCode)

deriving DecidableEq, Repr

/-- What `ErrHandler` has done: the lines logged (first the warning, then the error of a
failed send, if any) and what was sent, if anything. -/
structure Handled where
  log : List Bytes
  sent : Option Sent

deriving DecidableEq, Repr

/-- Go `http.StatusOK`. -/
def StatusOK : Int := 200

/-- The constant `echo.HEAD`. -/
def HEAD : Bytes := utf8 "HEAD"

/-- The function `ErrHandler` of `errHandler.go`; `none` is a panic (the call of `Error`
on the nil interface, or the field access through a nil `*errCommon`). -/
def ErrHandler (err : GoErrorValue) (c : Context) : Option Handled :=
  let code := StatusOK
  let filled : Option (ErrCode × Bytes) :=
    match err with
    | some (ErrorObject.common (some errC)) =>
      some ({ Code := errC.errCode, Msg := errC.errMsg }, errC.logMsg)
    | some (ErrorObject.common none) => none
    | some (ErrorObject.other text) => some ({ Code := -1, Msg := text }, text)
    | none => none
  filled.map fun (msg, logMsg) =>
    let warning :=
      utf8 "uri:" ++ c.RequestURI ++ utf8 " err:" ++ msg.String ++ utf8 " info:" ++ logMsg
    if ¬ c.Committed then
      let sent := if c.Method = HEAD then Sent.noContent code else Sent.json code msg
      match c.sendError with
      | some e => { log := [warning, e], sent := some sent }
      | none => { log := [warning], sent := some sent }
    else { log := [warning], sent := none }

/-- The package variable `codeMapping` when `config()` returns the table of
`errCodeConfig`. -/
def codeMapping : CodeMap := init errCodeConfig

/-- A request `GET /login` whose response is not yet committed. -/
def getRequest : Context :=
  { RequestURI := utf8 "/login", Method := utf8 "GET", Committed := false, sendError := none }

/-- A request `HEAD /login` whose response is not yet committed. -/
def headRequest : Context := { getRequest with Method := utf8 "HEAD" }

/-- A request `GET /login` whose response is already committed. -/
def committedRequest : Context := { getRequest with Committed := true }

/-- An error of another package, with the text `connection refused`. -/
def otherError : GoErrorValue := some (ErrorObject.other (utf8 "connection refused"))

/-! # Theorems -/

/-! ## The steps of `newSignature`, `GenerateSession` and `VerifySession` -/

theorem newSignature_ok_of_known (from' : Bytes) (srcID managerID userID : Int) (expire : Time)
    (secretKey : Bytes) (h : from' = ConstFromA ∨ from' = ConstFromB ∨ from' = ConstFromC) :
    newSignature from' srcID managerID userID expire secretKey
      = Except.ok (hexEncode (sha1Sum
          (signingInput from' srcID managerID userID expire.Format secretKey))) := by
  simp [newSignature, h]

theorem newSignature_error_of_unknown (from' : Bytes) (srcID managerID userID : Int)
    (expire : Time) (secretKey : Bytes)
    (h : ¬ (from' = ConstFromA ∨ from' = ConstFromB ∨ from' = ConstFromC)) :
    newSignature from' srcID managerID userID expire secretKey
      = Except.error (Error.unknownFrom from') := by
  simp [newSignature, h]

/-- C6. `newSignature` fails exactly when the origin is none of `A`, `B`, `C`, and
the error is then the unknown-origin error; for each of the three origins it succeeds,
whatever the ids, the expiry and the secret, with the hex digest of the signing input. -/
theorem newSignature_unknown_origin_iff (from' : Bytes) (srcID managerID userID : Int)
    (expire : Time) (secretKey : Bytes) :
    ((∃ err, newSignature from' srcID managerID userID expire secretKey = Except.error err)
        ↔ ¬ (from' = ConstFromA ∨ from' = ConstFromB ∨ from' = ConstFromC))
    ∧ (∀ err, newSignature from' srcID managerID userID expire secretKey = Except.error err →
        err = Error.unknownFrom from')
    ∧ ((from' = ConstFromA ∨ from' = ConstFromB ∨ from' = ConstFromC) →
        newSignature from' srcID managerID userID expire secretKey
          = Except.ok (hexEncode (sha1Sum
              (signingInput from' srcID managerID userID expire.Format secretKey)))) := by
  by_cases h : from' = ConstFromA ∨ from' = ConstFromB ∨ from' = ConstFromC
  · simp [newSignature_ok_of_known _ _ _ _ _ _ h, h]
  · simp [newSignature_error_of_unknown _ _ _ _ _ _ h, h]

/-- C7. `GenerateSession` returns an error exactly when the resolver fails for
`(srcID, managerID)` or the origin is none of `A`, `B`, `C`; otherwise it returns a
token. When the resolver fails the error is the secret-resolution error, whether or not
the origin is known; an unknown origin under a working resolver gives the
unknown-origin error of the signing step. -/
theorem GenerateSession_error_iff {σ : Type} (from' : Bytes) (srcID managerID userID : Int)
    (duration : Duration) (getSecretKey : Resolver σ) (now : Time) (st : σ) :
    (∀ err, (getSecretKey srcID managerID st).1 = Except.error err →
        (GenerateSession from' srcID managerID userID duration getSecretKey now st).1
          = Except.error (Error.generateGetSecretKey from' srcID managerID userID err))
    ∧ (∀ secretKey, (getSecretKey srcID managerID st).1 = Except.ok secretKey →
        ¬ (from' = ConstFromA ∨ from' = ConstFromB ∨ from' = ConstFromC) →
        (GenerateSession from' srcID managerID userID duration getSecretKey now st).1
          = Except.error (Error.newSessionSignature (Error.unknownFrom from')))
    ∧ (∀ secretKey, (getSecretKey srcID managerID st).1 = Except.ok secretKey →
        (from' = ConstFromA ∨ from' = ConstFromB ∨ from' = ConstFromC) →
        ∃ token, (GenerateSession from' srcID managerID userID duration getSecretKey now st).1
          = Except.ok token)
    ∧ ((∃ err, (GenerateSession from' srcID managerID userID duration getSecretKey now st).1
          = Except.error err)
        ↔ ((∃ err, (getSecretKey srcID managerID st).1 = Except.error err)
            ∨ ¬ (from' = ConstFromA ∨ from' = ConstFromB ∨ from' = ConstFromC))) := by
  unfold GenerateSession
  rcases hg : getSecretKey srcID managerID st with ⟨r, st1⟩
  cases r with
  | error e => simp
  | ok k =>
    by_cases h : from' = ConstFromA ∨ from' = ConstFromB ∨ from' = ConstFromC
    · simp [newSession, newSignature_ok_of_known _ _ _ _ _ _ h, h]
    · simp [newSession, newSignature_error_of_unknown _ _ _ _ _ _ h, h]

section Verify

variable {σ : Type} (from' session : Bytes) (getSecretKey : Resolver σ) (now : Time) (st : σ)

theorem VerifySession_decode_none (h : DecodeString session = none) :
    VerifySession from' session getSecretKey now st = (Except.error Error.base64Decode, st) := by
  simp [VerifySession, h]

theorem VerifySession_unmarshal_none {jsonSource : Bytes}
    (hd : DecodeString session = some jsonSource) (hu : Unmarshal jsonSource = none) :
    VerifySession from' session getSecretKey now st = (Except.error Error.jsonUnmarshal, st) := by
  simp [VerifySession, hd, hu]

theorem VerifySession_diffFrom {jsonSource : Bytes} {s : Session}
    (hd : DecodeString session = some jsonSource) (hu : Unmarshal jsonSource = some s)
    (hf : from' ≠ s.From) :
    VerifySession from' session getSecretKey now st
      = (Except.error (Error.diffFrom from' s.From), st) := by
  simp [VerifySession, hd, hu, hf]

theorem VerifySession_parse_none {jsonSource : Bytes} {s : Session}
    (hd : DecodeString session = some jsonSource) (hu : Unmarshal jsonSource = some s)
    (hf : from' = s.From) (hp : Parse s.Expire = none) :
    VerifySession from' session getSecretKey now st
      = (Except.error (Error.parseExpire s.Expire), st) := by
  simp [VerifySession, hd, hu, hf, hp]

theorem VerifySession_timeout {jsonSource : Bytes} {s : Session} {expireTime : Time}
    (hd : DecodeString session = some jsonSource) (hu : Unmarshal jsonSource = some s)
    (hf : from' = s.From) (hp : Parse s.Expire = some expireTime)
    (hb : expireTime.Before now = true) :
    VerifySession from' session getSecretKey now st = (Except.error Error.timeout, st) := by
  simp [VerifySession, hd, hu, hf, hp, hb]

theorem VerifySession_resolver_error {jsonSource : Bytes} {s : Session} {expireTime : Time}
    {err : GoError} {st1 : σ}
    (hd : DecodeString session = some jsonSource) (hu : Unmarshal jsonSource = some s)
    (hf : from' = s.From) (hp : Parse s.Expire = some expireTime)
    (hb : expireTime.Before now = false)
    (hg : getSecretKey s.SrcID s.ManagerID st = (Except.error err, st1)) :
    VerifySession from' session getSecretKey now st
      = (Except.error (Error.verifyGetSecretKey s.SrcID s.ManagerID s.UserID err), st1) := by
  simp [VerifySession, hd, hu, hf, hp, hb, hg]

theorem VerifySession_signature_error {jsonSource : Bytes} {s : Session} {expireTime : Time}
    {secretKey : Bytes} {st1 : σ} {err : Error}
    (hd : DecodeString session = some jsonSource) (hu : Unmarshal jsonSource = some s)
    (hf : from' = s.From) (hp : Parse s.Expire = some expireTime)
    (hb : expireTime.Before now = false)
    (hg : getSecretKey s.SrcID s.ManagerID st = (Except.ok secretKey, st1))
    (hs : newSignature s.From s.SrcID s.ManagerID s.UserID expireTime secretKey
      = Except.error err) :
    VerifySession from' session getSecretKey now st
      = (Except.error (Error.verifyNewSignature s.SrcID s.ManagerID s.UserID err), st1) := by
  simp [VerifySession, hd, hu, hf, hp, hb, hg, hs]

theorem VerifySession_unauthorized {jsonSource : Bytes} {s : Session} {expireTime : Time}
    {secretKey : Bytes} {st1 : σ} {signature : Bytes}
    (hd : DecodeString session = some jsonSource) (hu : Unmarshal jsonSource = some s)
    (hf : from' = s.From) (hp : Parse s.Expire = some expireTime)
    (hb : expireTime.Before now = false)
    (hg : getSecretKey s.SrcID s.ManagerID st = (Except.ok secretKey, st1))
    (hs : newSignature s.From s.SrcID s.ManagerID s.UserID expireTime secretKey
      = Except.ok signature)
    (hne : signature ≠ s.Signature) :
    VerifySession from' session getSecretKey now st = (Except.error Error.unauthorized, st1) := by
  simp [VerifySession, hd, hu, hf, hp, hb, hg, hs, hne]

theorem VerifySession_accept {jsonSource : Bytes} {s : Session} {expireTime : Time}
    {secretKey : Bytes} {st1 : σ}
    (hd : DecodeString session = some jsonSource) (hu : Unmarshal jsonSource = some s)
    (hf : from' = s.From) (hp : Parse s.Expire = some expireTime)
    (hb : expireTime.Before now = false)
    (hg : getSecretKey s.SrcID s.ManagerID st = (Except.ok secretKey, st1))
    (hs : newSignature s.From s.SrcID s.ManagerID s.UserID expireTime secretKey
      = Except.ok s.Signature) :
    VerifySession from' session getSecretKey now st = (Except.ok s, st1) := by
  simp [VerifySession, hd, hu, hf, hp, hb, hg, hs]

/-- Everything an accepted token has passed. -/
theorem VerifySession_ok_inv {s : Session} {st1 : σ}
    (h : VerifySession from' session getSecretKey now st = (Except.ok s, st1)) :
    ∃ jsonSource expireTime secretKey,
      DecodeString session = some jsonSource ∧ Unmarshal jsonSource = some s ∧ from' = s.From
      ∧ Parse s.Expire = some expireTime ∧ expireTime.Before now = false
      ∧ getSecretKey s.SrcID s.ManagerID st = (Except.ok secretKey, st1)
      ∧ newSignature s.From s.SrcID s.ManagerID s.UserID expireTime secretKey
          = Except.ok s.Signature := by
  unfold VerifySession at h
  cases hd : DecodeString session with
  | none => simp [hd] at h
  | some js =>
    cases hu : Unmarshal js with
    | none => simp [hd, hu] at h
    | some s0 =>
      by_cases hf : from' = s0.From
      · cases hp : Parse s0.Expire with
        | none => simp [hd, hu, hf, hp] at h
        | some t =>
          cases hb : t.Before now with
          | true => simp [hd, hu, hf, hp, hb] at h
          | false =>
            rcases hg : getSecretKey s0.SrcID s0.ManagerID st with ⟨r, st2⟩
            cases r with
            | error e => simp [hd, hu, hf, hp, hb, hg] at h
            | ok k =>
              cases hs : newSignature s0.From s0.SrcID s0.ManagerID s0.UserID t k with
              | error e => simp [hd, hu, hf, hp, hb, hg, hs] at h
              | ok sig =>
                by_cases hne : sig = s0.Signature
                · simp [hd, hu, hf, hp, hb, hg, hs, hne] at h
                  obtain ⟨h1, h2⟩ := h
                  subst h1 h2
                  exact ⟨js, t, k, rfl, hu, hf, hp, hb, hg, by rw [hs, hne]⟩
                · simp [hd, hu, hf, hp, hb, hg, hs, hne] at h
      · simp [hd, hu, hf] at h

end Verify

theorem exampleToken_minted :
    GenerateSession ConstFromA 12 34 56 oneHour (fixedSecret exampleSecret) exampleNow 0
      = (Except.ok exampleToken, 1) := by decide!

theorem exampleToken_decodes : DecodeString exampleToken = some (Marshal exampleClaims) := by
  decide!

theorem exampleClaims_unmarshal : Unmarshal (Marshal exampleClaims) = some exampleClaims := by
  decide!

theorem exampleClaims_parse :
    Parse exampleClaims.Expire = some (Date 2025 11 4 13 20 0 0) := by
  rfl

/-- C8. `VerifySession` never accepts an origin outside the closed enumeration: when
it succeeds, the `from` field of the returned claims is the expected origin and is one
of `A`, `B`, `C`. -/
theorem VerifySession_ok_origin {σ : Type} (from' session : Bytes) (getSecretKey : Resolver σ)
    (now : Time) (st : σ) (s : Session)
    (h : (VerifySession from' session getSecretKey now st).1 = Except.ok s) :
    s.From = from' ∧ (s.From = ConstFromA ∨ s.From = ConstFromB ∨ s.From = ConstFromC) := by
  have h' : VerifySession from' session getSecretKey now st
      = (Except.ok s, (VerifySession from' session getSecretKey now st).2) := by
    rw [← h]
  obtain ⟨js, t, k, -, -, hf, -, -, -, hs⟩ := VerifySession_ok_inv _ _ _ _ _ h'
  refine ⟨hf.symm, ?_⟩
  by_contra hn
  rw [newSignature_error_of_unknown _ _ _ _ _ _ hn] at hs
  cases hs

theorem VerifySession_ok_origin_witness :
    (VerifySession ConstFromA exampleToken (fixedSecret exampleSecret) exampleNow 0).1
        = Except.ok exampleClaims
      ∧ exampleClaims.From = ConstFromA
      ∧ (exampleClaims.From = ConstFromA ∨ exampleClaims.From = ConstFromB
          ∨ exampleClaims.From = ConstFromC) :=
  ⟨by decide!, VerifySession_ok_origin ConstFromA exampleToken (fixedSecret exampleSecret)
    exampleNow 0 exampleClaims (by decide!)⟩

/-- C9. Origin mismatch: for a token that base64-decodes and parses into claims whose
`from` differs from the expected origin, `VerifySession` fails with the origin-mismatch
error, whatever the expire and signature fields hold, and returns the resolver state
untouched: the resolver is not called. -/
theorem VerifySession_origin_mismatch {σ : Type} (from' session : Bytes)
    (getSecretKey : Resolver σ) (now : Time) (st : σ) (jsonSource : Bytes) (s : Session)
    (hd : DecodeString session = some jsonSource) (hu : Unmarshal jsonSource = some s)
    (hf : s.From ≠ from') :
    VerifySession from' session getSecretKey now st
      = (Except.error (Error.diffFrom from' s.From), st) :=
  VerifySession_diffFrom from' session getSecretKey now st hd hu (fun h => hf h.symm)

theorem VerifySession_origin_mismatch_witness :
    VerifySession ConstFromB exampleToken failingResolver exampleNow 0
      = (Except.error (Error.diffFrom ConstFromB ConstFromA), 0) :=
  VerifySession_origin_mismatch ConstFromB exampleToken failingResolver exampleNow 0
    (Marshal exampleClaims) exampleClaims (by decide!) (by decide!) (by decide)

/-! ## The calendar: `absDate` and `Date` are inverse -/

/-- The arithmetic core of `absYear`: cutting a day count into 400-, 100-, 4- and 1-year
cycles. -/
theorem cycles_spec (days n400 c g n4 j k : Int)
    (h400 : 0 ≤ days - 146097 * n400 ∧ days - 146097 * n400 < 146097)
    (hc : 0 ≤ days - 146097 * n400 - 36524 * c ∧ days - 146097 * n400 - 36524 * c < 36524)
    (hg : 0 ≤ c - 4 * g ∧ c - 4 * g < 4)
    (h4 : 0 ≤ days - 146097 * n400 - 36524 * (c - g) - 1461 * n4
      ∧ days - 146097 * n400 - 36524 * (c - g) - 1461 * n4 < 1461)
    (hj : 0 ≤ days - 146097 * n400 - 36524 * (c - g) - 1461 * n4 - 365 * j
      ∧ days - 146097 * n400 - 36524 * (c - g) - 1461 * n4 - 365 * j < 365)
    (hk : 0 ≤ j - 4 * k ∧ j - 4 * k < 4) :
    0 ≤ c - g ∧ c - g ≤ 3 ∧ 0 ≤ n4 ∧ n4 ≤ 24 ∧ 0 ≤ j - k ∧ j - k ≤ 3
      ∧ (n4 = 24 → j - k = 3 → days - 146097 * n400 - 36524 * (c - g) - 1461 * n4 - 365 * (j - k) = 365 → c - g = 3)
      ∧ 0 ≤ days - 146097 * n400 - 36524 * (c - g) - 1461 * n4 - 365 * (j - k)
      ∧ days - 146097 * n400 - 36524 * (c - g) - 1461 * n4 - 365 * (j - k) ≤ 365
      ∧ (days - 146097 * n400 - 36524 * (c - g) - 1461 * n4 - 365 * (j - k) = 365 → j - k = 3) := by
  have hc0 : 0 ≤ c := by omega
  have hc4 : c ≤ 4 := by omega
  have hj0 : 0 ≤ j := by omega
  have hj4 : j ≤ 4 := by omega
  interval_cases c <;> interval_cases j <;> omega

theorem absYear_spec (days : Int) :
    daysSinceEpoch (absYear days).1 + (absYear days).2 = days
      ∧ 0 ≤ (absYear days).2
      ∧ ((absYear days).2 < 365 ∨ ((absYear days).2 = 365 ∧ isLeap (absYear days).1 = true)) := by
  simp only [absYear, daysSinceEpoch]
  have h400 : 0 ≤ days - 146097 * (days / 146097)
      ∧ days - 146097 * (days / 146097) < 146097 := by omega
  generalize days / 146097 = n400 at h400 ⊢
  have hc : 0 ≤ days - 146097 * n400 - 36524 * ((days - 146097 * n400) / 36524)
      ∧ days - 146097 * n400 - 36524 * ((days - 146097 * n400) / 36524) < 36524 := by omega
  generalize (days - 146097 * n400) / 36524 = c at hc ⊢
  have hg : 0 ≤ c - 4 * (c / 4) ∧ c - 4 * (c / 4) < 4 := by omega
  generalize c / 4 = g at hg ⊢
  have h4 : 0 ≤ days - 146097 * n400 - 36524 * (c - g)
        - 1461 * ((days - 146097 * n400 - 36524 * (c - g)) / 1461)
      ∧ days - 146097 * n400 - 36524 * (c - g)
        - 1461 * ((days - 146097 * n400 - 36524 * (c - g)) / 1461) < 1461 := by omega
  generalize (days - 146097 * n400 - 36524 * (c - g)) / 1461 = n4 at h4 ⊢
  have hj : 0 ≤ days - 146097 * n400 - 36524 * (c - g) - 1461 * n4
        - 365 * ((days - 146097 * n400 - 36524 * (c - g) - 1461 * n4) / 365)
      ∧ days - 146097 * n400 - 36524 * (c - g) - 1461 * n4
        - 365 * ((days - 146097 * n400 - 36524 * (c - g) - 1461 * n4) / 365) < 365 := by omega
  generalize (days - 146097 * n400 - 36524 * (c - g) - 1461 * n4) / 365 = j at hj ⊢
  have hk : 0 ≤ j - 4 * (j / 4) ∧ j - 4 * (j / 4) < 4 := by omega
  generalize j / 4 = k at hk ⊢
  obtain ⟨a1, a2, a3, a4, a5, a6, a7, a8, a9, a10⟩ := cycles_spec days n400 c g n4 j k h400 hc hg h4 hj hk
  have e1 : (400 * n400 + 100 * (c - g) + 4 * n4 + (j - k) + 1 - 1) / 400 = n400 := by omega
  rw [e1]
  have e2 : (400 * n400 + 100 * (c - g) + 4 * n4 + (j - k) + 1 - 1 - 400 * n400) / 100 = c - g := by
    omega
  rw [e2]
  have e3 : (400 * n400 + 100 * (c - g) + 4 * n4 + (j - k) + 1 - 1 - 400 * n400 - 100 * (c - g)) / 4
      = n4 := by omega
  rw [e3]
  refine ⟨by omega, by omega, ?_⟩
  simp only [isLeap]
  have l4 : (400 * n400 + 100 * (c - g) + 4 * n4 + (j - k) + 1) % 4 = 0 ↔ j - k = 3 := by omega
  have l100 : (400 * n400 + 100 * (c - g) + 4 * n4 + (j - k) + 1) % 100 = 0
      ↔ (j - k = 3 ∧ n4 = 24) := by omega
  have l400 : (400 * n400 + 100 * (c - g) + 4 * n4 + (j - k) + 1) % 400 = 0
      ↔ (j - k = 3 ∧ n4 = 24 ∧ c - g = 3) := by omega
  simp only [l4, l100, l400, ne_eq, Bool.and_eq_true, Bool.or_eq_true, decide_eq_true_eq]
  by_cases h365 : days - 146097 * n400 - 36524 * (c - g) - 1461 * n4 - 365 * (j - k) = 365
  · right
    refine ⟨h365, a10 h365, ?_⟩
    by_cases h24 : n4 = 24
    · right; exact ⟨a10 h365, h24, a7 h24 (a10 h365) h365⟩
    · left; intro h; exact h24 h.2
  · left; omega

theorem daysBefore_values :
    daysBefore 0 = 0 ∧ daysBefore 1 = 31 ∧ daysBefore 2 = 59 ∧ daysBefore 3 = 90
      ∧ daysBefore 4 = 120 ∧ daysBefore 5 = 151 ∧ daysBefore 6 = 181 ∧ daysBefore 7 = 212
      ∧ daysBefore 8 = 243 ∧ daysBefore 9 = 273 ∧ daysBefore 10 = 304 ∧ daysBefore 11 = 334
      ∧ daysBefore 12 = 365 := by
  decide

/-- Month and day from the day of the year, for a day count `day` from which a
leap day has already been removed. -/
theorem monthOfDay_spec (day : Int) (h0 : 0 ≤ day) (h1 : day < 365) :
    let month := day / 31
    let stop := daysBefore (month + 1)
    let md : Int × Int :=
      if day ≥ stop then (month + 2, day - stop + 1) else (month + 1, day - daysBefore month + 1)
    1 ≤ md.1 ∧ md.1 ≤ 12 ∧ 1 ≤ md.2 ∧ md.2 ≤ daysBefore md.1 - daysBefore (md.1 - 1)
      ∧ daysBefore (md.1 - 1) + (md.2 - 1) = day := by
  intro month stop md
  have hm : 0 ≤ month ∧ month ≤ 11 ∧ 31 * month ≤ day ∧ day < 31 * month + 31 := by
    simp only [month]; omega
  obtain ⟨v0, v1, v2, v3, v4, v5, v6, v7, v8, v9, v10, v11, v12⟩ := daysBefore_values
  obtain ⟨hm0, hm11, hlo, hhi⟩ := hm
  simp only [md, stop]
  generalize month = m at *
  interval_cases m <;> simp only [v0, v1, v2, v3, v4, v5, v6, v7, v8, v9, v10, v11, v12,
      Int.reduceAdd, Int.reduceSub, ge_iff_le] <;> split <;>
    simp only [v0, v1, v2, v3, v4, v5, v6, v7, v8, v9, v10, v11, v12,
      Int.reduceAdd, Int.reduceSub] <;> omega

theorem absMonthDay_spec (leap : Bool) (yday : Int) (h0 : 0 ≤ yday)
    (h1 : yday < 365 ∨ (yday = 365 ∧ leap = true)) :
    1 ≤ (absMonthDay leap yday).1 ∧ (absMonthDay leap yday).1 ≤ 12
      ∧ 1 ≤ (absMonthDay leap yday).2
      ∧ (absMonthDay leap yday).2
          ≤ (if (absMonthDay leap yday).1 = 2 ∧ leap = true then 29
              else daysBefore (absMonthDay leap yday).1
                - daysBefore ((absMonthDay leap yday).1 - 1))
      ∧ daysBefore ((absMonthDay leap yday).1 - 1)
          + (if leap = true ∧ (absMonthDay leap yday).1 ≥ 3 then 1 else 0)
          + ((absMonthDay leap yday).2 - 1) = yday := by
  obtain ⟨v0, v1, v2, v3, v4, v5, v6, v7, v8, v9, v10, v11, v12⟩ := daysBefore_values
  by_cases hl : leap = true
  · by_cases h59 : yday = 31 + 29 - 1
    · have e : absMonthDay leap yday = (2, 29) := by simp [absMonthDay, hl, h59]
      rw [e]; simp [hl, v1]; omega
    · by_cases hgt : yday > 31 + 29 - 1
      · have hd0 : 0 ≤ yday - 1 := by omega
        have hd1 : yday - 1 < 365 := by omega
        have key := monthOfDay_spec (yday - 1) hd0 hd1
        have e : absMonthDay leap yday
            = (if yday - 1 ≥ daysBefore ((yday - 1) / 31 + 1)
                then ((yday - 1) / 31 + 2, yday - 1 - daysBefore ((yday - 1) / 31 + 1) + 1)
                else ((yday - 1) / 31 + 1, yday - 1 - daysBefore ((yday - 1) / 31) + 1)) := by
          simp only [absMonthDay, hl, h59, hgt, and_false, and_self, if_false, if_true, true_and]
        rw [e]
        simp only at key
        generalize (if yday - 1 ≥ daysBefore ((yday - 1) / 31 + 1)
                then ((yday - 1) / 31 + 2, yday - 1 - daysBefore ((yday - 1) / 31 + 1) + 1)
                else ((yday - 1) / 31 + 1, yday - 1 - daysBefore ((yday - 1) / 31) + 1)) = md at key ⊢
        obtain ⟨m, d⟩ := md
        simp only at key ⊢
        obtain ⟨k1, k2, k3, k4, k5⟩ := key
        simp only [hl, and_true, true_and]
        interval_cases m <;>
          simp only [v0, v1, v2, v3, v4, v5, v6, v7, v8, v9, v10, v11, v12, Int.reduceSub,
            Int.reduceAdd] at k4 k5 ⊢ <;> simp <;> omega
      · have hd1 : yday < 365 := by omega
        have key := monthOfDay_spec yday h0 hd1
        have e : absMonthDay leap yday
            = (if yday ≥ daysBefore (yday / 31 + 1)
                then (yday / 31 + 2, yday - daysBefore (yday / 31 + 1) + 1)
                else (yday / 31 + 1, yday - daysBefore (yday / 31) + 1)) := by
          simp only [absMonthDay, hl, h59, hgt, and_false, and_self, if_false, if_true, true_and]
        rw [e]
        simp only at key
        generalize (if yday ≥ daysBefore (yday / 31 + 1)
                then (yday / 31 + 2, yday - daysBefore (yday / 31 + 1) + 1)
                else (yday / 31 + 1, yday - daysBefore (yday / 31) + 1)) = md at key ⊢
        obtain ⟨m, d⟩ := md
        simp only at key ⊢
        obtain ⟨k1, k2, k3, k4, k5⟩ := key
        simp only [hl, and_true, true_and]
        interval_cases m <;>
          simp only [v0, v1, v2, v3, v4, v5, v6, v7, v8, v9, v10, v11, v12, Int.reduceSub,
            Int.reduceAdd] at k4 k5 ⊢ <;> simp <;> omega
  · have hd1 : yday < 365 := by
      rcases h1 with h | ⟨_, h⟩
      · exact h
      · exact absurd h hl
    have key := monthOfDay_spec yday h0 hd1
    have hf : leap = false := by simpa using hl
    subst hf
    have e : absMonthDay false yday
        = (if yday ≥ daysBefore (yday / 31 + 1)
            then (yday / 31 + 2, yday - daysBefore (yday / 31 + 1) + 1)
            else (yday / 31 + 1, yday - daysBefore (yday / 31) + 1)) := by
      simp only [absMonthDay, Bool.false_eq_true, false_and, if_false]
    rw [e]
    simp only at key
    generalize (if yday ≥ daysBefore (yday / 31 + 1)
            then (yday / 31 + 2, yday - daysBefore (yday / 31 + 1) + 1)
            else (yday / 31 + 1, yday - daysBefore (yday / 31) + 1)) = md at key ⊢
    obtain ⟨m, d⟩ := md
    simp only at key ⊢
    obtain ⟨k1, k2, k3, k4, k5⟩ := key
    simp only [Bool.false_eq_true, and_false, false_and, if_false]
    omega

theorem absDate_spec (days : Int) :
    1 ≤ (absDate days).month ∧ (absDate days).month ≤ 12
      ∧ 1 ≤ (absDate days).day ∧ (absDate days).day ≤ daysIn (absDate days).month (absDate days).year
      ∧ daysSinceEpoch (absDate days).year + daysBefore ((absDate days).month - 1)
          + (if isLeap (absDate days).year = true ∧ (absDate days).month ≥ 3 then 1 else 0)
          + ((absDate days).day - 1) = days := by
  obtain ⟨y1, y2, y3⟩ := absYear_spec days
  have y3' : (absYear days).2 < 365 ∨ ((absYear days).2 = 365 ∧ isLeap (absYear days).1 = true) := y3
  obtain ⟨m1, m2, m3, m4, m5⟩ := absMonthDay_spec (isLeap (absYear days).1) (absYear days).2 y2 y3'
  simp only [absDate, daysIn]
  refine ⟨m1, m2, m3, m4, ?_⟩
  omega

/-! ## Decimal digits, `Format` and `Parse` -/

theorem decDigits_fuel (f : Nat) : ∀ (g n : Nat), n < f → n < g → decDigits f n = decDigits g n := by
  induction f with
  | zero => intro g n h; omega
  | succ f ih =>
    intro g n hf hg
    cases g with
    | zero => omega
    | succ g =>
      simp only [decDigits]
      by_cases h10 : n < 10
      · simp [h10]
      · simp only [h10, if_false]
        rw [ih g (n / 10) (by omega) (by omega)]

theorem FormatUint_lt_ten (n : Nat) (h : n < 10) : FormatUint n = [48 + n] := by
  simp [FormatUint, decDigits, h]

theorem FormatUint_ge_ten (n : Nat) (h : 10 ≤ n) :
    FormatUint n = FormatUint (n / 10) ++ [48 + n % 10] := by
  have h10 : ¬ n < 10 := by omega
  have e : decDigits (n + 1) n = decDigits n (n / 10) ++ [48 + n % 10] := by
    simp only [decDigits, h10, if_false]
  unfold FormatUint
  rw [e, decDigits_fuel n (n / 10 + 1) (n / 10) (by omega) (by omega)]

theorem appendInt_two (x : Int) (h0 : 0 ≤ x) (h1 : x < 100) :
    appendInt x 2 = [48 + x.toNat / 10, 48 + x.toNat % 10] := by
  obtain ⟨n, rfl⟩ := Int.eq_ofNat_of_zero_le h0
  have hn : n < 100 := by omega
  have hneg : ¬ ((n : Int) < 0) := by omega
  simp only [appendInt, hneg, if_false, Int.natAbs_ofNat, Int.toNat_ofNat]
  by_cases h10 : n < 10
  · rw [FormatUint_lt_ten n h10]
    have e1 : n / 10 = 0 := by omega
    have e2 : n % 10 = n := by omega
    simp [e1, e2, List.replicate]
  · rw [FormatUint_ge_ten n (by omega), FormatUint_lt_ten (n / 10) (by omega)]
    simp

theorem appendInt_four (x : Int) (h0 : 0 ≤ x) (h1 : x < 10000) :
    appendInt x 4
      = [48 + x.toNat / 1000, 48 + x.toNat / 100 % 10, 48 + x.toNat / 10 % 10,
          48 + x.toNat % 10] := by
  obtain ⟨n, rfl⟩ := Int.eq_ofNat_of_zero_le h0
  have hn : n < 10000 := by omega
  have hneg : ¬ ((n : Int) < 0) := by omega
  simp only [appendInt, hneg, if_false, Int.natAbs_ofNat, Int.toNat_ofNat]
  by_cases h10 : n < 10
  · rw [FormatUint_lt_ten n h10]
    have e1 : n / 1000 = 0 := by omega
    have e2 : n / 100 % 10 = 0 := by omega
    have e3 : n / 10 % 10 = 0 := by omega
    have e4 : n % 10 = n := by omega
    simp [e1, e2, e3, e4, List.replicate]
  · by_cases h100 : n < 100
    · rw [FormatUint_ge_ten n (by omega), FormatUint_lt_ten (n / 10) (by omega)]
      have e1 : n / 1000 = 0 := by omega
      have e2 : n / 100 % 10 = 0 := by omega
      have e3 : n / 10 % 10 = n / 10 := by omega
      simp [e1, e2, e3, List.replicate]
    · by_cases h1000 : n < 1000
      · rw [FormatUint_ge_ten n (by omega), FormatUint_ge_ten (n / 10) (by omega),
          FormatUint_lt_ten (n / 10 / 10) (by omega)]
        have e1 : n / 1000 = 0 := by omega
        have e2 : n / 100 % 10 = n / 10 / 10 := by omega
        simp [e1, e2, List.replicate]
      · rw [FormatUint_ge_ten n (by omega), FormatUint_ge_ten (n / 10) (by omega),
          FormatUint_ge_ten (n / 10 / 10) (by omega),
          FormatUint_lt_ten (n / 10 / 10 / 10) (by omega)]
        have e1 : n / 1000 = n / 10 / 10 / 10 := by omega
        have e2 : n / 100 % 10 = n / 10 / 10 % 10 := by omega
        simp [e1, e2]

theorem isDigit_cons_zero (a : Nat) (r : Bytes) (h : a ≤ 9) : isDigit ((48 + a) :: r) 0 = true := by
  simp [isDigit]; omega

theorem isDigit_cons_one (c a : Nat) (r : Bytes) (h : a ≤ 9) :
    isDigit (c :: (48 + a) :: r) 1 = true := by
  simp [isDigit]; omega

theorem getnum_two (a b : Nat) (r : Bytes) ( fixed : Bool) (ha : a ≤ 9) (hb : b ≤ 9) :
    getnum ((48 + a) :: (48 + b) :: r) fixed = some (((a * 10 + b : Nat) : Int), r) := by
  simp [getnum, isDigit_cons_zero _ _ ha, isDigit_cons_one _ _ _ hb]

theorem atoiDigits_four (a b c d : Nat) (ha : a ≤ 9) (hb : b ≤ 9) (hc : c ≤ 9) (hd : d ≤ 9) :
    atoiDigits [48 + a, 48 + b, 48 + c, 48 + d] = some (((a * 10 + b) * 10 + c) * 10 + d) := by
  have h1 : 48 + a ≤ 57 := by omega
  have h2 : 48 + b ≤ 57 := by omega
  have h3 : 48 + c ≤ 57 := by omega
  have h4 : 48 + d ≤ 57 := by omega
  simp [atoiDigits, h1, h2, h3, h4]

/-- Parsing fourteen digits that spell a valid date and time of day. -/
theorem Parse_digits (y1 y2 y3 y4 m1 m2 d1 d2 h1 h2 i1 i2 s1 s2 : Nat)
    (hy1 : y1 ≤ 9) (hy2 : y2 ≤ 9) (hy3 : y3 ≤ 9) (hy4 : y4 ≤ 9) (hm1 : m1 ≤ 9) (hm2 : m2 ≤ 9)
    (hd1 : d1 ≤ 9) (hd2 : d2 ≤ 9) (hh1 : h1 ≤ 9) (hh2 : h2 ≤ 9) (hi1 : i1 ≤ 9) (hi2 : i2 ≤ 9)
    (hs1 : s1 ≤ 9) (hs2 : s2 ≤ 9)
    (hmonth : 1 ≤ m1 * 10 + m2 ∧ m1 * 10 + m2 ≤ 12)
    (hday : 1 ≤ d1 * 10 + d2 ∧ ((d1 * 10 + d2 : Nat) : Int)
      ≤ daysIn ((m1 * 10 + m2 : Nat) : Int) ((((y1 * 10 + y2) * 10 + y3) * 10 + y4 : Nat) : Int))
    (hhour : h1 * 10 + h2 < 24) (hmin : i1 * 10 + i2 < 60) (hsec : s1 * 10 + s2 < 60) :
    Parse [48 + y1, 48 + y2, 48 + y3, 48 + y4, 48 + m1, 48 + m2, 48 + d1, 48 + d2,
        48 + h1, 48 + h2, 48 + i1, 48 + i2, 48 + s1, 48 + s2]
      = some (Date ((((y1 * 10 + y2) * 10 + y3) * 10 + y4 : Nat) : Int) ((m1 * 10 + m2 : Nat) : Int)
          ((d1 * 10 + d2 : Nat) : Int) ((h1 * 10 + h2 : Nat) : Int) ((i1 * 10 + i2 : Nat) : Int)
          ((s1 * 10 + s2 : Nat) : Int) 0) := by
  have e1 : ¬ (((m1 * 10 + m2 : Nat) : Int) ≤ 0 ∨ 12 < ((m1 * 10 + m2 : Nat) : Int)) := by omega
  have e2 : ¬ ((24 : Int) ≤ ((h1 * 10 + h2 : Nat) : Int)) := by omega
  have e3 : ¬ ((60 : Int) ≤ ((i1 * 10 + i2 : Nat) : Int)) := by omega
  have e4 : ¬ ((60 : Int) ≤ ((s1 * 10 + s2 : Nat) : Int)) := by omega
  have e5 : ¬ (((d1 * 10 + d2 : Nat) : Int) < 1 ∨ ((d1 * 10 + d2 : Nat) : Int)
      > daysIn ((m1 * 10 + m2 : Nat) : Int) ((((y1 * 10 + y2) * 10 + y3) * 10 + y4 : Nat) : Int)) := by
    omega
  unfold Parse
  simp only [List.length_cons, List.length_nil, isDigit_cons_zero _ _ hy1, List.take_succ_cons,
    List.take_zero, atoiDigits_four _ _ _ _ hy1 hy2 hy3 hy4, List.drop_succ_cons, List.drop_zero,
    getnum_two _ _ _ _ hm1 hm2, getnum_two _ _ _ _ hd1 hd2, getnum_two _ _ _ _ hh1 hh2,
    getnum_two _ _ _ _ hi1 hi2, getnum_two _ _ _ _ hs1 hs2, Option.bind_some, Option.some_bind, e1,
    e2, e3, e4, e5, if_false]
  simp

theorem digits_four_eq (n : Nat) (h : n < 10000) :
    ((n / 1000 * 10 + n / 100 % 10) * 10 + n / 10 % 10) * 10 + n % 10 = n := by omega

theorem digits_two_eq (n : Nat) : n / 10 * 10 + n % 10 = n := by omega

theorem daysIn_le (month year : Int) (h1 : 1 ≤ month) (h2 : month ≤ 12) :
    daysIn month year ≤ 31 := by
  obtain ⟨v0, v1, v2, v3, v4, v5, v6, v7, v8, v9, v10, v11, v12⟩ := daysBefore_values
  unfold daysIn
  split
  · omega
  · interval_cases month <;>
      simp only [v0, v1, v2, v3, v4, v5, v6, v7, v8, v9, v10, v11, v12, Int.reduceSub] <;> omega

/-- Parsing what `Format` wrote gives back the wall clock that was formatted, read
as UTC, when the year has four digits. -/
theorem Parse_Format (t : Time)
    (hy0 : 0 ≤ (absDate (t.abs / 86400)).year) (hy1 : (absDate (t.abs / 86400)).year ≤ 9999) :
    Parse t.Format = some ⟨(t.abs - 62135596800) * 1000000000, UTC⟩ := by
  obtain ⟨m1, m2, d1, d2, hsum⟩ := absDate_spec (t.abs / 86400)
  have hd31 := daysIn_le (absDate (t.abs / 86400)).month (absDate (t.abs / 86400)).year m1 m2
  generalize hdate : absDate (t.abs / 86400) = date at *
  obtain ⟨year, month, day⟩ := date
  simp only at hy0 hy1 m1 m2 d1 d2 hsum hd31
  obtain ⟨y, rfl⟩ := Int.eq_ofNat_of_zero_le hy0
  obtain ⟨mo, rfl⟩ := Int.eq_ofNat_of_zero_le (by omega : (0 : Int) ≤ month)
  obtain ⟨d, rfl⟩ := Int.eq_ofNat_of_zero_le (by omega : (0 : Int) ≤ day)
  have hs0 : 0 ≤ t.abs % 86400 := by omega
  have hs1 : t.abs % 86400 < 86400 := by omega
  obtain ⟨sod, hsod⟩ := Int.eq_ofNat_of_zero_le hs0
  have hfmt : t.Format
      = [48 + y / 1000, 48 + y / 100 % 10, 48 + y / 10 % 10, 48 + y % 10,
          48 + mo / 10, 48 + mo % 10, 48 + d / 10, 48 + d % 10,
          48 + sod / 3600 / 10, 48 + sod / 3600 % 10,
          48 + sod % 3600 / 60 / 10, 48 + sod % 3600 / 60 % 10,
          48 + sod % 60 / 10, 48 + sod % 60 % 10] := by
    simp only [Time.Format, hdate, hsod]
    rw [appendInt_four _ (by omega) (by omega), appendInt_two _ (by omega) (by omega),
      appendInt_two _ (by omega) (by omega), appendInt_two _ (by omega) (by omega),
      appendInt_two _ (by omega) (by omega), appendInt_two _ (by omega) (by omega)]
    have c1 : ((sod : Int) / 3600).toNat = sod / 3600 := by omega
    have c2 : ((sod : Int) % 3600 / 60).toNat = sod % 3600 / 60 := by omega
    have c3 : ((sod : Int) % 60).toNat = sod % 60 := by omega
    simp only [Int.toNat_ofNat, c1, c2, c3, List.cons_append, List.nil_append]
  rw [hfmt]
  have hyd := digits_four_eq y (by omega)
  have hmd := digits_two_eq mo
  have hdd := digits_two_eq d
  have hhd := digits_two_eq (sod / 3600)
  have hid := digits_two_eq (sod % 3600 / 60)
  have hsd := digits_two_eq (sod % 60)
  rw [Parse_digits (y / 1000) (y / 100 % 10) (y / 10 % 10) (y % 10) (mo / 10) (mo % 10) (d / 10)
    (d % 10) (sod / 3600 / 10) (sod / 3600 % 10) (sod % 3600 / 60 / 10) (sod % 3600 / 60 % 10)
    (sod % 60 / 10) (sod % 60 % 10) (by omega) (by omega) (by omega) (by omega) (by omega)
    (by omega) (by omega) (by omega) (by omega) (by omega) (by omega) (by omega) (by omega)
    (by omega) (by rw [hmd]; omega) (by rw [hyd, hmd, hdd]; omega) (by rw [hhd]; omega)
    (by rw [hid]; omega) (by rw [hsd]; omega)]
  rw [hyd, hmd, hdd, hhd, hid, hsd]
  simp only [Date, Option.some.injEq, Time.mk.injEq, and_true]
  have hdays : daysSinceEpoch (y : Int) + daysBefore ((mo : Int) - 1)
      + (if isLeap (y : Int) = true ∧ (mo : Int) ≥ 3 then 1 else 0) + ((d : Int) - 1)
      = t.abs / 86400 := hsum
  rw [hdays]
  omega

/-! ## `base64.URLEncoding`: decoding inverts encoding -/

theorem decodeURLChar_encodeURLChar (v : Nat) (h : v < 64) :
    decodeURLChar (encodeURLChar v) = some v := by
  unfold encodeURLChar decodeURLChar
  split_ifs <;> first | omega | (simp only [Option.some.injEq]; omega)

theorem encodeURLChar_ne (v : Nat) :
    encodeURLChar v ≠ 61 ∧ encodeURLChar v ≠ 10 ∧ encodeURLChar v ≠ 13 := by
  unfold encodeURLChar
  split_ifs <;> omega

theorem EncodeToString_filter (bs : Bytes) :
    (EncodeToString bs).filter (fun c => decide (c ≠ 10 ∧ c ≠ 13)) = EncodeToString bs := by
  rw [List.filter_eq_self]
  induction bs using EncodeToString.induct with
  | case1 => simp [EncodeToString]
  | case2 a =>
    intro c hc
    have h1 := encodeURLChar_ne (a / 4)
    have h2 := encodeURLChar_ne (a % 4 * 16)
    simp only [EncodeToString, List.mem_cons, List.mem_singleton, List.not_mem_nil, or_false] at hc
    rcases hc with rfl | rfl | rfl | rfl <;> simp <;> omega
  | case3 a b =>
    intro c hc
    have h1 := encodeURLChar_ne (a / 4)
    have h2 := encodeURLChar_ne (a % 4 * 16 + b / 16)
    have h3 := encodeURLChar_ne (b % 16 * 4)
    simp only [EncodeToString, List.mem_cons, List.mem_singleton, List.not_mem_nil, or_false] at hc
    rcases hc with rfl | rfl | rfl | rfl <;> simp <;> omega
  | case4 a b c rest ih =>
    intro x hx
    have h1 := encodeURLChar_ne (a / 4)
    have h2 := encodeURLChar_ne (a % 4 * 16 + b / 16)
    have h3 := encodeURLChar_ne (b % 16 * 4 + c / 64)
    have h4 := encodeURLChar_ne (c % 64)
    simp only [EncodeToString, List.mem_cons] at hx
    rcases hx with rfl | rfl | rfl | rfl | hx
    · simp; omega
    · simp; omega
    · simp; omega
    · simp; omega
    · exact ih x hx

theorem decodeQuanta_EncodeToString (bs : Bytes) (h : ∀ b ∈ bs, b < 256) :
    decodeQuanta (EncodeToString bs) = some bs := by
  induction bs using EncodeToString.induct with
  | case1 => simp [EncodeToString, decodeQuanta]
  | case2 a =>
    have ha : a < 256 := h a (by simp)
    simp only [EncodeToString, decodeQuanta, decodeURLChar_encodeURLChar (a / 4) (by omega),
      decodeURLChar_encodeURLChar (a % 4 * 16) (by omega), Option.some_bind, and_self, if_true]
    simp; omega
  | case3 a b =>
    have ha : a < 256 := h a (by simp)
    have hb : b < 256 := h b (by simp)
    have h3 := (encodeURLChar_ne (b % 16 * 4)).1
    simp only [EncodeToString, decodeQuanta, decodeURLChar_encodeURLChar (a / 4) (by omega),
      decodeURLChar_encodeURLChar (a % 4 * 16 + b / 16) (by omega),
      decodeURLChar_encodeURLChar (b % 16 * 4) (by omega), Option.some_bind, h3, false_and,
      if_false, and_self, if_true]
    simp; omega
  | case4 a b c rest ih =>
    have ha : a < 256 := h a (by simp)
    have hb : b < 256 := h b (by simp)
    have hc : c < 256 := h c (by simp)
    have hrest : ∀ x ∈ rest, x < 256 := fun x hx => h x (by simp [hx])
    have h3 := (encodeURLChar_ne (b % 16 * 4 + c / 64)).1
    have h4 := (encodeURLChar_ne (c % 64)).1
    simp only [EncodeToString, decodeQuanta, decodeURLChar_encodeURLChar (a / 4) (by omega),
      decodeURLChar_encodeURLChar (a % 4 * 16 + b / 16) (by omega),
      decodeURLChar_encodeURLChar (b % 16 * 4 + c / 64) (by omega),
      decodeURLChar_encodeURLChar (c % 64) (by omega), Option.some_bind, h3, h4, false_and,
      if_false, ih hrest, Option.map_some']
    simp; omega

theorem DecodeString_EncodeToString (bs : Bytes) (h : ∀ b ∈ bs, b < 256) :
    DecodeString (EncodeToString bs) = some bs := by
  unfold DecodeString
  rw [EncodeToString_filter, decodeQuanta_EncodeToString bs h]

/-! ## Decimal integers: `Itoa`, `ParseInt`, `scanNumber` -/

/-- Every byte of the list is a decimal digit. -/
theorem FormatUint_digits (n : Nat) : ∀ c ∈ FormatUint n, 48 ≤ c ∧ c ≤ 57 := by
  induction n using Nat.strong_induction_on with
  | _ n ih =>
    by_cases h : n < 10
    · rw [FormatUint_lt_ten n h]
      intro c hc
      simp only [List.mem_singleton] at hc
      omega
    · rw [FormatUint_ge_ten n (by omega)]
      intro c hc
      simp only [List.mem_append, List.mem_singleton] at hc
      rcases hc with hc | hc
      · exact ih (n / 10) (by omega) c hc
      · omega

/-- The first digit is `0` only for zero itself. -/
theorem FormatUint_head (n : Nat) :
    ∃ d ds, FormatUint n = d :: ds ∧ (n = 0 → d = 48 ∧ ds = []) ∧ (0 < n → 49 ≤ d ∧ d ≤ 57) := by
  induction n using Nat.strong_induction_on with
  | _ n ih =>
    by_cases h : n < 10
    · rw [FormatUint_lt_ten n h]
      exact ⟨48 + n, [], rfl, by intro h0; simp [h0], by intro h0; omega⟩
    · rw [FormatUint_ge_ten n (by omega)]
      obtain ⟨d, ds, e, -, hpos⟩ := ih (n / 10) (by omega)
      rw [e]
      exact ⟨d, ds ++ [48 + n % 10], rfl, by intro h0; omega, fun _ => hpos (by omega)⟩

theorem Itoa_bytes (n : Int) : ∀ b ∈ Itoa n, b < 128 := by
  intro b hb
  have hd := FormatUint_digits n.natAbs
  unfold Itoa at hb
  split at hb
  · simp only [List.mem_cons] at hb
    rcases hb with rfl | hb
    · omega
    · have := hd b hb; omega
  · have := hd b hb; omega

theorem atoiFold_digits (ds : Bytes) (h : ∀ c ∈ ds, 48 ≤ c ∧ c ≤ 57) (v : Nat) :
    ∃ w, ds.foldl (fun acc c => acc.bind fun v =>
        if 48 ≤ c ∧ c ≤ 57 then some (v * 10 + (c - 48)) else none) (some v) = some w := by
  induction ds generalizing v with
  | nil => exact ⟨v, rfl⟩
  | cons c r ih =>
    have hc := h c (by simp)
    simp only [List.foldl_cons, Option.some_bind, hc, and_self, if_true]
    exact ih (fun x hx => h x (by simp [hx])) _

theorem atoiDigits_FormatUint (n : Nat) : atoiDigits (FormatUint n) = some n := by
  induction n using Nat.strong_induction_on with
  | _ n ih =>
    by_cases h : n < 10
    · rw [FormatUint_lt_ten n h]
      have : 48 + n ≤ 57 := by omega
      simp [atoiDigits, this]
    · have ih' := ih (n / 10) (by omega)
      obtain ⟨d, ds, e, -, -⟩ := FormatUint_head (n / 10)
      have hne : FormatUint (n / 10) ≠ [] := by rw [e]; simp
      have hne' : FormatUint (n / 10) ++ [48 + n % 10] ≠ [] := by simp
      rw [FormatUint_ge_ten n (by omega)]
      unfold atoiDigits at ih' ⊢
      simp only [hne, if_false] at ih'
      simp only [hne', if_false, List.foldl_append, List.foldl_cons, List.foldl_nil, ih',
        Option.some_bind]
      have : 48 + n % 10 ≤ 57 := by omega
      simp only [Nat.le_add_right, this, and_self, if_true, Option.some.injEq]
      omega

theorem ParseInt_Itoa (n : Int) (h0 : -9223372036854775808 ≤ n) (h1 : n ≤ 9223372036854775807) :
    ParseInt (Itoa n) = some n := by
  obtain ⟨d, ds, e, -, -⟩ := FormatUint_head n.natAbs
  have hd := FormatUint_digits n.natAbs d (by simp [e])
  have hat := atoiDigits_FormatUint n.natAbs
  by_cases hneg : n < 0
  · have e1 : -((n.natAbs : Nat) : Int) = n := by omega
    simp only [ParseInt, Itoa, hneg, if_true, hat, Option.some_bind, e1, h0, h1, and_self]
  · have e1 : ((n.natAbs : Nat) : Int) = n := by omega
    have hd45 : d ≠ 45 := by omega
    have hd43 : d ≠ 43 := by omega
    simp only [ParseInt, Itoa, hneg, if_false, e, hd45, hd43]
    rw [← e]
    simp only [hat, Option.some_bind, Bool.false_eq_true, if_false, e1, h0, h1, and_self,
      if_true]

theorem spanDigits_append (ds : Bytes) (h : ∀ x ∈ ds, 48 ≤ x ∧ x ≤ 57) (c : Nat) (rest : Bytes)
    (hc : ¬ (48 ≤ c ∧ c ≤ 57)) : spanDigits (ds ++ c :: rest) = (ds, c :: rest) := by
  induction ds with
  | nil => simp [spanDigits, hc]
  | cons d r ih =>
    have hd := h d (by simp)
    have ih' := ih (fun x hx => h x (by simp [hx]))
    simp [spanDigits, hd, ih']

theorem scanFraction_stop (c : Nat) (rest : Bytes) (h1 : c ≠ 46) (h2 : c ≠ 101) (h3 : c ≠ 69) :
    scanFraction (c :: rest) = some ([], c :: rest) := by
  simp [scanFraction, scanExponent, h1, h2, h3]

/-- The number scanner reads back exactly what `Itoa` wrote, up to a following
comma or closing brace. -/
theorem scanNumber_Itoa (n : Int) (c : Nat) (rest : Bytes) (hc : c = 44 ∨ c = 125) :
    scanNumber (Itoa n ++ c :: rest) = some (Itoa n, c :: rest) := by
  obtain ⟨d, ds, e, hzero, hpos⟩ := FormatUint_head n.natAbs
  have hdig := FormatUint_digits n.natAbs
  rw [e] at hdig
  have hd := hdig d (by simp)
  have hds : ∀ x ∈ ds, 48 ≤ x ∧ x ≤ 57 := fun x hx => hdig x (by simp [hx])
  have hcd : ¬ (48 ≤ c ∧ c ≤ 57) := by omega
  have hsp := spanDigits_append ds hds c rest hcd
  have hfr := scanFraction_stop c rest (by omega) (by omega) (by omega)
  by_cases hneg : n < 0
  · have hp := hpos (by omega)
    have h48 : d ≠ 48 := by omega
    simp [scanNumber, Itoa, hneg, e, h48, hp, hsp, hfr]
  · have h45 : d ≠ 45 := by omega
    by_cases hz : n.natAbs = 0
    · obtain ⟨rfl, rfl⟩ := hzero hz
      simp [scanNumber, Itoa, hneg, e, hfr]
    · have hp := hpos (by omega)
      have h48 : d ≠ 48 := by omega
      simp [scanNumber, Itoa, hneg, e, h45, h48, hp, hsp, hfr]

/-- A byte a JSON string holds as it is, and `appendString` writes as it is. -/
theorem htmlSafe_plain (b : Nat) (h : htmlSafe b = true) :
    b ≠ 34 ∧ b ≠ 92 ∧ ¬ b < 0x20 ∧ b < 0x80 := by
  simp [htmlSafe] at h
  omega

theorem scanString_safe (src : Bytes) (h : ∀ b ∈ src, htmlSafe b = true) (rest : Bytes) :
    ∀ fuel, src.length < fuel → scanString fuel (src ++ 34 :: rest) = some (src, rest) := by
  induction src with
  | nil =>
    intro fuel hf
    cases fuel with
    | zero => simp at hf
    | succ f => simp [scanString]
  | cons b r ih =>
    intro fuel hf
    cases fuel with
    | zero => simp at hf
    | succ f =>
      have hp := htmlSafe_plain b (h b (by simp))
      have ih' := ih (fun x hx => h x (by simp [hx])) f (by simpa using hf)
      simp [scanString, hp.1, hp.2.1, hp.2.2.1, hp.2.2.2, ih']

/-! ## `json.Unmarshal` after `json.Marshal`: keys, integers and storing -/

theorem skipWS_cons (c : Nat) (r : Bytes) (h : isSpace c = false) : skipWS (c :: r) = c :: r := by
  simp [skipWS, h]

theorem scanValue_Itoa (f depth : Nat) (n : Int) (c : Nat) (rest : Bytes) (hc : c = 44 ∨ c = 125) :
    scanValue (f + 1) depth (Itoa n ++ c :: rest) = some (Token.number (Itoa n), c :: rest) := by
  have hn := scanNumber_Itoa n c rest hc
  obtain ⟨d, ds, e, -, -⟩ := FormatUint_head n.natAbs
  have hd := FormatUint_digits n.natAbs d (by simp [e])
  by_cases hneg : n < 0
  · have e' : Itoa n = 45 :: d :: ds := by simp [Itoa, hneg, e]
    rw [e'] at hn ⊢
    simp only [List.cons_append] at hn ⊢
    simp [scanValue, hn]
  · have e' : Itoa n = d :: ds := by simp [Itoa, hneg, e]
    rw [e'] at hn ⊢
    simp only [List.cons_append] at hn ⊢
    have h1 : d ≠ 34 := by omega
    have h2 : d ≠ 123 := by omega
    have h3 : d ≠ 91 := by omega
    have h4 : d ≠ 116 := by omega
    have h5 : d ≠ 102 := by omega
    have h6 : d ≠ 110 := by omega
    simp [scanValue, hn, h1, h2, h3, h4, h5, h6]

theorem scanFuel_succ (bs : Bytes) : scanFuel bs = (2 * bs.length + 1) + 1 := rfl

/-- One member with an integer value, followed by another member. -/
theorem decodeMembers_int_more (fuel : Nat) (s : Session) (key : Bytes) (n : Int) (rest : Bytes)
    (hk : ∀ b ∈ key, htmlSafe b = true) :
    decodeMembers (fuel + 1) s (34 :: (key ++ 34 :: 58 :: (Itoa n ++ 44 :: 34 :: rest)))
      = (store s key (Token.number (Itoa n))).bind fun s1 =>
          decodeMembers fuel s1 (34 :: rest) := by
  obtain ⟨d, ds, e, -, -⟩ := FormatUint_head n.natAbs
  have hd := FormatUint_digits n.natAbs d (by simp [e])
  have hsk : skipWS (Itoa n ++ 44 :: 34 :: rest) = Itoa n ++ 44 :: 34 :: rest := by
    by_cases hneg : n < 0
    · simp [Itoa, hneg, skipWS, isSpace]
    · have : d ≠ 32 ∧ d ≠ 9 ∧ d ≠ 13 ∧ d ≠ 10 := by omega
      simp [Itoa, hneg, e, skipWS, isSpace, this]
  simp only [decodeMembers, if_true]
  rw [scanString_safe key hk _ _ (by simp; omega)]
  simp only [Option.some_bind, skipWS_cons 58 _ (by decide), if_true, scanFuel_succ, hsk]
  rw [scanValue_Itoa _ _ n 44 _ (Or.inl rfl)]
  simp only [Option.some_bind, skipWS_cons 44 _ (by decide), skipWS_cons 34 _ (by decide), if_true]

theorem store_from (s : Session) (v : Bytes) :
    store s (utf8 "from") (Token.string v) = some { s with From := v } := by
  have h : foldName (utf8 "from").length (utf8 "from") = utf8 "FROM" := by decide
  simp only [store, h, if_true]

theorem store_expire (s : Session) (v : Bytes) :
    store s (utf8 "expire") (Token.string v) = some { s with Expire := v } := by
  have h : foldName (utf8 "expire").length (utf8 "expire") = utf8 "EXPIRE" := by decide
  have h1 : utf8 "EXPIRE" ≠ utf8 "FROM" := by decide
  have h2 : utf8 "EXPIRE" ≠ utf8 "SRC_ID" := by decide
  have h3 : utf8 "EXPIRE" ≠ utf8 "MANAGER_ID" := by decide
  have h4 : utf8 "EXPIRE" ≠ utf8 "USER_ID" := by decide
  simp only [store, h, h1, h2, h3, h4, if_true, if_false]

theorem store_signature (s : Session) (v : Bytes) :
    store s (utf8 "signature") (Token.string v) = some { s with Signature := v } := by
  have h : foldName (utf8 "signature").length (utf8 "signature") = utf8 "SIGNATURE" := by decide
  have h1 : utf8 "SIGNATURE" ≠ utf8 "FROM" := by decide
  have h2 : utf8 "SIGNATURE" ≠ utf8 "SRC_ID" := by decide
  have h3 : utf8 "SIGNATURE" ≠ utf8 "MANAGER_ID" := by decide
  have h4 : utf8 "SIGNATURE" ≠ utf8 "USER_ID" := by decide
  have h5 : utf8 "SIGNATURE" ≠ utf8 "EXPIRE" := by decide
  simp only [store, h, h1, h2, h3, h4, h5, if_true, if_false]

theorem store_src_id (s : Session) (n : Int) (h0 : -9223372036854775808 ≤ n)
    (h1 : n ≤ 9223372036854775807) :
    store s (utf8 "src_id") (Token.number (Itoa n)) = some { s with SrcID := n } := by
  have h : foldName (utf8 "src_id").length (utf8 "src_id") = utf8 "SRC_ID" := by decide
  have g1 : utf8 "SRC_ID" ≠ utf8 "FROM" := by decide
  simp only [store, h, g1, if_true, if_false, ParseInt_Itoa n h0 h1, Option.map_some']

theorem store_manager_id (s : Session) (n : Int) (h0 : -9223372036854775808 ≤ n)
    (h1 : n ≤ 9223372036854775807) :
    store s (utf8 "manager_id") (Token.number (Itoa n)) = some { s with ManagerID := n } := by
  have h : foldName (utf8 "manager_id").length (utf8 "manager_id") = utf8 "MANAGER_ID" := by
    decide
  have g1 : utf8 "MANAGER_ID" ≠ utf8 "FROM" := by decide
  have g2 : utf8 "MANAGER_ID" ≠ utf8 "SRC_ID" := by decide
  simp only [store, h, g1, g2, if_true, if_false, ParseInt_Itoa n h0 h1, Option.map_some']

theorem store_user_id (s : Session) (n : Int) (h0 : -9223372036854775808 ≤ n)
    (h1 : n ≤ 9223372036854775807) :
    store s (utf8 "user_id") (Token.number (Itoa n)) = some { s with UserID := n } := by
  have h : foldName (utf8 "user_id").length (utf8 "user_id") = utf8 "USER_ID" := by decide
  have g1 : utf8 "USER_ID" ≠ utf8 "FROM" := by decide
  have g2 : utf8 "USER_ID" ≠ utf8 "SRC_ID" := by decide
  have g3 : utf8 "USER_ID" ≠ utf8 "MANAGER_ID" := by decide
  simp only [store, h, g1, g2, g3, if_true, if_false, ParseInt_Itoa n h0 h1, Option.map_some']

/-! ## `json.Unmarshal` after `json.Marshal`: strings of any content -/

theorem hexVal_hexDigit (d : Nat) (h : d < 16) : hexVal (hexDigit d) = some d := by
  unfold hexVal hexDigit
  split_ifs <;> first | omega | (simp only [Option.some.injEq]; omega)

/-- The second byte `DecodeRune` accepts after the lead byte `b0` of a three-byte or
four-byte encoding. -/
theorem DecodeRune_two (b0 b1 : Nat) (x : Bytes) (h0 : 0xC2 ≤ b0 ∧ b0 ≤ 0xDF)
    (h1 : isCont b1 = true) :
    DecodeRune (b0 :: b1 :: x) = ((b0 - 0xC0) * 64 + (b1 - 0x80), 2) := by
  have hb : ¬ b0 < 0x80 := by omega
  simp only [DecodeRune, hb, h0, h1, and_self, if_true, if_false]

theorem DecodeRune_three (b0 b1 b2 : Nat) (x : Bytes) (h0 : 0xE0 ≤ b0 ∧ b0 ≤ 0xEF)
    (h1 : (if b0 = 0xE0 then 0xA0 else 0x80) ≤ b1 ∧ b1 ≤ (if b0 = 0xED then 0x9F else 0xBF)
      ∧ isCont b2 = true) :
    DecodeRune (b0 :: b1 :: b2 :: x)
      = ((b0 - 0xE0) * 4096 + (b1 - 0x80) * 64 + (b2 - 0x80), 3) := by
  have hb : ¬ b0 < 0x80 := by omega
  have hc : ¬ (0xC2 ≤ b0 ∧ b0 ≤ 0xDF) := by omega
  simp only [DecodeRune, hb, hc, h0, and_self, if_true, if_false]
  rw [if_pos h1]

theorem DecodeRune_four (b0 b1 b2 b3 : Nat) (x : Bytes) (h0 : 0xF0 ≤ b0 ∧ b0 ≤ 0xF4)
    (h1 : (if b0 = 0xF0 then 0x90 else 0x80) ≤ b1 ∧ b1 ≤ (if b0 = 0xF4 then 0x8F else 0xBF)
      ∧ isCont b2 = true ∧ isCont b3 = true) :
    DecodeRune (b0 :: b1 :: b2 :: b3 :: x)
      = ((b0 - 0xF0) * 262144 + (b1 - 0x80) * 4096 + (b2 - 0x80) * 64 + (b3 - 0x80), 4) := by
  have hb : ¬ b0 < 0x80 := by omega
  have hc : ¬ (0xC2 ≤ b0 ∧ b0 ≤ 0xDF) := by omega
  have hd : ¬ (0xE0 ≤ b0 ∧ b0 ≤ 0xEF) := by omega
  simp only [DecodeRune, hb, hc, hd, h0, and_self, if_true, if_false]
  rw [if_pos h1]

/-- What `DecodeRune` returns on a byte outside ASCII: either the replacement rune
with width 1, or a rune outside ASCII of width 2, 3 or 4 read from that many bytes,
which are then all that `DecodeRune` looks at. -/
theorem DecodeRune_spec (b : Nat) (r : Bytes) (hb : ¬ b < 0x80) :
    DecodeRune (b :: r) = (0xFFFD, 1)
      ∨ ∃ rune size pre post, DecodeRune (b :: r) = (rune, size) ∧ b :: r = b :: pre ++ post
        ∧ size = pre.length + 1 ∧ 2 ≤ size ∧ 0x80 ≤ rune ∧ (∀ y ∈ b :: pre, y < 256)
        ∧ ∀ x, DecodeRune (b :: pre ++ x) = (rune, size) := by
  by_cases h2 : 0xC2 ≤ b ∧ b ≤ 0xDF
  · cases r with
    | nil => left; simp [DecodeRune, hb, h2]
    | cons b1 r1 =>
      by_cases hc : isCont b1 = true
      · right
        have hc' : 0x80 ≤ b1 ∧ b1 ≤ 0xBF := by simpa [isCont] using hc
        refine ⟨_, 2, [b1], r1, DecodeRune_two b b1 r1 h2 hc, rfl, rfl, by decide, by omega, ?_,
          fun x => DecodeRune_two b b1 x h2 hc⟩
        intro y hy
        simp only [List.mem_cons, List.mem_singleton, List.not_mem_nil, or_false] at hy
        rcases hy with rfl | rfl <;> omega
      · left; simp [DecodeRune, hb, h2, hc]
  · by_cases h3 : 0xE0 ≤ b ∧ b ≤ 0xEF
    · match r with
      | [] => left; simp [DecodeRune, hb, h2, h3]
      | [_] => left; simp [DecodeRune, hb, h2, h3]
      | b1 :: b2 :: r2 =>
        by_cases hc : (if b = 0xE0 then 0xA0 else 0x80) ≤ b1
            ∧ b1 ≤ (if b = 0xED then 0x9F else 0xBF) ∧ isCont b2 = true
        · right
          have hc2 : 0x80 ≤ b2 ∧ b2 ≤ 0xBF := by simpa [isCont] using hc.2.2
          have hlo : 0x80 ≤ b1 ∧ (b = 0xE0 → 0xA0 ≤ b1) := by
            have := hc.1
            split at this <;> omega
          have hhi : b1 ≤ 0xBF := by
            have := hc.2.1
            split at this <;> omega
          refine ⟨_, 3, [b1, b2], r2, DecodeRune_three b b1 b2 r2 h3 hc, rfl, rfl, by decide, ?_,
            ?_, fun x => DecodeRune_three b b1 b2 x h3 hc⟩
          · have := hlo.2
            omega
          · intro y hy
            simp only [List.mem_cons, List.mem_singleton, List.not_mem_nil, or_false] at hy
            rcases hy with rfl | rfl | rfl <;> omega
        · left
          simp only [DecodeRune, hb, h2, h3, and_self, if_true, if_false]
          rw [if_neg hc]
    · by_cases h4 : 0xF0 ≤ b ∧ b ≤ 0xF4
      · match r with
        | [] => left; simp [DecodeRune, hb, h2, h3, h4]
        | [_] => left; simp [DecodeRune, hb, h2, h3, h4]
        | [_, _] => left; simp [DecodeRune, hb, h2, h3, h4]
        | b1 :: b2 :: b3 :: r3 =>
          by_cases hc : (if b = 0xF0 then 0x90 else 0x80) ≤ b1
              ∧ b1 ≤ (if b = 0xF4 then 0x8F else 0xBF) ∧ isCont b2 = true ∧ isCont b3 = true
          · right
            have hc2 : 0x80 ≤ b2 ∧ b2 ≤ 0xBF := by simpa [isCont] using hc.2.2.1
            have hc3 : 0x80 ≤ b3 ∧ b3 ≤ 0xBF := by simpa [isCont] using hc.2.2.2
            have hlo : 0x80 ≤ b1 ∧ (b = 0xF0 → 0x90 ≤ b1) := by
              have := hc.1
              split at this <;> omega
            have hhi : b1 ≤ 0xBF := by
              have := hc.2.1
              split at this <;> omega
            refine ⟨_, 4, [b1, b2, b3], r3, DecodeRune_four b b1 b2 b3 r3 h4 hc, rfl, rfl,
              by decide, ?_, ?_, fun x => DecodeRune_four b b1 b2 b3 x h4 hc⟩
            · have := hlo.2
              omega
            · intro y hy
              simp only [List.mem_cons, List.mem_singleton, List.not_mem_nil, or_false] at hy
              rcases hy with rfl | rfl | rfl | rfl <;> omega
          · left
            simp only [DecodeRune, hb, h2, h3, h4, and_self, if_true, if_false]
            rw [if_neg hc]
      · left; simp [DecodeRune, hb, h2, h3, h4]

theorem scanString_plain (F c : Nat) (X : Bytes) (h1 : c ≠ 34) (h2 : c ≠ 92) (h3 : ¬ c < 0x20)
    (h4 : c < 0x80) :
    scanString (F + 1) (c :: X) = (scanString F X).map fun (t, rest) => (c :: t, rest) := by
  simp only [scanString, h1, h2, h3, h4, if_true, if_false]

theorem scanString_escape (F e b : Nat) (X : Bytes) (he : e ≠ 117)
    (hp : (if e = 34 ∨ e = 92 ∨ e = 47 then some e
      else if e = 98 then some 8
      else if e = 102 then some 12
      else if e = 110 then some 10
      else if e = 114 then some 13
      else if e = 116 then some 9
      else none) = some b) :
    scanString (F + 1) (92 :: e :: X) = (scanString F X).map fun (t, rest) => (b :: t, rest) := by
  have h92 : (92 : Nat) ≠ 34 := by decide
  simp only [scanString, h92, he, if_true, if_false, hp, Option.some_bind]

theorem scanString_escape_u (F a b c d rr : Nat) (X : Bytes)
    (hu : getu4 (92 :: 117 :: a :: b :: c :: d :: X) = some rr)
    (hs : ¬ (0xD800 ≤ rr ∧ rr ≤ 0xDFFF)) :
    scanString (F + 1) (92 :: 117 :: a :: b :: c :: d :: X)
      = (scanString F X).map fun (t, rest) => (EncodeRune rr ++ t, rest) := by
  have h92 : (92 : Nat) ≠ 34 := by decide
  simp only [scanString, h92, if_true, if_false, hu, Option.some_bind, hs, List.drop_succ_cons,
    List.drop_zero]

theorem scanString_raw (F b rune size : Nat) (pre X : Bytes) (hb : ¬ b < 0x80)
    (hd : DecodeRune (b :: (pre ++ X)) = (rune, size)) (hsize : size = pre.length + 1) :
    scanString (F + 1) (b :: (pre ++ X))
      = (scanString F X).map fun (t, rest) => (EncodeRune rune ++ t, rest) := by
  have h1 : b ≠ 34 := by omega
  have h2 : b ≠ 92 := by omega
  have h3 : ¬ b < 0x20 := by omega
  have hdrop : (pre ++ X).drop (size - 1) = X := by
    rw [hsize]; simp
  simp only [scanString, h1, h2, h3, hb, if_false, hd, hdrop]

theorem getu4_hex (w x y z : Nat) (X : Bytes) (hw : w < 16) (hx : x < 16) (hy : y < 16)
    (hz : z < 16) :
    getu4 (92 :: 117 :: hexDigit w :: hexDigit x :: hexDigit y :: hexDigit z :: X)
      = some (((w * 16 + x) * 16 + y) * 16 + z) := by
  simp only [getu4, hexVal_hexDigit _ hw, hexVal_hexDigit _ hx, hexVal_hexDigit _ hy,
    hexVal_hexDigit _ hz, Option.some_bind, Option.map_some']

theorem EncodeRune_ascii (b : Nat) (h : b < 0x80) : EncodeRune b = [b] := by
  simp [EncodeRune, h]

/-- Scanning the escape `appendString` writes for an ASCII byte outside `htmlSafeSet`
gives the byte back. -/
theorem scanString_escapeByte (F b : Nat) (X : Bytes) (hb : b < 0x80) :
    scanString (F + 1) (escapeByte b ++ X)
      = (scanString F X).map fun (t, rest) => (b :: t, rest) := by
  unfold escapeByte
  split_ifs with h1 h2 h3 h4 h5 h6
  · rcases h1 with rfl | rfl
    · exact scanString_escape F 92 92 X (by decide) (by decide)
    · exact scanString_escape F 34 34 X (by decide) (by decide)
  · subst h2; exact scanString_escape F 98 8 X (by decide) (by decide)
  · subst h3; exact scanString_escape F 102 12 X (by decide) (by decide)
  · subst h4; exact scanString_escape F 110 10 X (by decide) (by decide)
  · subst h5; exact scanString_escape F 114 13 X (by decide) (by decide)
  · subst h6; exact scanString_escape F 116 9 X (by decide) (by decide)
  · have hu := getu4_hex 0 0 (b / 16) (b % 16) X (by decide) (by decide) (by omega) (by omega)
    have e0 : hexDigit 0 = 48 := by decide
    rw [e0] at hu
    have hval : ((0 * 16 + 0) * 16 + b / 16) * 16 + b % 16 = b := by omega
    rw [hval] at hu
    have := scanString_escape_u F 48 48 (hexDigit (b / 16)) (hexDigit (b % 16)) b X hu (by omega)
    rw [EncodeRune_ascii b hb] at this
    simpa using this

theorem escapeByte_length (b : Nat) : 1 ≤ (escapeByte b).length := by
  unfold escapeByte
  split_ifs <;> simp

/-- Scanning what `appendString` wrote between the quotes gives the string back, with
invalid UTF-8 replaced. -/
theorem scanString_appendStringBody (f : Nat) :
    ∀ (src rest : Bytes) (F : Nat), src.length ≤ f → (appendStringBody f src).length < F →
      scanString F (appendStringBody f src ++ 34 :: rest) = some (toValidUTF8 f src, rest) := by
  induction f with
  | zero =>
    intro src rest F _ hF
    obtain ⟨F', rfl⟩ : ∃ F', F = F' + 1 := ⟨F - 1, by omega⟩
    simp [appendStringBody, toValidUTF8, scanString]
  | succ f ih =>
    intro src rest F hl hF
    obtain ⟨F', rfl⟩ : ∃ F', F = F' + 1 := ⟨F - 1, by omega⟩
    cases src with
    | nil => simp [appendStringBody, toValidUTF8, scanString]
    | cons b r =>
      have hlr : r.length ≤ f := by simpa using hl
      by_cases hb : b < 0x80
      · have hbody : appendStringBody (f + 1) (b :: r)
            = (if htmlSafe b = true then [b] else escapeByte b) ++ appendStringBody f r := by
          simp only [appendStringBody, hb, if_true]
        have hvalid : toValidUTF8 (f + 1) (b :: r) = b :: toValidUTF8 f r := by
          simp only [toValidUTF8, hb, if_true]
        rw [hbody] at hF ⊢
        rw [hvalid, List.append_assoc]
        by_cases hs : htmlSafe b = true
        · have hp := htmlSafe_plain b hs
          simp only [hs, if_true, List.cons_append, List.nil_append] at hF ⊢
          rw [scanString_plain F' b _ hp.1 hp.2.1 hp.2.2.1 hp.2.2.2,
            ih r rest F' hlr (by simp at hF; omega)]
          rfl
        · have hs' : htmlSafe b = false := by simpa using hs
          simp only [hs', Bool.false_eq_true, if_false] at hF ⊢
          have hel := escapeByte_length b
          rw [scanString_escapeByte F' b _ hb,
            ih r rest F' hlr (by simp only [List.length_append] at hF; omega)]
          rfl
      · rcases DecodeRune_spec b r hb with hinv | ⟨rune, size, pre, post, hd, hr, hsize, h2s, -, -, hpre⟩
        · have hbody : appendStringBody (f + 1) (b :: r)
              = [92, 117, 102, 102, 102, 100] ++ appendStringBody f r := by
            simp only [appendStringBody, hb, if_false, hinv, and_self, if_true]
          have hvalid : toValidUTF8 (f + 1) (b :: r) = EncodeRune 0xFFFD ++ toValidUTF8 f r := by
            simp only [toValidUTF8, hb, if_false, hinv, Nat.sub_self, List.drop_zero]
          rw [hbody] at hF ⊢
          rw [hvalid]
          have hu := getu4_hex 15 15 15 13 (appendStringBody f r ++ 34 :: rest) (by decide)
            (by decide) (by decide) (by decide)
          have e15 : hexDigit 15 = 102 := by decide
          have e13 : hexDigit 13 = 100 := by decide
          rw [e15, e13] at hu
          have := scanString_escape_u F' 102 102 102 100 _ _ hu (by decide)
          simp only [List.cons_append, List.nil_append]
          rw [this, ih r rest F' hlr (by simp at hF; omega)]
          rfl
        · have hrp : r = pre ++ post := by simpa using hr
          have hpost : post.length ≤ f := by
            have : r.length = pre.length + post.length := by rw [hrp]; simp
            omega
          have hdrop : r.drop (size - 1) = post := by rw [hrp, hsize]; simp
          have hvalid : toValidUTF8 (f + 1) (b :: r) = EncodeRune rune ++ toValidUTF8 f post := by
            simp only [toValidUTF8, hb, if_false, hd, hdrop]
          have hnot : ¬ (rune = 0xFFFD ∧ size = 1) := by omega
          rw [hvalid]
          by_cases h2028 : rune = 0x2028 ∨ rune = 0x2029
          · have hbody : appendStringBody (f + 1) (b :: r)
                = [92, 117, 50, 48, 50, hexDigit (rune % 16)] ++ appendStringBody f post := by
              simp only [appendStringBody, hb, if_false, hd, hnot, h2028, if_true, hdrop]
            rw [hbody] at hF ⊢
            have hu := getu4_hex 2 0 2 (rune % 16) (appendStringBody f post ++ 34 :: rest)
              (by decide) (by decide) (by decide) (by omega)
            have e2 : hexDigit 2 = 50 := by decide
            have e0 : hexDigit 0 = 48 := by decide
            rw [e2, e0] at hu
            have hval : ((2 * 16 + 0) * 16 + 2) * 16 + rune % 16 = rune := by omega
            rw [hval] at hu
            have := scanString_escape_u F' 50 48 50 (hexDigit (rune % 16)) rune _ hu (by omega)
            simp only [List.cons_append, List.nil_append]
            rw [this, ih post rest F' hpost (by simp at hF; omega)]
            rfl
          · have htake : (b :: r).take size = b :: pre := by rw [hrp, hsize]; simp
            have hbody : appendStringBody (f + 1) (b :: r)
                = (b :: pre) ++ appendStringBody f post := by
              simp only [appendStringBody, hb, if_false, hd, hnot, h2028, hdrop, htake]
            rw [hbody] at hF ⊢
            have hd' := hpre (appendStringBody f post ++ 34 :: rest)
            simp only [List.cons_append] at hd' ⊢
            rw [List.append_assoc, scanString_raw F' b rune size pre _ hb hd' hsize,
              ih post rest F' hpost (by simp at hF; omega)]
            rfl

theorem scanValue_appendString (f depth : Nat) (val rest : Bytes) :
    scanValue (f + 1) depth (appendString val ++ rest)
      = some (Token.string (toValidUTF8 val.length val), rest) := by
  have e : appendString val ++ rest = 34 :: (appendStringBody val.length val ++ 34 :: rest) := by
    simp [appendString]
  rw [e]
  simp only [scanValue, if_true]
  rw [scanString_appendStringBody val.length val rest _ (le_refl _) (by simp; omega)]
  rfl

/-- One member with a string value of any content, followed by another member. -/
theorem decodeMembers_appendString_more (fuel : Nat) (s : Session) (key val rest : Bytes)
    (hk : ∀ b ∈ key, htmlSafe b = true) :
    decodeMembers (fuel + 1) s (34 :: (key ++ 34 :: 58 :: (appendString val ++ 44 :: 34 :: rest)))
      = (store s key (Token.string (toValidUTF8 val.length val))).bind fun s1 =>
          decodeMembers fuel s1 (34 :: rest) := by
  have hsk : skipWS (appendString val ++ 44 :: 34 :: rest)
      = appendString val ++ 44 :: 34 :: rest := by
    simp [appendString, skipWS_cons 34 _ (by decide)]
  simp only [decodeMembers, if_true]
  rw [scanString_safe key hk _ _ (by simp; omega)]
  simp only [Option.some_bind, skipWS_cons 58 _ (by decide), if_true, scanFuel_succ, hsk]
  rw [scanValue_appendString]
  simp only [Option.some_bind, skipWS_cons 44 _ (by decide), skipWS_cons 34 _ (by decide),
    if_true]

/-- The last member, with a string value of any content. -/
theorem decodeMembers_appendString_last (fuel : Nat) (s : Session) (key val rest : Bytes)
    (hk : ∀ b ∈ key, htmlSafe b = true) :
    decodeMembers (fuel + 1) s (34 :: (key ++ 34 :: 58 :: (appendString val ++ 125 :: rest)))
      = (store s key (Token.string (toValidUTF8 val.length val))).bind fun s1 =>
          some (s1, rest) := by
  have hsk : skipWS (appendString val ++ 125 :: rest) = appendString val ++ 125 :: rest := by
    simp [appendString, skipWS_cons 34 _ (by decide)]
  simp only [decodeMembers, if_true]
  rw [scanString_safe key hk _ _ (by simp; omega)]
  simp only [Option.some_bind, skipWS_cons 58 _ (by decide), if_true, scanFuel_succ, hsk]
  rw [scanValue_appendString]
  simp only [Option.some_bind, skipWS_cons 125 _ (by decide), if_true]
  simp

/-- The bytes `Marshal` writes, member by member. -/
theorem Marshal_members (s : Session) :
    Marshal s = 123 :: 34 :: (utf8 "from" ++ 34 :: 58 :: (appendString s.From ++ 44 :: 34
      :: (utf8 "src_id" ++ 34 :: 58 :: (Itoa s.SrcID ++ 44 :: 34
      :: (utf8 "manager_id" ++ 34 :: 58 :: (Itoa s.ManagerID ++ 44 :: 34
      :: (utf8 "user_id" ++ 34 :: 58 :: (Itoa s.UserID ++ 44 :: 34
      :: (utf8 "expire" ++ 34 :: 58 :: (appendString s.Expire ++ 44 :: 34
      :: (utf8 "signature" ++ 34 :: 58 :: (appendString s.Signature ++ 125 :: [])))))))))))) := by
  have k1 : utf8 "\x7b\"from\":" = 123 :: 34 :: (utf8 "from" ++ [34, 58]) := by decide
  have k2 : utf8 ",\"src_id\":" = 44 :: 34 :: (utf8 "src_id" ++ [34, 58]) := by decide
  have k3 : utf8 ",\"manager_id\":" = 44 :: 34 :: (utf8 "manager_id" ++ [34, 58]) := by decide
  have k4 : utf8 ",\"user_id\":" = 44 :: 34 :: (utf8 "user_id" ++ [34, 58]) := by decide
  have k5 : utf8 ",\"expire\":" = 44 :: 34 :: (utf8 "expire" ++ [34, 58]) := by decide
  have k6 : utf8 ",\"signature\":" = 44 :: 34 :: (utf8 "signature" ++ [34, 58]) := by decide
  have k7 : utf8 "\x7d" = [125] := by decide
  simp only [Marshal, k1, k2, k3, k4, k5, k6, k7, List.append_assoc, List.cons_append,
    List.nil_append]

/-- Decoding what `Marshal` wrote gives the claims back, with invalid UTF-8 in the
three strings replaced, when the three ids are 64-bit integers. -/
theorem Unmarshal_Marshal_any (s : Session)
    (hs0 : -9223372036854775808 ≤ s.SrcID) (hs1 : s.SrcID ≤ 9223372036854775807)
    (hm0 : -9223372036854775808 ≤ s.ManagerID) (hm1 : s.ManagerID ≤ 9223372036854775807)
    (hu0 : -9223372036854775808 ≤ s.UserID) (hu1 : s.UserID ≤ 9223372036854775807) :
    Unmarshal (Marshal s)
      = some { From := toValidUTF8 s.From.length s.From, SrcID := s.SrcID,
               ManagerID := s.ManagerID, UserID := s.UserID,
               Expire := toValidUTF8 s.Expire.length s.Expire,
               Signature := toValidUTF8 s.Signature.length s.Signature } := by
  have q1 : ∀ b ∈ utf8 "from", htmlSafe b = true := by decide
  have q2 : ∀ b ∈ utf8 "src_id", htmlSafe b = true := by decide
  have q3 : ∀ b ∈ utf8 "manager_id", htmlSafe b = true := by decide
  have q4 : ∀ b ∈ utf8 "user_id", htmlSafe b = true := by decide
  have q5 : ∀ b ∈ utf8 "expire", htmlSafe b = true := by decide
  have q6 : ∀ b ∈ utf8 "signature", htmlSafe b = true := by decide
  have hlen : ∃ m, (Marshal s).length + 1 = m + 6 := ⟨(Marshal s).length - 5, by
    rw [Marshal_members s]; simp only [List.length_cons, List.length_append]; omega⟩
  obtain ⟨m, hm⟩ := hlen
  unfold Unmarshal
  rw [hm, Marshal_members s]
  simp only [skipWS_cons 123 _ (by decide), skipWS_cons 34 _ (by decide), if_true]
  rw [if_neg (by decide)]
  rw [decodeMembers_appendString_more _ _ _ _ _ q1, store_from, Option.some_bind,
    decodeMembers_int_more _ _ _ _ _ q2, store_src_id _ _ hs0 hs1, Option.some_bind,
    decodeMembers_int_more _ _ _ _ _ q3, store_manager_id _ _ hm0 hm1, Option.some_bind,
    decodeMembers_int_more _ _ _ _ _ q4, store_user_id _ _ hu0 hu1, Option.some_bind,
    decodeMembers_appendString_more _ _ _ _ _ q5, store_expire, Option.some_bind,
    decodeMembers_appendString_last _ _ _ _ _ q6, store_signature, Option.some_bind]
  simp [skipWS, Session.zero]

theorem toValidUTF8_ascii (x : Bytes) (h : ∀ b ∈ x, b < 0x80) :
    ∀ f, x.length ≤ f → toValidUTF8 f x = x := by
  induction x with
  | nil => intro f _; cases f <;> rfl
  | cons b r ih =>
    intro f hf
    cases f with
    | zero => simp at hf
    | succ f =>
      have hb := h b (by simp)
      simp only [toValidUTF8, hb, if_true,
        ih (fun y hy => h y (by simp [hy])) f (by simpa using hf)]

theorem EncodeRune_head (r : Nat) (h : 0x80 ≤ r) : ∃ c t, EncodeRune r = c :: t ∧ 0x80 ≤ c := by
  unfold EncodeRune
  split_ifs
  · omega
  · exact ⟨_, _, rfl, by omega⟩
  · exact ⟨_, _, rfl, by omega⟩
  · exact ⟨_, _, rfl, by omega⟩
  · exact ⟨_, _, rfl, by omega⟩

/-- A string whose marshalled and unmarshalled form is ASCII was ASCII. -/
theorem ascii_of_toValidUTF8 (f : Nat) :
    ∀ x : Bytes, x.length ≤ f → (∀ b ∈ toValidUTF8 f x, b < 0x80) → ∀ b ∈ x, b < 0x80 := by
  induction f with
  | zero =>
    intro x hx _ b hb
    have : x = [] := List.length_eq_zero.mp (by omega)
    rw [this] at hb
    simp at hb
  | succ f ih =>
    intro x hx h b hb
    cases x with
    | nil => simp at hb
    | cons c r =>
      have hr : r.length ≤ f := by simpa using hx
      by_cases hc : c < 0x80
      · simp only [toValidUTF8, hc, if_true] at h
        simp only [List.mem_cons] at hb
        rcases hb with rfl | hb
        · exact hc
        · exact ih r hr (fun y hy => h y (by simp [hy])) b hb
      · exfalso
        simp only [toValidUTF8, hc, if_false] at h
        have hrune : 0x80 ≤ (DecodeRune (c :: r)).1 := by
          rcases DecodeRune_spec c r hc with hinv | ⟨rune, size, pre, post, hd, -, -, -, h80, -, -⟩
          · rw [hinv]; decide
          · rw [hd]; exact h80
        obtain ⟨y, t, e, hy⟩ := EncodeRune_head _ hrune
        have := h y (by rw [e]; simp)
        omega

theorem appendStringBody_bytes (f : Nat) :
    ∀ src : Bytes, src.length ≤ f → ∀ b ∈ appendStringBody f src, b < 256 := by
  induction f with
  | zero => intro src _ b hb; simp [appendStringBody] at hb
  | succ f ih =>
    intro src hl y hy
    cases src with
    | nil => simp [appendStringBody] at hy
    | cons b r =>
      have hlr : r.length ≤ f := by simpa using hl
      by_cases hb : b < 0x80
      · simp only [appendStringBody, hb, if_true, List.mem_append] at hy
        rcases hy with hy | hy
        · split at hy
          · simp only [List.mem_singleton] at hy; omega
          · unfold escapeByte at hy
            have h1 : hexDigit (b / 16) < 256 := by unfold hexDigit; split <;> omega
            have h2 : hexDigit (b % 16) < 256 := by unfold hexDigit; split <;> omega
            split_ifs at hy <;>
              simp only [List.mem_cons, List.mem_singleton, List.not_mem_nil, or_false] at hy <;>
              omega
        · exact ih r hlr y hy
      · rcases DecodeRune_spec b r hb with hinv | ⟨rune, size, pre, post, hd, hr, hsize, h2s, -,
            hbytes, -⟩
        · simp only [appendStringBody, hb, if_false, hinv, and_self, if_true, List.mem_append,
            List.mem_cons, List.mem_singleton, List.not_mem_nil, or_false] at hy
          rcases hy with hy | hy
          · omega
          · exact ih r hlr y hy
        · have hrp : r = pre ++ post := by simpa using hr
          have hpost : post.length ≤ f := by
            have : r.length = pre.length + post.length := by rw [hrp]; simp
            omega
          have hdrop : r.drop (size - 1) = post := by rw [hrp, hsize]; simp
          have htake : (b :: r).take size = b :: pre := by rw [hrp, hsize]; simp
          have hnot : ¬ (rune = 0xFFFD ∧ size = 1) := by omega
          simp only [appendStringBody, hb, if_false, hd, hnot, hdrop, htake] at hy
          split at hy
          · have h1 : hexDigit (rune % 16) < 256 := by unfold hexDigit; split <;> omega
            simp only [List.mem_append, List.mem_cons, List.mem_singleton, List.not_mem_nil,
              or_false] at hy
            rcases hy with hy | hy
            · omega
            · exact ih post hpost y hy
          · simp only [List.mem_append] at hy
            rcases hy with hy | hy
            · exact hbytes y hy
            · exact ih post hpost y hy

theorem Marshal_bytes_any (s : Session) : ∀ b ∈ Marshal s, b < 256 := by
  have q1 : ∀ b ∈ utf8 "from", b < 256 := by decide
  have q2 : ∀ b ∈ utf8 "src_id", b < 256 := by decide
  have q3 : ∀ b ∈ utf8 "manager_id", b < 256 := by decide
  have q4 : ∀ b ∈ utf8 "user_id", b < 256 := by decide
  have q5 : ∀ b ∈ utf8 "expire", b < 256 := by decide
  have q6 : ∀ b ∈ utf8 "signature", b < 256 := by decide
  have sF := appendStringBody_bytes s.From.length s.From (le_refl _)
  have sE := appendStringBody_bytes s.Expire.length s.Expire (le_refl _)
  have sS := appendStringBody_bytes s.Signature.length s.Signature (le_refl _)
  have i1 : ∀ b ∈ Itoa s.SrcID, b < 256 := fun b hb => by have := Itoa_bytes _ b hb; omega
  have i2 : ∀ b ∈ Itoa s.ManagerID, b < 256 := fun b hb => by have := Itoa_bytes _ b hb; omega
  have i3 : ∀ b ∈ Itoa s.UserID, b < 256 := fun b hb => by have := Itoa_bytes _ b hb; omega
  rw [Marshal_members s]
  intro b hb
  simp only [appendString, List.mem_cons, List.mem_append, List.not_mem_nil, or_false,
    List.mem_singleton] at hb
  casesm* _ ∨ _
  all_goals first
    | omega
    | exact q1 b ‹_› | exact q2 b ‹_› | exact q3 b ‹_› | exact q4 b ‹_› | exact q5 b ‹_›
    | exact q6 b ‹_› | exact sF b ‹_› | exact sE b ‹_› | exact sS b ‹_› | exact i1 b ‹_›
    | exact i2 b ‹_› | exact i3 b ‹_›

/-! ## Fuel: the bounds given to the recursive readers are enough -/

/-- Dropping white space never makes the input longer. -/
theorem skipWS_length (bs : Bytes) : (skipWS bs).length ≤ bs.length := by
  induction bs with
  | nil => simp [skipWS]
  | cons c r ih =>
    unfold skipWS
    by_cases h : isSpace c = true
    · rw [if_pos h]; simp only [List.length_cons]; omega
    · rw [if_neg h]

/-- More fuel than the input is long never changes what `scanString` reads. -/
theorem scanString_fuel (fuel : Nat) : ∀ r : Bytes, r.length < fuel →
    scanString (fuel + 1) r = scanString fuel r := by
  induction fuel with
  | zero => intro r h; omega
  | succ f ih =>
    intro r h
    cases r with
    | nil => simp only [scanString]
    | cons c r =>
      simp only [List.length_cons] at h
      obtain ⟨g, rfl⟩ : ∃ g, f = g + 1 := ⟨f - 1, by omega⟩
      have e0 := ih r (by omega)
      have e1 := ih (r.drop ((DecodeRune (c :: r)).2 - 1)) (by simp only [List.length_drop]; omega)
      cases r with
      | nil =>
        conv_lhs => rw [scanString]
        conv_rhs => rw [scanString]
        simp only [e0, e1]
      | cons e r1 =>
        simp only [List.length_cons] at h
        have e2 := ih r1 (by omega)
        have e3 := ih (r1.drop 4) (by simp only [List.length_drop]; omega)
        have e4 := ih ((r1.drop 4).drop 6) (by simp only [List.length_drop]; omega)
        conv_lhs => rw [scanString]
        conv_rhs => rw [scanString]
        simp only [e0, e1, e2, e3, e4]

/-- The fuel that `scanValue` and the member readers give `scanString`, the length of
the input with its opening quote, is enough: any larger fuel reads the same. -/
theorem scanString_fuel_le (r : Bytes) (fuel : Nat) (h : r.length < fuel) :
    scanString fuel r = scanString (r.length + 1) r := by
  induction fuel with
  | zero => omega
  | succ f ih =>
    by_cases hf : r.length < f
    · rw [scanString_fuel f r hf]; exact ih hf
    · have : f = r.length := by omega
      rw [this]

/-- A reader whose result is mapped on its first component leaves the same rest. -/
theorem map_rest {α β : Type} (g : α → β) (o : Option (α × Bytes)) (x : β) (rest : Bytes)
    (h : o.map (fun p => (g p.1, p.2)) = some (x, rest)) : ∃ t, o = some (t, rest) := by
  cases o with
  | none => simp at h
  | some p =>
    simp only [Option.map_some', Option.some.injEq, Prod.mk.injEq] at h
    exact ⟨p.1, by rw [← h.2]⟩

/-- What `scanString` leaves is no longer than what it was given. -/
theorem scanString_length (fuel : Nat) : ∀ r s rest, scanString fuel r = some (s, rest) →
    rest.length ≤ r.length := by
  induction fuel with
  | zero => intro r s rest h; simp [scanString] at h
  | succ f ih =>
    intro r s rest h
    cases r with
    | nil => simp [scanString] at h
    | cons c r =>
      have k : ∀ (x : Bytes) (g : Bytes → Bytes), x.length ≤ r.length →
          (scanString f x).map (fun p => (g p.1, p.2)) = some (s, rest) →
          rest.length ≤ (c :: r).length := by
        intro x g hx hm
        obtain ⟨t, ht⟩ := map_rest g _ _ _ hm
        have := ih x t rest ht
        simp only [List.length_cons]; omega
      rw [scanString.eq_def] at h; simp only at h
      by_cases h1 : c = 34
      · rw [if_pos h1] at h
        simp only [Option.some.injEq, Prod.mk.injEq] at h
        rw [← h.2]; simp
      rw [if_neg h1] at h
      by_cases h2 : c = 92
      · rw [if_pos h2] at h
        cases r with
        | nil => simp at h
        | cons e r1 =>
          simp only at h
          by_cases h3 : e = 117
          · rw [if_pos h3] at h
            rw [Option.bind_eq_some] at h
            obtain ⟨rr, _, h⟩ := h
            have l4 : (r1.drop 4).length ≤ (e :: r1).length := by
              simp only [List.length_drop, List.length_cons]; omega
            have l6 : ((r1.drop 4).drop 6).length ≤ (e :: r1).length := by
              simp only [List.length_drop, List.length_cons]; omega
            by_cases h4 : 0xD800 ≤ rr ∧ rr ≤ 0xDFFF
            · rw [if_pos h4] at h
              cases hg : getu4 (r1.drop 4) with
              | none => rw [hg] at h; exact k _ (fun t => EncodeRune 0xFFFD ++ t) l4 h
              | some rr1 =>
                rw [hg] at h
                simp only at h
                by_cases h5 : rr ≤ 0xDBFF ∧ 0xDC00 ≤ rr1 ∧ rr1 ≤ 0xDFFF
                · rw [if_pos h5] at h; exact k _ (fun t => EncodeRune _ ++ t) l6 h
                · rw [if_neg h5] at h; exact k _ (fun t => EncodeRune 0xFFFD ++ t) l4 h
            · rw [if_neg h4] at h; exact k _ (fun t => EncodeRune rr ++ t) l4 h
          · rw [if_neg h3] at h
            rw [Option.bind_eq_some] at h
            obtain ⟨b, _, h⟩ := h
            exact k r1 (fun t => b :: t) (by simp) h
      rw [if_neg h2] at h
      by_cases h3 : c < 0x20
      · rw [if_pos h3] at h; simp at h
      rw [if_neg h3] at h
      by_cases h4 : c < 0x80
      · rw [if_pos h4] at h; exact k r (fun t => c :: t) (le_refl _) h
      · rw [if_neg h4] at h
        exact k _ (fun t => EncodeRune (DecodeRune (c :: r)).1 ++ t)
          (by simp only [List.length_drop]; omega) h

/-- What follows the leading digits is no longer than the input. -/
theorem spanDigits_length (bs : Bytes) : (spanDigits bs).2.length ≤ bs.length := by
  induction bs with
  | nil => simp [spanDigits]
  | cons c r ih =>
    unfold spanDigits
    by_cases h : 48 ≤ c ∧ c ≤ 57
    · rw [if_pos h]; simp only [List.length_cons]; omega
    · rw [if_neg h]

/-- What `scanExponent` leaves is no longer than what it was given. -/
theorem scanExponent_length (bs e rest : Bytes) (h : scanExponent bs = some (e, rest)) :
    rest.length ≤ bs.length := by
  unfold scanExponent at h
  cases bs with
  | nil => simp only [Option.some.injEq, Prod.mk.injEq] at h; rw [← h.2]
  | cons c r =>
    try simp only at h
    by_cases h1 : c = 101 ∨ c = 69
    · rw [if_pos h1] at h
      cases r with
      | nil =>
        try simp only at h
        by_cases h2 : (spanDigits ([] : Bytes)).1 = []
        · rw [if_pos h2] at h; simp at h
        · exact absurd (by simp [spanDigits]) h2
      | cons sg r1 =>
        try simp only at h
        by_cases h3 : sg = 43 ∨ sg = 45
        · rw [if_pos h3] at h
          try simp only at h
          by_cases h2 : (spanDigits r1).1 = []
          · rw [if_pos h2] at h; simp at h
          · rw [if_neg h2] at h
            simp only [Option.some.injEq, Prod.mk.injEq] at h
            rw [← h.2]
            have := spanDigits_length r1
            simp only [List.length_cons]; omega
        · rw [if_neg h3] at h
          try simp only at h
          by_cases h2 : (spanDigits (sg :: r1)).1 = []
          · rw [if_pos h2] at h; simp at h
          · rw [if_neg h2] at h
            simp only [Option.some.injEq, Prod.mk.injEq] at h
            rw [← h.2]
            have := spanDigits_length (sg :: r1)
            simp only [List.length_cons] at this ⊢; omega
    · rw [if_neg h1] at h
      simp only [Option.some.injEq, Prod.mk.injEq] at h; rw [← h.2]

/-- What `scanFraction` leaves is no longer than what it was given. -/
theorem scanFraction_length (bs e rest : Bytes) (h : scanFraction bs = some (e, rest)) :
    rest.length ≤ bs.length := by
  unfold scanFraction at h
  cases bs with
  | nil => simp only [Option.some.injEq, Prod.mk.injEq] at h; rw [← h.2]
  | cons c r =>
    try simp only at h
    by_cases h1 : c = 46
    · rw [if_pos h1] at h
      try simp only at h
      by_cases h2 : (spanDigits r).1 = []
      · rw [if_pos h2] at h; simp at h
      · rw [if_neg h2] at h
        obtain ⟨t, ht⟩ := map_rest (fun e => c :: (spanDigits r).1 ++ e) _ _ _ h
        have := scanExponent_length _ _ _ ht
        have := spanDigits_length r
        simp only [List.length_cons]; omega
    · rw [if_neg h1] at h
      exact scanExponent_length _ _ _ h

/-- What `scanNumber` leaves is no longer than what it was given. -/
theorem scanNumber_length (bs lit rest : Bytes) (h : scanNumber bs = some (lit, rest)) :
    rest.length ≤ bs.length := by
  unfold scanNumber at h
  try simp only at h
  have key : ∀ (pre x : Bytes), x.length ≤ bs.length →
      (match x with
        | [] => none
        | c :: r =>
          if c = 48 then (scanFraction r).map fun (f, rest) => (pre ++ 48 :: f, rest)
          else if 49 ≤ c ∧ c ≤ 57 then
            (scanFraction (spanDigits r).2).map fun (f, rest) => (pre ++ c :: (spanDigits r).1 ++ f, rest)
          else none) = some (lit, rest) → rest.length ≤ bs.length := by
    intro pre x hx hh
    cases x with
    | nil => simp at hh
    | cons c r =>
      try simp only at hh
      simp only [List.length_cons] at hx
      by_cases h1 : c = 48
      · rw [if_pos h1] at hh
        obtain ⟨t, ht⟩ := map_rest (fun f => pre ++ 48 :: f) _ _ _ hh
        have := scanFraction_length _ _ _ ht
        omega
      · rw [if_neg h1] at hh
        by_cases h2 : 49 ≤ c ∧ c ≤ 57
        · rw [if_pos h2] at hh
          obtain ⟨t, ht⟩ := map_rest (fun f => pre ++ c :: (spanDigits r).1 ++ f) _ _ _ hh
          have := scanFraction_length _ _ _ ht
          have := spanDigits_length r
          omega
        · rw [if_neg h2] at hh; simp at hh
  cases bs with
  | nil => simp at h
  | cons c r =>
    try simp only at h
    by_cases h1 : c = 45
    · simp only [if_pos h1] at h
      exact key [45] r (by simp) h
    · simp only [if_neg h1] at h
      exact key [] (c :: r) (le_refl _) h

/-- A byte found after white space was part of the input. -/
theorem skipWS_cons_length (bs : Bytes) (c : Nat) (r : Bytes) (h : skipWS bs = c :: r) :
    r.length + 1 ≤ bs.length := by
  have := skipWS_length bs
  rw [h] at this
  simpa using this

/-- What the value, element and member scanners leave is no longer than what they
were given, whatever the fuel. -/
theorem scan_length (fuel : Nat) :
    (∀ d bs t r, scanValue fuel d bs = some (t, r) → r.length ≤ bs.length)
    ∧ (∀ d bs r, scanElements fuel d bs = some r → r.length ≤ bs.length)
    ∧ (∀ d bs r, scanMembers fuel d bs = some r → r.length ≤ bs.length) := by
  induction fuel with
  | zero => simp [scanValue, scanElements, scanMembers]
  | succ f ih =>
    obtain ⟨ihv, ihe, ihm⟩ := ih
    refine ⟨?_, ?_, ?_⟩
    · intro d bs t r h
      cases bs with
      | nil => simp [scanValue] at h
      | cons c r0 =>
        rw [scanValue] at h
        try simp only at h
        by_cases h1 : c = 34
        · rw [if_pos h1] at h
          obtain ⟨x, hx⟩ := map_rest (fun s => Token.string s) _ _ _ h
          have := scanString_length _ _ _ _ hx
          simp only [List.length_cons]; omega
        rw [if_neg h1] at h
        by_cases h2 : c = 123
        · rw [if_pos h2] at h
          by_cases h3 : d ≥ maxNestingDepth
          · rw [if_pos h3] at h; simp at h
          rw [if_neg h3] at h
          cases hw : skipWS r0 with
          | nil => rw [hw] at h; simp at h
          | cons c1 r1 =>
            rw [hw] at h
            simp only at h
            have l1 := skipWS_cons_length _ _ _ hw
            by_cases h4 : c1 = 125
            · rw [if_pos h4] at h
              simp only [Option.some.injEq, Prod.mk.injEq] at h
              rw [← h.2]; simp only [List.length_cons]; omega
            · rw [if_neg h4] at h
              rw [Option.map_eq_some'] at h
              obtain ⟨x, hx, he⟩ := h
              simp only [Prod.mk.injEq] at he
              have := ihm _ _ _ hx
              rw [← he.2]; simp only [List.length_cons] at this ⊢; omega
        rw [if_neg h2] at h
        by_cases h2' : c = 91
        · rw [if_pos h2'] at h
          by_cases h3 : d ≥ maxNestingDepth
          · rw [if_pos h3] at h; simp at h
          rw [if_neg h3] at h
          cases hw : skipWS r0 with
          | nil => rw [hw] at h; simp at h
          | cons c1 r1 =>
            rw [hw] at h
            simp only at h
            have l1 := skipWS_cons_length _ _ _ hw
            by_cases h4 : c1 = 93
            · rw [if_pos h4] at h
              simp only [Option.some.injEq, Prod.mk.injEq] at h
              rw [← h.2]; simp only [List.length_cons]; omega
            · rw [if_neg h4] at h
              rw [Option.map_eq_some'] at h
              obtain ⟨x, hx, he⟩ := h
              simp only [Prod.mk.injEq] at he
              have := ihe _ _ _ hx
              rw [← he.2]; simp only [List.length_cons] at this ⊢; omega
        rw [if_neg h2'] at h
        have kw : ∀ (n : Nat) (lit : Bytes) (tk : Token),
            (if r0.take n = lit then some (tk, r0.drop n) else none) = some (t, r) →
            r.length ≤ (c :: r0).length := by
          intro n lit tk hh
          by_cases e : r0.take n = lit
          · rw [if_pos e] at hh
            simp only [Option.some.injEq, Prod.mk.injEq] at hh
            rw [← hh.2]; simp only [List.length_drop, List.length_cons]; omega
          · rw [if_neg e] at hh; simp at hh
        by_cases h5 : c = 116
        · rw [if_pos h5] at h; exact kw _ _ _ h
        rw [if_neg h5] at h
        by_cases h6 : c = 102
        · rw [if_pos h6] at h; exact kw _ _ _ h
        rw [if_neg h6] at h
        by_cases h7 : c = 110
        · rw [if_pos h7] at h; exact kw _ _ _ h
        rw [if_neg h7] at h
        obtain ⟨x, hx⟩ := map_rest (fun s => Token.number s) _ _ _ h
        exact scanNumber_length _ _ _ hx
    · intro d bs r h
      rw [scanElements] at h
      rw [Option.bind_eq_some] at h
      obtain ⟨⟨t, r0⟩, hv, h⟩ := h
      have l0 := ihv _ _ _ _ hv
      simp only at h
      cases hw : skipWS r0 with
      | nil => rw [hw] at h; simp at h
      | cons c r1 =>
        rw [hw] at h
        simp only at h
        have l1 := skipWS_cons_length _ _ _ hw
        by_cases h1 : c = 44
        · rw [if_pos h1] at h
          have := ihe _ _ _ h
          have := skipWS_length r1
          omega
        rw [if_neg h1] at h
        by_cases h2 : c = 93
        · rw [if_pos h2] at h
          simp only [Option.some.injEq] at h
          rw [← h]; omega
        · rw [if_neg h2] at h; simp at h
    · intro d bs r h
      cases bs with
      | nil => simp [scanMembers] at h
      | cons q r0 =>
        rw [scanMembers] at h
        try simp only at h
        by_cases h1 : q = 34
        · rw [if_pos h1] at h
          rw [Option.bind_eq_some] at h
          obtain ⟨⟨key, r1⟩, hs, h⟩ := h
          have l0 := scanString_length _ _ _ _ hs
          simp only at h
          cases hw : skipWS r1 with
          | nil => rw [hw] at h; simp at h
          | cons c r2 =>
            rw [hw] at h
            simp only at h
            have l1 := skipWS_cons_length _ _ _ hw
            by_cases h2 : c = 58
            · rw [if_pos h2] at h
              rw [Option.bind_eq_some] at h
              obtain ⟨⟨t, r3⟩, hv, h⟩ := h
              have l2 := ihv _ _ _ _ hv
              have l2' := skipWS_length r2
              simp only at h
              cases hw3 : skipWS r3 with
              | nil => rw [hw3] at h; simp at h
              | cons c1 r4 =>
                rw [hw3] at h
                simp only at h
                have l3 := skipWS_cons_length _ _ _ hw3
                by_cases h3 : c1 = 44
                · rw [if_pos h3] at h
                  have := ihm _ _ _ h
                  have := skipWS_length r4
                  simp only [List.length_cons]; omega
                rw [if_neg h3] at h
                by_cases h4 : c1 = 125
                · rw [if_pos h4] at h
                  simp only [Option.some.injEq] at h
                  rw [← h]; simp only [List.length_cons]; omega
                · rw [if_neg h4] at h; simp at h
            · rw [if_neg h2] at h; simp at h
        · rw [if_neg h1] at h; simp at h

/-- From the stated thresholds on, one more unit of fuel changes nothing in what the
scanner reads: the value scanner with twice the length of the input, the element and
member scanners with one unit more. -/
theorem scan_fuel (fuel : Nat) :
    (∀ d bs, 2 * bs.length ≤ fuel → scanValue (fuel + 1) d bs = scanValue fuel d bs)
    ∧ (∀ d bs, 2 * bs.length + 1 ≤ fuel →
        scanElements (fuel + 1) d bs = scanElements fuel d bs)
    ∧ (∀ d bs, 2 * bs.length + 1 ≤ fuel →
        scanMembers (fuel + 1) d bs = scanMembers fuel d bs) := by
  induction fuel with
  | zero =>
    refine ⟨?_, ?_, ?_⟩
    · intro d bs h
      cases bs with
      | nil => simp [scanValue]
      | cons c r => simp only [List.length_cons] at h; omega
    · intro d bs h; omega
    · intro d bs h; omega
  | succ g ih =>
    obtain ⟨ihv, ihe, ihm⟩ := ih
    refine ⟨?_, ?_, ?_⟩
    · intro d bs h
      cases bs with
      | nil => simp [scanValue]
      | cons c r0 =>
        simp only [List.length_cons] at h
        conv_lhs => rw [scanValue]
        conv_rhs => rw [scanValue]
        cases hw : skipWS r0 with
        | nil => rfl
        | cons c1 r1 =>
          have l1 := skipWS_cons_length _ _ _ hw
          have e1 := ihm (d + 1) (c1 :: r1) (by simp only [List.length_cons]; omega)
          have e2 := ihe (d + 1) (c1 :: r1) (by simp only [List.length_cons]; omega)
          simp only [e1, e2]
    · intro d bs h
      conv_lhs => rw [scanElements]
      conv_rhs => rw [scanElements]
      rw [ihv d bs (by omega)]
      cases hv : scanValue g d bs with
      | none => rfl
      | some p =>
        obtain ⟨t, r⟩ := p
        have l0 := (scan_length g).1 _ _ _ _ hv
        simp only [Option.some_bind]
        cases hw : skipWS r with
        | nil => rfl
        | cons c r1 =>
          have l1 := skipWS_cons_length _ _ _ hw
          have l2 := skipWS_length r1
          have e := ihe d (skipWS r1) (by omega)
          simp only [e]
    · intro d bs h
      cases bs with
      | nil => simp [scanMembers]
      | cons q r0 =>
        simp only [List.length_cons] at h
        conv_lhs => rw [scanMembers]
        conv_rhs => rw [scanMembers]
        by_cases h1 : q = 34
        · simp only [if_pos h1]
          cases hs : scanString (q :: r0).length r0 with
          | none => rfl
          | some p =>
            obtain ⟨key, r1⟩ := p
            have l0 := scanString_length _ _ _ _ hs
            simp only [Option.some_bind]
            cases hw : skipWS r1 with
            | nil => rfl
            | cons c r2 =>
              have l1 := skipWS_cons_length _ _ _ hw
              have l2 := skipWS_length r2
              simp only
              by_cases h2 : c = 58
              · simp only [if_pos h2]
                rw [ihv d (skipWS r2) (by omega)]
                cases hv : scanValue g d (skipWS r2) with
                | none => rfl
                | some p3 =>
                  obtain ⟨t, r3⟩ := p3
                  have l3 := (scan_length g).1 _ _ _ _ hv
                  simp only [Option.some_bind]
                  cases hw3 : skipWS r3 with
                  | nil => rfl
                  | cons c1 r4 =>
                    have l4 := skipWS_cons_length _ _ _ hw3
                    have l5 := skipWS_length r4
                    have e := ihm d (skipWS r4) (by omega)
                    simp only [e]
              · simp only [if_neg h2]
        · simp only [if_neg h1]

/-- From twice the length of the input on, the fuel of `scanValue` does not matter. -/
theorem scanValue_fuel (d : Nat) (bs : Bytes) (fuel : Nat) (h : 2 * bs.length ≤ fuel) :
    scanValue fuel d bs = scanValue (2 * bs.length) d bs := by
  induction fuel with
  | zero =>
    have : 2 * bs.length = 0 := by omega
    rw [this]
  | succ f ih =>
    by_cases hf : 2 * bs.length ≤ f
    · rw [(scan_fuel f).1 d bs hf]; exact ih hf
    · have : f + 1 = 2 * bs.length := by omega
      rw [this]

/-- The fuel `scanFuel` is enough: with any larger fuel `scanValue` reads the same. -/
theorem scanValue_scanFuel (d : Nat) (bs : Bytes) (fuel : Nat) (h : scanFuel bs ≤ fuel) :
    scanValue fuel d bs = scanValue (scanFuel bs) d bs := by
  unfold scanFuel at h ⊢
  rw [scanValue_fuel d bs fuel (by omega), scanValue_fuel d bs (2 * bs.length + 2) (by omega)]

/-- Fuel up to the length of the input is enough for `decodeMembers`. -/
theorem decodeMembers_fuel (fuel : Nat) : ∀ (s : Session) (bs : Bytes), bs.length ≤ fuel →
    decodeMembers (fuel + 1) s bs = decodeMembers fuel s bs := by
  induction fuel with
  | zero =>
    intro s bs h
    cases bs with
    | nil => simp [decodeMembers]
    | cons c r => simp only [List.length_cons] at h; omega
  | succ g ih =>
    intro s bs h
    cases bs with
    | nil => simp [decodeMembers]
    | cons q r0 =>
      simp only [List.length_cons] at h
      conv_lhs => rw [decodeMembers]
      conv_rhs => rw [decodeMembers]
      by_cases h1 : q = 34
      · simp only [if_pos h1]
        cases hs : scanString (q :: r0).length r0 with
        | none => rfl
        | some p =>
          obtain ⟨key, r1⟩ := p
          have l0 := scanString_length _ _ _ _ hs
          simp only [Option.some_bind]
          cases hw : skipWS r1 with
          | nil => rfl
          | cons c r2 =>
            have l1 := skipWS_cons_length _ _ _ hw
            have l2 := skipWS_length r2
            simp only
            by_cases h2 : c = 58
            · simp only [if_pos h2]
              cases hv : scanValue (scanFuel r2) 1 (skipWS r2) with
              | none => rfl
              | some p3 =>
                obtain ⟨t, r3⟩ := p3
                have l3 := (scan_length _).1 _ _ _ _ hv
                simp only [Option.some_bind]
                cases hst : store s key t with
                | none => rfl
                | some s1 =>
                  simp only [Option.some_bind]
                  cases hw3 : skipWS r3 with
                  | nil => rfl
                  | cons c1 r4 =>
                    have l4 := skipWS_cons_length _ _ _ hw3
                    have l5 := skipWS_length r4
                    have e := ih s1 (skipWS r4) (by omega)
                    simp only [e]
            · simp only [if_neg h2]
      · simp only [if_neg h1]

/-- From the length of the input on, the fuel of `decodeMembers` does not matter;
`Unmarshal` gives it the length of the whole document and one more. -/
theorem decodeMembers_fuel_le (s : Session) (bs : Bytes) (fuel : Nat) (h : bs.length ≤ fuel) :
    decodeMembers fuel s bs = decodeMembers bs.length s bs := by
  induction fuel with
  | zero =>
    have : bs.length = 0 := by omega
    rw [this]
  | succ f ih =>
    by_cases hf : bs.length ≤ f
    · rw [decodeMembers_fuel f s bs hf]; exact ih hf
    · have : f + 1 = bs.length := by omega
      rw [this]

/-- Fuel up to the length of the key is enough for `foldName`. -/
theorem foldName_fuel (fuel : Nat) : ∀ key : Bytes, key.length ≤ fuel →
    foldName (fuel + 1) key = foldName fuel key := by
  induction fuel with
  | zero =>
    intro key h
    cases key with
    | nil => simp [foldName]
    | cons c r => simp only [List.length_cons] at h; omega
  | succ g ih =>
    intro key h
    cases key with
    | nil => simp [foldName]
    | cons c r =>
      simp only [List.length_cons] at h
      have e0 := ih r (by omega)
      have e1 := ih (r.drop 1) (by simp only [List.length_drop]; omega)
      have e2 := ih (r.drop 2) (by simp only [List.length_drop]; omega)
      conv_lhs => rw [foldName]
      conv_rhs => rw [foldName]
      simp only [e0, e1, e2]

/-- Fuel up to the length of the string is enough for `appendStringBody`. -/
theorem appendStringBody_fuel (fuel : Nat) : ∀ src : Bytes, src.length ≤ fuel →
    appendStringBody (fuel + 1) src = appendStringBody fuel src := by
  induction fuel with
  | zero =>
    intro src h
    cases src with
    | nil => simp [appendStringBody]
    | cons c r => simp only [List.length_cons] at h; omega
  | succ g ih =>
    intro src h
    cases src with
    | nil => simp [appendStringBody]
    | cons b r =>
      simp only [List.length_cons] at h
      have e0 := ih r (by omega)
      have e1 := ih (r.drop ((DecodeRune (b :: r)).2 - 1)) (by simp only [List.length_drop]; omega)
      conv_lhs => rw [appendStringBody]
      conv_rhs => rw [appendStringBody]
      simp only [e0, e1]

/-- Fuel up to the length of the string is enough for `toValidUTF8`. -/
theorem toValidUTF8_fuel (fuel : Nat) : ∀ src : Bytes, src.length ≤ fuel →
    toValidUTF8 (fuel + 1) src = toValidUTF8 fuel src := by
  induction fuel with
  | zero =>
    intro src h
    cases src with
    | nil => simp [toValidUTF8]
    | cons c r => simp only [List.length_cons] at h; omega
  | succ g ih =>
    intro src h
    cases src with
    | nil => simp [toValidUTF8]
    | cons b r =>
      simp only [List.length_cons] at h
      have e0 := ih r (by omega)
      have e1 := ih (r.drop ((DecodeRune (b :: r)).2 - 1)) (by simp only [List.length_drop]; omega)
      conv_lhs => rw [toValidUTF8]
      conv_rhs => rw [toValidUTF8]
      simp only [e0, e1]

/-! ## What an accepted token's claims look like -/

theorem atoiFold_none (l : Bytes) :
    l.foldl (fun acc c => acc.bind fun v =>
      if 48 ≤ c ∧ c ≤ 57 then some (v * 10 + (c - 48)) else none) none = none := by
  induction l with
  | nil => rfl
  | cons c r ih => simpa using ih

theorem atoiFold_some_digits (l : Bytes) : ∀ (v w : Nat),
    l.foldl (fun acc c => acc.bind fun v =>
      if 48 ≤ c ∧ c ≤ 57 then some (v * 10 + (c - 48)) else none) (some v) = some w →
    ∀ b ∈ l, 48 ≤ b ∧ b ≤ 57 := by
  induction l with
  | nil => intro v w _ b hb; simp at hb
  | cons c r ih =>
    intro v w h b hb
    by_cases hc : 48 ≤ c ∧ c ≤ 57
    · simp only [List.foldl_cons, Option.some_bind, hc, and_self, if_true] at h
      simp only [List.mem_cons] at hb
      rcases hb with rfl | hb
      · exact hc
      · exact ih _ w h b hb
    · simp only [List.foldl_cons, Option.some_bind, hc, if_false] at h
      rw [atoiFold_none] at h
      cases h

theorem atoiDigits_some_digits (s : Bytes) (v : Nat) (h : atoiDigits s = some v) :
    ∀ b ∈ s, 48 ≤ b ∧ b ≤ 57 := by
  unfold atoiDigits at h
  split at h
  · cases h
  · exact atoiFold_some_digits s 0 v h

/-- When `getnum` succeeds it has read a run of digits off the front. -/
theorem getnum_some (s : Bytes) ( fixed : Bool) (n : Int) (v : Bytes)
    (h : getnum s fixed = some (n, v)) :
    ∃ pre, s = pre ++ v ∧ ∀ b ∈ pre, 48 ≤ b ∧ b ≤ 57 := by
  unfold getnum at h
  cases s with
  | nil => simp [isDigit] at h
  | cons c r =>
    by_cases hc : 48 ≤ c ∧ c ≤ 57
    · have h0 : isDigit (c :: r) 0 = true := by simp [isDigit, hc]
      simp only [h0, not_true_eq_false, if_false] at h
      cases r with
      | nil =>
        have h1 : isDigit [c] 1 = false := by simp [isDigit]
        simp only [h1, Bool.false_eq_true, not_false_eq_true, if_true] at h
        split at h
        · cases h
        · simp only [List.drop_succ_cons, List.drop_nil, Option.some.injEq, Prod.mk.injEq] at h
          refine ⟨[c], by rw [← h.2]; rfl, ?_⟩
          intro b hb
          simp only [List.mem_singleton] at hb
          rw [hb]; exact hc
      | cons d r' =>
        by_cases hd : 48 ≤ d ∧ d ≤ 57
        · have h1 : isDigit (c :: d :: r') 1 = true := by simp [isDigit, hd]
          simp only [h1, not_true_eq_false, if_false, List.drop_succ_cons, List.drop_zero,
            Option.some.injEq, Prod.mk.injEq] at h
          refine ⟨[c, d], by rw [← h.2]; rfl, ?_⟩
          intro b hb
          simp only [List.mem_cons, List.mem_singleton, List.not_mem_nil, or_false] at hb
          rcases hb with rfl | rfl
          · exact hc
          · exact hd
        · have h1 : isDigit (c :: d :: r') 1 = false := by simp [isDigit, hd]
          simp only [h1, Bool.false_eq_true, not_false_eq_true, if_true] at h
          split at h
          · cases h
          · simp only [List.drop_succ_cons, List.drop_zero, Option.some.injEq,
              Prod.mk.injEq] at h
            refine ⟨[c], by rw [← h.2]; rfl, ?_⟩
            intro b hb
            simp only [List.mem_singleton] at hb
            rw [hb]; exact hc
    · have h0 : isDigit (c :: r) 0 = false := by simp [isDigit, hc]
      simp [h0] at h

theorem mem_of_drop_takeWhile (p : Nat → Bool) (l : Bytes)
    (h : l.drop (l.takeWhile p).length = []) : ∀ b ∈ l, p b = true := by
  induction l with
  | nil => intro b hb; simp at hb
  | cons c r ih =>
    by_cases hc : p c = true
    · simp only [List.takeWhile_cons, hc, if_true, List.length_cons, List.drop_succ_cons] at h
      intro b hb
      simp only [List.mem_cons] at hb
      rcases hb with rfl | hb
      · exact hc
      · exact ih h b hb
    · simp [List.takeWhile_cons, hc] at h

/-- The text `Parse` accepts is ASCII: digits, possibly followed by a separator and
more digits. -/
theorem Parse_ascii (value : Bytes) (t : Time) (h : Parse value = some t) :
    ∀ b ∈ value, b < 0x80 := by
  unfold Parse at h
  by_cases c1 : value.length < 4 ∨ ¬ isDigit value 0 = true
  · rw [if_pos c1] at h; cases h
  · rw [if_neg c1] at h
    obtain ⟨year, hyear, h⟩ := Option.bind_eq_some.mp h
    obtain ⟨⟨month, v1⟩, hmonth, h⟩ := Option.bind_eq_some.mp h
    simp only at h
    by_cases c2 : month ≤ 0 ∨ 12 < month
    · rw [if_pos c2] at h; cases h
    · rw [if_neg c2] at h
      obtain ⟨⟨day, v2⟩, hday, h⟩ := Option.bind_eq_some.mp h
      simp only at h
      obtain ⟨⟨hour, v3⟩, hhour, h⟩ := Option.bind_eq_some.mp h
      simp only at h
      by_cases c3 : 24 ≤ hour
      · rw [if_pos c3] at h; cases h
      · rw [if_neg c3] at h
        obtain ⟨⟨min, v4⟩, hmin, h⟩ := Option.bind_eq_some.mp h
        simp only at h
        by_cases c4 : 60 ≤ min
        · rw [if_pos c4] at h; cases h
        · rw [if_neg c4] at h
          obtain ⟨⟨sec, v5⟩, hsec, h⟩ := Option.bind_eq_some.mp h
          simp only at h
          by_cases c5 : 60 ≤ sec
          · rw [if_pos c5] at h; cases h
          · rw [if_neg c5] at h
            obtain ⟨⟨nsec, v6⟩, hfrac, h⟩ := Option.bind_eq_some.mp h
            simp only at h
            by_cases hv6 : v6.length > 0
            · rw [if_pos hv6] at h; cases h
            · clear h
              have hv6' : v6 = [] := List.length_eq_zero.mp (by omega)
              have hy := atoiDigits_some_digits _ _ hyear
              obtain ⟨p1, e1, d1⟩ := getnum_some _ _ _ _ hmonth
              obtain ⟨p2, e2, d2⟩ := getnum_some _ _ _ _ hday
              obtain ⟨p3, e3, d3⟩ := getnum_some _ _ _ _ hhour
              obtain ⟨p4, e4, d4⟩ := getnum_some _ _ _ _ hmin
              obtain ⟨p5, e5, d5⟩ := getnum_some _ _ _ _ hsec
              have hv5 : ∀ b ∈ v5, b < 0x80 := by
                by_cases hcond : v5.length ≥ 2 ∧ (v5.get? 0 = some 46 ∨ v5.get? 0 = some 44)
                    ∧ isDigit v5 1 = true
                · rw [if_pos hcond] at hfrac
                  obtain ⟨ns, -, hpair⟩ := Option.map_eq_some'.mp hfrac
                  simp only [Prod.mk.injEq] at hpair
                  have hdrop : v5.drop (fractionEnd v5) = [] := by rw [hpair.2, hv6']
                  match v5, hcond, hdrop with
                  | [], hcond, _ => simp at hcond
                  | [_], hcond, _ => simp at hcond
                  | x0 :: x1 :: rest, hcond, hdrop =>
                    have hx0 : x0 = 46 ∨ x0 = 44 := by simpa using hcond.2.1
                    have hx1 : 48 ≤ x1 ∧ x1 ≤ 57 := by simpa [isDigit] using hcond.2.2
                    have hfe : fractionEnd (x0 :: x1 :: rest)
                        = (rest.takeWhile fun c => decide (48 ≤ c ∧ c ≤ 57)).length + 1 + 1 := by
                      unfold fractionEnd
                      simp only [List.drop_succ_cons, List.drop_zero]
                      omega
                    have hrest : rest.drop
                        (rest.takeWhile fun c => decide (48 ≤ c ∧ c ≤ 57)).length = [] := by
                      rw [hfe] at hdrop
                      exact hdrop
                    have hall := mem_of_drop_takeWhile _ rest hrest
                    intro b hb
                    simp only [List.mem_cons] at hb
                    rcases hb with rfl | rfl | hb
                    · omega
                    · omega
                    · have := hall b hb
                      simp only [decide_eq_true_eq] at this
                      omega
                · rw [if_neg hcond] at hfrac
                  simp only [Option.some.injEq, Prod.mk.injEq] at hfrac
                  rw [hfrac.2, hv6']
                  intro b hb
                  simp at hb
              have hsplit : value = value.take 4 ++ value.drop 4 := (List.take_append_drop 4 value).symm
              intro b hb
              rw [hsplit, e1, e2, e3, e4, e5] at hb
              simp only [List.mem_append] at hb
              rcases hb with hb | hb | hb | hb | hb | hb | hb
              · have := hy b hb; omega
              · have := d1 b hb; omega
              · have := d2 b hb; omega
              · have := d3 b hb; omega
              · have := d4 b hb; omega
              · have := d5 b hb; omega
              · exact hv5 b hb

theorem ParseInt_range (lit : Bytes) (n : Int) (h : ParseInt lit = some n) :
    -9223372036854775808 ≤ n ∧ n ≤ 9223372036854775807 := by
  unfold ParseInt at h
  obtain ⟨v, -, h⟩ := Option.bind_eq_some.mp h
  dsimp only at h
  rw [Option.ite_none_right_eq_some] at h
  rw [← Option.some.inj h.2]; exact h.1

/-- Storing a JSON value keeps the ids within 64 bits. -/
theorem store_idsInt64 (s s1 : Session) (key : Bytes) (v : Token) (h : store s key v = some s1)
    (hs : idsInt64 s) : idsInt64 s1 := by
  unfold store at h
  simp only at h
  split_ifs at h
  · cases v <;> simp only [Option.some.injEq, reduceCtorEq] at h <;> (try rw [← h]) <;> exact hs
  · cases v with
    | number lit =>
      simp only at h
      obtain ⟨n, hn, rfl⟩ := Option.map_eq_some'.mp h
      exact ⟨ParseInt_range lit n hn, hs.2.1, hs.2.2⟩
    | null => simp only [Option.some.injEq] at h; rw [← h]; exact hs
    | bool => cases h
    | string x => cases h
    | array => cases h
    | object => cases h
  · cases v with
    | number lit =>
      simp only at h
      obtain ⟨n, hn, rfl⟩ := Option.map_eq_some'.mp h
      exact ⟨hs.1, ParseInt_range lit n hn, hs.2.2⟩
    | null => simp only [Option.some.injEq] at h; rw [← h]; exact hs
    | bool => cases h
    | string x => cases h
    | array => cases h
    | object => cases h
  · cases v with
    | number lit =>
      simp only at h
      obtain ⟨n, hn, rfl⟩ := Option.map_eq_some'.mp h
      exact ⟨hs.1, hs.2.1, ParseInt_range lit n hn⟩
    | null => simp only [Option.some.injEq] at h; rw [← h]; exact hs
    | bool => cases h
    | string x => cases h
    | array => cases h
    | object => cases h
  · cases v <;> simp only [Option.some.injEq, reduceCtorEq] at h <;> (try rw [← h]) <;> exact hs
  · cases v <;> simp only [Option.some.injEq, reduceCtorEq] at h <;> (try rw [← h]) <;> exact hs
  · simp only [Option.some.injEq] at h; rw [← h]; exact hs

theorem decodeMembers_idsInt64 (fuel : Nat) :
    ∀ (s0 : Session) (bs : Bytes) (s : Session) (rest : Bytes),
      decodeMembers fuel s0 bs = some (s, rest) → idsInt64 s0 → idsInt64 s := by
  induction fuel with
  | zero => intro s0 bs s rest h; simp [decodeMembers] at h
  | succ fuel ih =>
    intro s0 bs s rest h hs0
    cases bs with
    | nil => simp [decodeMembers] at h
    | cons q r =>
      simp only [decodeMembers] at h
      by_cases hq : q = 34
      · rw [if_pos hq] at h
        obtain ⟨⟨key, r1⟩, -, h⟩ := Option.bind_eq_some.mp h
        simp only at h
        cases hsk : skipWS r1 with
        | nil => rw [hsk] at h; cases h
        | cons c r2 =>
          rw [hsk] at h
          simp only at h
          by_cases hc : c = 58
          · rw [if_pos hc] at h
            obtain ⟨⟨v, r3⟩, -, h⟩ := Option.bind_eq_some.mp h
            simp only at h
            obtain ⟨s1, hst, h⟩ := Option.bind_eq_some.mp h
            have hs1 := store_idsInt64 s0 s1 key v hst hs0
            cases hsk3 : skipWS r3 with
            | nil => rw [hsk3] at h; cases h
            | cons c1 r4 =>
              rw [hsk3] at h
              simp only at h
              by_cases h44 : c1 = 44
              · rw [if_pos h44] at h
                exact ih s1 _ s rest h hs1
              · rw [if_neg h44] at h
                by_cases h125 : c1 = 125
                · rw [if_pos h125] at h
                  simp only [Option.some.injEq, Prod.mk.injEq] at h
                  rw [← h.1]; exact hs1
                · rw [if_neg h125] at h; cases h
          · rw [if_neg hc] at h; cases h
      · rw [if_neg hq] at h; cases h

/-- The claims `Unmarshal` returns have ids within 64 bits. -/
theorem Unmarshal_idsInt64 (data : Bytes) (s : Session) (h : Unmarshal data = some s) :
    idsInt64 s := by
  have hz : idsInt64 Session.zero := by
    simp only [idsInt64, Session.zero]; omega
  unfold Unmarshal at h
  cases hsk : skipWS data with
  | nil => rw [hsk] at h; cases h
  | cons c r =>
    rw [hsk] at h
    simp only at h
    by_cases hc : c = 123
    · rw [if_pos hc] at h
      cases hsk2 : skipWS r with
      | nil => rw [hsk2] at h; cases h
      | cons c1 r1 =>
        rw [hsk2] at h
        simp only at h
        by_cases h125 : c1 = 125
        · rw [if_pos h125] at h
          split at h
          · simp only [Option.some.injEq] at h; rw [← h]; exact hz
          · cases h
        · rw [if_neg h125] at h
          obtain ⟨⟨s1, rest⟩, hdm, h⟩ := Option.bind_eq_some.mp h
          simp only at h
          split at h
          · simp only [Option.some.injEq] at h
            rw [← h]
            exact decodeMembers_idsInt64 _ _ _ _ _ hdm hz
          · cases h
    · rw [if_neg hc] at h
      obtain ⟨⟨v, rest⟩, -, h⟩ := Option.bind_eq_some.mp h
      simp only at h
      split at h
      · split at h
        · simp only [Option.some.injEq] at h; rw [← h]; exact hz
        · cases h
      · cases h

/-! ## Minting and the round trip -/

theorem hexDigit_safe (d : Nat) (h : d < 16) : htmlSafe (hexDigit d) = true := by
  unfold hexDigit htmlSafe
  split <;> simp <;> omega

theorem hexEncode_safe (bs : Bytes) : ∀ b ∈ hexEncode bs, htmlSafe b = true := by
  induction bs with
  | nil => simp [hexEncode]
  | cons x r ih =>
    intro b hb
    simp only [hexEncode, List.mem_cons] at hb
    rcases hb with rfl | rfl | hb
    · exact hexDigit_safe _ (Nat.mod_lt _ (by decide))
    · exact hexDigit_safe _ (Nat.mod_lt _ (by decide))
    · exact ih b hb

/-- The text `Format` writes for a four-digit year: fourteen decimal digits. -/
theorem Format_digits (t : Time) (hy0 : 0 ≤ t.Year) (hy1 : t.Year ≤ 9999) :
    t.Format.length = 14 ∧ ∀ b ∈ t.Format, 48 ≤ b ∧ b ≤ 57 := by
  unfold Time.Year at hy0 hy1
  obtain ⟨m1, m2, d1, d2, -⟩ := absDate_spec (t.abs / 86400)
  have hd31 := daysIn_le (absDate (t.abs / 86400)).month (absDate (t.abs / 86400)).year m1 m2
  generalize hdate : absDate (t.abs / 86400) = date at *
  obtain ⟨year, month, day⟩ := date
  simp only at hy0 hy1 m1 m2 d1 d2 hd31
  have hs0 : 0 ≤ t.abs % 86400 := by omega
  have hs1 : t.abs % 86400 < 86400 := by omega
  simp only [Time.Format, hdate]
  rw [appendInt_four _ (by omega) (by omega), appendInt_two _ (by omega) (by omega),
    appendInt_two _ (by omega) (by omega), appendInt_two _ (by omega) (by omega),
    appendInt_two _ (by omega) (by omega), appendInt_two _ (by omega) (by omega)]
  refine ⟨by simp, ?_⟩
  intro b hb
  simp only [List.cons_append, List.nil_append, List.mem_cons, List.mem_singleton,
    List.not_mem_nil, or_false] at hb
  rcases hb with h | h | h | h | h | h | h | h | h | h | h | h | h | h <;> omega

theorem digit_safe (b : Nat) (h : 48 ≤ b ∧ b ≤ 57) : htmlSafe b = true := by
  simp [htmlSafe]; omega

theorem Format_congr (t u : Time) (h : t.abs = u.abs) : t.Format = u.Format := by
  simp only [Time.Format, h]

theorem known_origin_safe (from' : Bytes)
    (h : from' = ConstFromA ∨ from' = ConstFromB ∨ from' = ConstFromC) :
    ∀ b ∈ from', htmlSafe b = true := by
  rcases h with rfl | rfl | rfl <;> decide

/-- What `newSession` returns for a known origin: the base64 text of the marshalled
claims. -/
theorem newSession_known (from' : Bytes) (srcID managerID userID : Int) (expire : Time)
    (secretKey : Bytes) (h : from' = ConstFromA ∨ from' = ConstFromB ∨ from' = ConstFromC) :
    newSession from' srcID managerID userID expire secretKey
      = Except.ok (EncodeToString (Marshal
          (mintedClaims from' srcID managerID userID expire secretKey))) := by
  simp only [newSession, newSignature_ok_of_known _ _ _ _ _ _ h, mintedClaims]

/-- A minted token decodes to the claims it was made from, when the ids are 64-bit
and the expiry has a four-digit year. -/
theorem minted_decodes (from' : Bytes) (srcID managerID userID : Int) (expire : Time)
    (secretKey : Bytes) (h : from' = ConstFromA ∨ from' = ConstFromB ∨ from' = ConstFromC)
    (hs0 : -9223372036854775808 ≤ srcID) (hs1 : srcID ≤ 9223372036854775807)
    (hm0 : -9223372036854775808 ≤ managerID) (hm1 : managerID ≤ 9223372036854775807)
    (hu0 : -9223372036854775808 ≤ userID) (hu1 : userID ≤ 9223372036854775807)
    (hy0 : 0 ≤ expire.Year) (hy1 : expire.Year ≤ 9999) :
    DecodeString (EncodeToString (Marshal
        (mintedClaims from' srcID managerID userID expire secretKey)))
      = some (Marshal (mintedClaims from' srcID managerID userID expire secretKey))
    ∧ Unmarshal (Marshal (mintedClaims from' srcID managerID userID expire secretKey))
      = some (mintedClaims from' srcID managerID userID expire secretKey) := by
  have hF : ∀ b ∈ from', b < 0x80 := fun b hb => (htmlSafe_plain b (known_origin_safe from' h b hb)).2.2.2
  have hE : ∀ b ∈ expire.Format, b < 0x80 := fun b hb => by
    have := (Format_digits expire hy0 hy1).2 b hb
    omega
  have hS : ∀ b ∈ hexEncode (sha1Sum
      (signingInput from' srcID managerID userID expire.Format secretKey)), b < 0x80 :=
    fun b hb => (htmlSafe_plain b (hexEncode_safe _ b hb)).2.2.2
  refine ⟨DecodeString_EncodeToString _ (Marshal_bytes_any _), ?_⟩
  rw [Unmarshal_Marshal_any _ hs0 hs1 hm0 hm1 hu0 hu1]
  simp only [mintedClaims, toValidUTF8_ascii _ hF _ (le_refl _),
    toValidUTF8_ascii _ hE _ (le_refl _), toValidUTF8_ascii _ hS _ (le_refl _)]

/-- The time `Parse` reads from the text of `expire`: its wall clock, taken as UTC. -/
theorem Parse_Format_abs (expire : Time) (hy0 : 0 ≤ expire.Year) (hy1 : expire.Year ≤ 9999) :
    ∃ expireTime, Parse expire.Format = some expireTime
      ∧ expireTime.unixNano = (expire.abs - 62135596800) * 1000000000
      ∧ expireTime.Format = expire.Format := by
  refine ⟨⟨(expire.abs - 62135596800) * 1000000000, UTC⟩, Parse_Format expire hy0 hy1, rfl, ?_⟩
  apply Format_congr
  simp only [Time.abs, Time.Unix, UTC]
  omega

/-- Verification of a freshly minted token, from the facts about its expiry. -/
theorem VerifySession_minted {σ : Type} (from' : Bytes) (srcID managerID userID : Int)
    (expire : Time) (secretKey : Bytes) (getSecretKey : Resolver σ) (now : Time) (st st1 : σ)
    (h : from' = ConstFromA ∨ from' = ConstFromB ∨ from' = ConstFromC)
    (hs0 : -9223372036854775808 ≤ srcID) (hs1 : srcID ≤ 9223372036854775807)
    (hm0 : -9223372036854775808 ≤ managerID) (hm1 : managerID ≤ 9223372036854775807)
    (hu0 : -9223372036854775808 ≤ userID) (hu1 : userID ≤ 9223372036854775807)
    (hy0 : 0 ≤ expire.Year) (hy1 : expire.Year ≤ 9999)
    (hg : getSecretKey srcID managerID st = (Except.ok secretKey, st1))
    (hnow : now.unixNano ≤ (expire.abs - 62135596800) * 1000000000) :
    VerifySession from'
        (EncodeToString (Marshal (mintedClaims from' srcID managerID userID expire secretKey)))
        getSecretKey now st
      = (Except.ok (mintedClaims from' srcID managerID userID expire secretKey), st1) := by
  obtain ⟨hd, hu⟩ := minted_decodes from' srcID managerID userID expire secretKey
    h hs0 hs1 hm0 hm1 hu0 hu1 hy0 hy1
  obtain ⟨expireTime, hp, hun, hfmt⟩ := Parse_Format_abs expire hy0 hy1
  have hb : expireTime.Before now = false := by
    simp only [Time.Before, decide_eq_false_iff_not, hun]
    omega
  refine VerifySession_accept from' _ getSecretKey now st hd hu rfl hp hb hg ?_
  simp only [mintedClaims, newSignature_ok_of_known _ _ _ _ _ _ h, hfmt]

/-! ## The claims about the round trip and the expiry -/

/-- C1 (as amended). Round trip: for an origin among `A`, `B`, `C`, 64-bit ids, a
resolver that always returns one fixed secret, a local zone whose offset is zero at
the expiry and an expiry whose year has four digits, `GenerateSession` returns a
token, and `VerifySession` run on it at any clock reading at least one second before
the expiry instant (so right after minting when the lifetime is one second or more)
accepts it and returns claims whose `from`, `src_id`, `manager_id` and `user_id` are
the minted values and whose `expire` is the minted expiry formatted to whole seconds. -/
theorem GenerateSession_VerifySession_roundtrip {σ : Type} (from' : Bytes)
    (srcID managerID userID : Int) (duration : Duration) (getSecretKey : Resolver σ)
    (secretKey : Bytes) (now now' : Time) (st st' : σ)
    (hfrom : from' = ConstFromA ∨ from' = ConstFromB ∨ from' = ConstFromC)
    (hs : -9223372036854775808 ≤ srcID ∧ srcID ≤ 9223372036854775807)
    (hm : -9223372036854775808 ≤ managerID ∧ managerID ≤ 9223372036854775807)
    (hu : -9223372036854775808 ≤ userID ∧ userID ≤ 9223372036854775807)
    (hg : ∀ a b s, (getSecretKey a b s).1 = Except.ok secretKey)
    (hzone : now.loc.offsetAt (now.Add duration).Unix = 0)
    (hyear : 0 ≤ (now.Add duration).Year ∧ (now.Add duration).Year ≤ 9999)
    (hnow : now'.unixNano + 1000000000 ≤ now.unixNano + duration) :
    ∃ token claims,
      (GenerateSession from' srcID managerID userID duration getSecretKey now st).1
          = Except.ok token
        ∧ (VerifySession from' token getSecretKey now' st').1 = Except.ok claims
        ∧ claims.From = from' ∧ claims.SrcID = srcID ∧ claims.ManagerID = managerID
        ∧ claims.UserID = userID ∧ claims.Expire = (now.Add duration).Format := by
  refine ⟨EncodeToString (Marshal
      (mintedClaims from' srcID managerID userID (now.Add duration) secretKey)),
    mintedClaims from' srcID managerID userID (now.Add duration) secretKey, ?_, ?_,
    rfl, rfl, rfl, rfl, rfl⟩
  · have h1 := hg srcID managerID st
    rcases hgs : getSecretKey srcID managerID st with ⟨r, st1⟩
    rw [hgs] at h1
    simp only at h1
    subst h1
    simp only [GenerateSession, hgs, newSession_known _ _ _ _ _ _ hfrom]
  · have h1 := hg srcID managerID st'
    rcases hgs : getSecretKey srcID managerID st' with ⟨r, st1⟩
    rw [hgs] at h1
    simp only at h1
    subst h1
    have hnow2 : now'.unixNano ≤ ((now.Add duration).abs - 62135596800) * 1000000000 := by
      have hz : (now.Add duration).loc.offsetAt (now.Add duration).Unix = 0 := hzone
      simp only [Time.abs, hz]
      simp only [Time.Unix, Time.Add]
      omega
    rw [VerifySession_minted from' srcID managerID userID (now.Add duration) secretKey
      getSecretKey now' st' st1 hfrom hs.1 hs.2 hm.1 hm.2 hu.1 hu.2 hyear.1 hyear.2 hgs hnow2]

theorem GenerateSession_VerifySession_roundtrip_witness :
    ∃ token claims,
      (GenerateSession ConstFromA 12 34 56 oneHour (fixedSecret exampleSecret) exampleNow 0).1
          = Except.ok token
        ∧ (VerifySession ConstFromA token (fixedSecret exampleSecret) exampleNow 1).1
          = Except.ok claims
        ∧ claims.From = ConstFromA ∧ claims.SrcID = 12 ∧ claims.ManagerID = 34
        ∧ claims.UserID = 56 ∧ claims.Expire = (exampleNow.Add oneHour).Format :=
  GenerateSession_VerifySession_roundtrip ConstFromA 12 34 56 oneHour
    (fixedSecret exampleSecret) exampleSecret exampleNow exampleNow 0 1 (Or.inl rfl)
    (by decide) (by decide) (by decide) (fun _ _ _ => rfl) rfl (by decide) (by decide)

/-- C1, counterexample: a positive lifetime of half a second, in UTC. The token minted
at 12:20:00.123456789 carries the expire text `20251104122000`, which is parsed as
12:20:00 sharp, before the clock reading of the verification made at the same instant. -/
theorem roundtrip_fails_for_half_a_second :
    0 < halfSecond
      ∧ (GenerateSession ConstFromA 12 34 56 halfSecond (fixedSecret exampleSecret)
          exampleNow 0).1 = Except.ok halfSecondToken
      ∧ (VerifySession ConstFromA halfSecondToken (fixedSecret exampleSecret) exampleNow 1).1
          = Except.error Error.timeout := by
  refine ⟨by decide, by decide!, by decide!⟩

/-- The outcomes of `VerifySession` once the expiry check has passed: none of them is
the expired error. -/
theorem VerifySession_not_timeout {σ : Type} (from' session : Bytes) (getSecretKey : Resolver σ)
    (now : Time) (st : σ) (jsonSource : Bytes) (s : Session) (expireTime : Time)
    (hd : DecodeString session = some jsonSource) (hu : Unmarshal jsonSource = some s)
    (hf : from' = s.From) (hp : Parse s.Expire = some expireTime)
    (hb : expireTime.Before now = false) :
    (VerifySession from' session getSecretKey now st).1 ≠ Except.error Error.timeout := by
  rcases hg : getSecretKey s.SrcID s.ManagerID st with ⟨r, st1⟩
  cases r with
  | error e =>
    rw [VerifySession_resolver_error from' session getSecretKey now st hd hu hf hp hb hg]
    simp
  | ok k =>
    cases hs : newSignature s.From s.SrcID s.ManagerID s.UserID expireTime k with
    | error e =>
      rw [VerifySession_signature_error from' session getSecretKey now st hd hu hf hp hb hg hs]
      simp
    | ok sig =>
      by_cases hne : sig = s.Signature
      · rw [VerifySession_accept from' session getSecretKey now st hd hu hf hp hb hg
          (by rw [hs, hne])]
        simp
      · rw [VerifySession_unauthorized from' session getSecretKey now st hd hu hf hp hb hg hs hne]
        simp

/-- C2 (as amended). For a token that decodes, parses, matches the expected origin and
has a well-formed expire field, `VerifySession` fails with the expired error exactly
when the parsed expiry is strictly before the current time; the resolver is then not
called. When the parsed expiry equals the current time the expiry check passes. -/
theorem VerifySession_expired_iff {σ : Type} (from' session : Bytes) (getSecretKey : Resolver σ)
    (now : Time) (st : σ) (jsonSource : Bytes) (s : Session) (expireTime : Time)
    (hd : DecodeString session = some jsonSource) (hu : Unmarshal jsonSource = some s)
    (hf : s.From = from') (hp : Parse s.Expire = some expireTime) :
    ((VerifySession from' session getSecretKey now st).1 = Except.error Error.timeout
        ↔ expireTime.unixNano < now.unixNano)
      ∧ (expireTime.unixNano < now.unixNano →
          VerifySession from' session getSecretKey now st = (Except.error Error.timeout, st))
      ∧ (expireTime.unixNano = now.unixNano →
          (VerifySession from' session getSecretKey now st).1 ≠ Except.error Error.timeout) := by
  have hlt : expireTime.unixNano < now.unixNano →
      VerifySession from' session getSecretKey now st = (Except.error Error.timeout, st) := by
    intro h
    exact VerifySession_timeout from' session getSecretKey now st hd hu hf.symm hp
      (by simp [Time.Before, h])
  have hge : ¬ expireTime.unixNano < now.unixNano →
      (VerifySession from' session getSecretKey now st).1 ≠ Except.error Error.timeout := by
    intro h
    exact VerifySession_not_timeout from' session getSecretKey now st jsonSource s expireTime
      hd hu hf.symm hp (by simp [Time.Before, h])
  refine ⟨⟨fun h => ?_, fun h => by rw [hlt h]⟩, hlt, fun h => hge (by omega)⟩
  by_contra hn
  exact hge hn h

theorem exampleClaims_expiry : Parse exampleClaims.Expire = some exampleExpiry := by
  rfl

theorem VerifySession_expired_iff_witness :
    ((VerifySession ConstFromA exampleToken (fixedSecret exampleSecret) exampleNow 0).1
          = Except.error Error.timeout
        ↔ exampleExpiry.unixNano < exampleNow.unixNano)
      ∧ (exampleExpiry.unixNano < exampleNow.unixNano →
          VerifySession ConstFromA exampleToken (fixedSecret exampleSecret) exampleNow 0
            = (Except.error Error.timeout, 0))
      ∧ (exampleExpiry.unixNano = exampleNow.unixNano →
          (VerifySession ConstFromA exampleToken (fixedSecret exampleSecret) exampleNow 0).1
            ≠ Except.error Error.timeout) :=
  VerifySession_expired_iff ConstFromA exampleToken (fixedSecret exampleSecret) exampleNow 0
    (Marshal exampleClaims) exampleClaims exampleExpiry exampleToken_decodes
    exampleClaims_unmarshal rfl exampleClaims_expiry

/-- C2, counterexample: the expire text of `exampleToken` is parsed as 13:20:00 sharp;
verified at that very instant, so with an expiry that is not strictly after the current
time, the token is accepted, not rejected as expired. -/
theorem expiry_equal_to_now_is_accepted :
    DecodeString exampleToken = some (Marshal exampleClaims)
      ∧ Unmarshal (Marshal exampleClaims) = some exampleClaims
      ∧ exampleClaims.From = ConstFromA
      ∧ (Parse exampleClaims.Expire).map Time.unixNano = some exampleExpiry.unixNano
      ∧ (VerifySession ConstFromA exampleToken (fixedSecret exampleSecret) exampleExpiry 0).1
          = Except.ok exampleClaims := by
  refine ⟨by decide!, by decide!, by decide, by decide!, by decide!⟩

/-! ## The claims about tampering and the order of the checks -/

/-- C4. Signature tampering is detected: if `VerifySession` accepts a token and
returns the claims `s`, then replacing the signature field of `s` with any different
string and re-encoding (JSON, then base64) gives a token that `VerifySession` rejects
with the unauthorized error, under the same expected origin, clock, resolver and
resolver state. -/
theorem VerifySession_signature_tampered {σ : Type} (from' session : Bytes)
    (getSecretKey : Resolver σ) (now : Time) (st st1 : σ) (s : Session) (signature' : Bytes)
    (hok : VerifySession from' session getSecretKey now st = (Except.ok s, st1))
    (hne : signature' ≠ s.Signature) :
    VerifySession from' (EncodeToString (Marshal { s with Signature := signature' }))
        getSecretKey now st
      = (Except.error Error.unauthorized, st1) := by
  obtain ⟨js, t, k, -, hu, hf, hp, hb, hg, hs⟩ := VerifySession_ok_inv _ _ _ _ _ hok
  have hknown : s.From = ConstFromA ∨ s.From = ConstFromB ∨ s.From = ConstFromC := by
    by_contra hn
    rw [newSignature_error_of_unknown _ _ _ _ _ _ hn] at hs
    cases hs
  have hids := Unmarshal_idsInt64 js s hu
  have hF : ∀ b ∈ s.From, b < 0x80 := fun b hb =>
    (htmlSafe_plain b (known_origin_safe s.From hknown b hb)).2.2.2
  have hE := Parse_ascii s.Expire t hp
  have hsigeq : s.Signature = hexEncode (sha1Sum
      (signingInput s.From s.SrcID s.ManagerID s.UserID t.Format k)) := by
    rw [newSignature_ok_of_known _ _ _ _ _ _ hknown] at hs
    exact (Except.ok.inj hs).symm
  have hS : ∀ b ∈ s.Signature, b < 0x80 := fun b hb => by
    rw [hsigeq] at hb
    exact (htmlSafe_plain b (hexEncode_safe _ b hb)).2.2.2
  have hne' : toValidUTF8 signature'.length signature' ≠ s.Signature := by
    intro heq
    have hascii := ascii_of_toValidUTF8 signature'.length signature' (le_refl _)
      (fun b hb => hS b (by rw [← heq]; exact hb))
    rw [toValidUTF8_ascii _ hascii _ (le_refl _)] at heq
    exact hne heq
  have hd' := DecodeString_EncodeToString _ (Marshal_bytes_any { s with Signature := signature' })
  have hu' := Unmarshal_Marshal_any { s with Signature := signature' } hids.1.1 hids.1.2
    hids.2.1.1 hids.2.1.2 hids.2.2.1 hids.2.2.2
  simp only [toValidUTF8_ascii _ hF _ (le_refl _), toValidUTF8_ascii _ hE _ (le_refl _)] at hu'
  exact VerifySession_unauthorized from' _ getSecretKey now st hd' hu' hf hp hb hg hs
    (fun h => hne' h.symm)

theorem VerifySession_signature_tampered_witness :
    VerifySession ConstFromA (EncodeToString (Marshal tamperedSignatureClaims))
        (fixedSecret exampleSecret) exampleNow 0
      = (Except.error Error.unauthorized, 1) :=
  VerifySession_signature_tampered ConstFromA exampleToken (fixedSecret exampleSecret)
    exampleNow 0 1 exampleClaims (utf8 "6ecfc16e1413d888408779935fabd81c382da0c2") (by decide!)
    (by decide)

/-- C10. `VerifySession` is a strict ordered pipeline: the outcome is that of the first
failing step in the order base64 decode, JSON parse, origin comparison, expiry parse,
expiry comparison, secret resolution, signature computation and comparison. The resolver
state is returned untouched by the first five failures, so the resolver is called only
when those five steps have passed. -/
theorem VerifySession_pipeline {σ : Type} (from' session : Bytes) (getSecretKey : Resolver σ)
    (now : Time) (st : σ) :
    (DecodeString session = none →
        VerifySession from' session getSecretKey now st = (Except.error Error.base64Decode, st))
    ∧ (∀ jsonSource, DecodeString session = some jsonSource →
        (Unmarshal jsonSource = none →
          VerifySession from' session getSecretKey now st
            = (Except.error Error.jsonUnmarshal, st))
        ∧ (∀ s, Unmarshal jsonSource = some s →
          (from' ≠ s.From →
            VerifySession from' session getSecretKey now st
              = (Except.error (Error.diffFrom from' s.From), st))
          ∧ (from' = s.From →
            (Parse s.Expire = none →
              VerifySession from' session getSecretKey now st
                = (Except.error (Error.parseExpire s.Expire), st))
            ∧ (∀ expireTime, Parse s.Expire = some expireTime →
              (expireTime.Before now = true →
                VerifySession from' session getSecretKey now st
                  = (Except.error Error.timeout, st))
              ∧ (expireTime.Before now = false →
                (∀ err st1, getSecretKey s.SrcID s.ManagerID st = (Except.error err, st1) →
                  VerifySession from' session getSecretKey now st
                    = (Except.error
                        (Error.verifyGetSecretKey s.SrcID s.ManagerID s.UserID err), st1))
                ∧ (∀ secretKey st1,
                    getSecretKey s.SrcID s.ManagerID st = (Except.ok secretKey, st1) →
                  (∀ err, newSignature s.From s.SrcID s.ManagerID s.UserID expireTime secretKey
                      = Except.error err →
                    VerifySession from' session getSecretKey now st
                      = (Except.error
                          (Error.verifyNewSignature s.SrcID s.ManagerID s.UserID err), st1))
                  ∧ (∀ signature,
                      newSignature s.From s.SrcID s.ManagerID s.UserID expireTime secretKey
                        = Except.ok signature →
                    (signature ≠ s.Signature →
                      VerifySession from' session getSecretKey now st
                        = (Except.error Error.unauthorized, st1))
                    ∧ (signature = s.Signature →
                      VerifySession from' session getSecretKey now st
                        = (Except.ok s, st1))))))))) := by
  refine ⟨VerifySession_decode_none from' session getSecretKey now st, fun js hd =>
    ⟨VerifySession_unmarshal_none from' session getSecretKey now st hd, fun s hu =>
    ⟨VerifySession_diffFrom from' session getSecretKey now st hd hu, fun hf =>
    ⟨VerifySession_parse_none from' session getSecretKey now st hd hu hf, fun t hp =>
    ⟨VerifySession_timeout from' session getSecretKey now st hd hu hf hp, fun hb =>
    ⟨fun err st1 hg =>
      VerifySession_resolver_error from' session getSecretKey now st hd hu hf hp hb hg,
    fun k st1 hg =>
    ⟨fun err hs =>
      VerifySession_signature_error from' session getSecretKey now st hd hu hf hp hb hg hs,
    fun sig hs =>
    ⟨VerifySession_unauthorized from' session getSecretKey now st hd hu hf hp hb hg hs,
    fun he =>
      VerifySession_accept from' session getSecretKey now st hd hu hf hp hb hg
        (by rw [hs, he])⟩⟩⟩⟩⟩⟩⟩⟩

/-- C10, on concrete inputs: a string that is not base64, and the base64 text of
`hello`, which is not JSON; in both cases the counting resolver has not been called. -/
theorem VerifySession_pipeline_examples :
    VerifySession ConstFromA (utf8 "not base64!") (fixedSecret exampleSecret) exampleNow 0
        = (Except.error Error.base64Decode, 0)
      ∧ VerifySession ConstFromA (utf8 "aGVsbG8=") (fixedSecret exampleSecret) exampleNow 0
        = (Except.error Error.jsonUnmarshal, 0) :=
  ⟨(VerifySession_pipeline ConstFromA (utf8 "not base64!") (fixedSecret exampleSecret)
      exampleNow 0).1 (by decide!),
    ((VerifySession_pipeline ConstFromA (utf8 "aGVsbG8=") (fixedSecret exampleSecret)
      exampleNow 0).2 (utf8 "hello") (by decide!)).1 (by decide!)⟩

/-! ## The claim about the signing input -/

theorem FormatUint_injective (a b : Nat) (h : FormatUint a = FormatUint b) : a = b := by
  have ha := atoiDigits_FormatUint a
  have hb := atoiDigits_FormatUint b
  rw [h, hb] at ha
  exact (Option.some.inj ha).symm

theorem Itoa_injective (a b : Int) (h : Itoa a = Itoa b) : a = b := by
  obtain ⟨da, dsa, ea, -, -⟩ := FormatUint_head a.natAbs
  obtain ⟨db, dsb, eb, -, -⟩ := FormatUint_head b.natAbs
  have hda := FormatUint_digits a.natAbs da (by simp [ea])
  have hdb := FormatUint_digits b.natAbs db (by simp [eb])
  unfold Itoa at h
  by_cases ha : a < 0 <;> by_cases hb : b < 0
  · simp only [ha, hb, if_true, List.cons.injEq, true_and] at h
    have := FormatUint_injective _ _ h
    omega
  · simp only [ha, hb, if_true, if_false, eb] at h
    have := (List.cons.inj h).1
    omega
  · simp only [ha, hb, if_true, if_false, ea] at h
    have := (List.cons.inj h).1
    omega
  · simp only [ha, hb, if_false] at h
    have := FormatUint_injective _ _ h
    omega

/-- C3 (as amended). For a fixed secret, origins among `A`, `B`, `C` and expiry texts of
one length (the layout gives fourteen characters), two claim tuples have the same
signing input exactly when they have the same origin, the same expiry text and the same
concatenation of the three decimal ids. So tuples that differ in the origin, in the
expiry text or in exactly one id never collide; the boundaries between the ids are not
recoverable, and tuples that differ in two ids can collide. -/
theorem signingInput_eq_iff (from1 from2 : Bytes) (src1 mgr1 usr1 src2 mgr2 usr2 : Int)
    (expire1 expire2 secretKey : Bytes)
    (h1 : from1 = ConstFromA ∨ from1 = ConstFromB ∨ from1 = ConstFromC)
    (h2 : from2 = ConstFromA ∨ from2 = ConstFromB ∨ from2 = ConstFromC)
    (hlen : expire1.length = expire2.length) :
    (signingInput from1 src1 mgr1 usr1 expire1 secretKey
        = signingInput from2 src2 mgr2 usr2 expire2 secretKey
      ↔ from1 = from2 ∧ expire1 = expire2
        ∧ Itoa src1 ++ Itoa mgr1 ++ Itoa usr1 = Itoa src2 ++ Itoa mgr2 ++ Itoa usr2)
    ∧ (mgr1 = mgr2 → usr1 = usr2 →
        signingInput from1 src1 mgr1 usr1 expire1 secretKey
          = signingInput from2 src2 mgr2 usr2 expire2 secretKey → src1 = src2)
    ∧ (src1 = src2 → usr1 = usr2 →
        signingInput from1 src1 mgr1 usr1 expire1 secretKey
          = signingInput from2 src2 mgr2 usr2 expire2 secretKey → mgr1 = mgr2)
    ∧ (src1 = src2 → mgr1 = mgr2 →
        signingInput from1 src1 mgr1 usr1 expire1 secretKey
          = signingInput from2 src2 mgr2 usr2 expire2 secretKey → usr1 = usr2) := by
  have hfl : from1.length = from2.length := by
    rcases h1 with rfl | rfl | rfl <;> rcases h2 with rfl | rfl | rfl <;> rfl
  have key : signingInput from1 src1 mgr1 usr1 expire1 secretKey
        = signingInput from2 src2 mgr2 usr2 expire2 secretKey
      ↔ from1 = from2 ∧ expire1 = expire2
        ∧ Itoa src1 ++ Itoa mgr1 ++ Itoa usr1 = Itoa src2 ++ Itoa mgr2 ++ Itoa usr2 := by
    constructor
    · intro h
      have e : from1 ++ ((Itoa src1 ++ Itoa mgr1 ++ Itoa usr1) ++ expire1 ++ secretKey)
          = from2 ++ ((Itoa src2 ++ Itoa mgr2 ++ Itoa usr2) ++ expire2 ++ secretKey) := by
        simpa only [signingInput, List.append_assoc] using h
      obtain ⟨e1, e2⟩ := List.append_inj e hfl
      have e3 := List.append_cancel_right e2
      obtain ⟨e4, e5⟩ := List.append_inj' e3 hlen
      exact ⟨e1, e5, e4⟩
    · rintro ⟨rfl, rfl, e⟩
      have : from1 ++ ((Itoa src1 ++ Itoa mgr1 ++ Itoa usr1) ++ expire1 ++ secretKey)
          = from1 ++ ((Itoa src2 ++ Itoa mgr2 ++ Itoa usr2) ++ expire1 ++ secretKey) := by
        rw [e]
      simpa only [signingInput, List.append_assoc] using this
  refine ⟨key, ?_, ?_, ?_⟩
  · rintro rfl rfl h
    have e := (key.mp h).2.2
    exact Itoa_injective _ _ (List.append_cancel_right (List.append_cancel_right e))
  · rintro rfl rfl h
    have e := (key.mp h).2.2
    have e' := List.append_cancel_right e
    exact Itoa_injective _ _ (List.append_cancel_left e')
  · rintro rfl rfl h
    have e := (key.mp h).2.2
    exact Itoa_injective _ _ (List.append_cancel_left e)

theorem signingInput_eq_iff_witness :
    (signingInput ConstFromA 1 23 4 (utf8 "20251104132000") exampleSecret
        = signingInput ConstFromB 1 23 4 (utf8 "20251104132000") exampleSecret
      ↔ ConstFromA = ConstFromB ∧ utf8 "20251104132000" = utf8 "20251104132000"
        ∧ Itoa 1 ++ Itoa 23 ++ Itoa 4 = Itoa 1 ++ Itoa 23 ++ Itoa 4)
    ∧ ((23 : Int) = 23 → (4 : Int) = 4 →
        signingInput ConstFromA 1 23 4 (utf8 "20251104132000") exampleSecret
          = signingInput ConstFromB 1 23 4 (utf8 "20251104132000") exampleSecret →
        (1 : Int) = 1)
    ∧ ((1 : Int) = 1 → (4 : Int) = 4 →
        signingInput ConstFromA 1 23 4 (utf8 "20251104132000") exampleSecret
          = signingInput ConstFromB 1 23 4 (utf8 "20251104132000") exampleSecret →
        (23 : Int) = 23)
    ∧ ((1 : Int) = 1 → (23 : Int) = 23 →
        signingInput ConstFromA 1 23 4 (utf8 "20251104132000") exampleSecret
          = signingInput ConstFromB 1 23 4 (utf8 "20251104132000") exampleSecret →
        (4 : Int) = 4) :=
  signingInput_eq_iff ConstFromA ConstFromB 1 23 4 1 23 4 (utf8 "20251104132000")
    (utf8 "20251104132000") exampleSecret (Or.inl rfl) (Or.inr (Or.inl rfl)) rfl

/-- C3, counterexample: source 1 with manager 23 and source 12 with manager 3 are
different claim tuples with the same signing input, hence the same signature. -/
theorem signingInput_collision :
    ((1 : Int), (23 : Int)) ≠ (12, 3)
      ∧ signingInput ConstFromA 1 23 4 (utf8 "20251104132000") exampleSecret
        = signingInput ConstFromA 12 3 4 (utf8 "20251104132000") exampleSecret
      ∧ newSignature ConstFromA 1 23 4 exampleExpiry exampleSecret
        = newSignature ConstFromA 12 3 4 exampleExpiry exampleSecret := by
  refine ⟨by decide, by decide, by decide!⟩

/-! ## The digest and its hexadecimal text -/


/-- The big-endian bytes of a word: as many as asked for, each a byte. -/
theorem beBytes_spec (k : Nat) : ∀ n : Nat, (beBytes n k).length = k ∧ ∀ b ∈ beBytes n k, b < 256 := by
  induction k with
  | zero => intro n; simp [beBytes]
  | succ k ih =>
    intro n
    obtain ⟨h1, h2⟩ := ih (n / 256)
    refine ⟨by simp [beBytes, h1], ?_⟩
    intro b hb
    simp only [beBytes, List.mem_append, List.mem_singleton] at hb
    rcases hb with hb | hb
    · exact h2 b hb
    · omega

/-- A SHA-1 digest has 20 bytes (160 bits). -/
theorem sha1Sum_spec (m : Bytes) : (sha1Sum m).length = 20 ∧ ∀ b ∈ sha1Sum m, b < 256 := by
  simp only [sha1Sum]
  refine ⟨by simp [(beBytes_spec 4 _).1], ?_⟩
  intro b hb
  simp only [List.mem_append] at hb
  rcases hb with (((hb | hb) | hb) | hb) | hb <;> exact (beBytes_spec 4 _).2 b hb

/-- A digit below sixteen is written `0` to `9` or `a` to `f`. -/
theorem hexDigit_lower (d : Nat) (h : d < 16) : (48 ≤ hexDigit d ∧ hexDigit d ≤ 57) ∨ (97 ≤ hexDigit d ∧ hexDigit d ≤ 102) := by
  unfold hexDigit
  by_cases h1 : d < 10
  · rw [if_pos h1]; omega
  · rw [if_neg h1]; omega

/-- The hex text of a byte string: two lowercase hex digits for each byte. -/
theorem hexEncode_spec (bs : Bytes) :
    (hexEncode bs).length = 2 * bs.length
      ∧ ∀ c ∈ hexEncode bs, (48 ≤ c ∧ c ≤ 57) ∨ (97 ≤ c ∧ c ≤ 102) := by
  induction bs with
  | nil => simp [hexEncode]
  | cons b r ih =>
    refine ⟨by simp only [hexEncode, List.length_cons, ih.1]; omega, ?_⟩
    intro c hc
    simp only [hexEncode, List.mem_cons] at hc
    rcases hc with rfl | rfl | hc
    · exact hexDigit_lower _ (Nat.mod_lt _ (by decide))
    · exact hexDigit_lower _ (Nat.mod_lt _ (by decide))
    · exact ih.2 c hc

/-- The value of two hex digits is the byte they encode. -/
theorem hexEncode_value (b : Nat) (h : b < 256) :
    hexEncode [b] = [hexDigit (b / 16), hexDigit (b % 16)] := by
  simp only [hexEncode]
  rw [Nat.mod_eq_of_lt (by omega : b / 16 < 16)]

/-! ## The claims about the signature: determinism and shape -/

/-- C16. The signature is a function of the origin, the ids, the expiry text and the
secret: two `newSignature` calls with the same origin, ids and secret, whose expiry
instants are written as the same text (they may differ below one second), return the
same result. -/
theorem newSignature_deterministic (from' : Bytes) (srcID managerID userID : Int)
    (expire1 expire2 : Time) (secretKey : Bytes) (h : expire1.Format = expire2.Format) :
    newSignature from' srcID managerID userID expire1 secretKey
      = newSignature from' srcID managerID userID expire2 secretKey := by
  simp only [newSignature, h]

/-- C16, on two instants of the same second: 13:20:00.123456789 and 13:20:00 sharp. -/
theorem newSignature_deterministic_witness :
    (exampleNow.Add oneHour).unixNano ≠ exampleExpiry.unixNano
      ∧ (exampleNow.Add oneHour).Format = exampleExpiry.Format
      ∧ newSignature ConstFromA 12 34 56 (exampleNow.Add oneHour) exampleSecret
        = newSignature ConstFromA 12 34 56 exampleExpiry exampleSecret :=
  ⟨by decide, by decide,
    newSignature_deterministic ConstFromA 12 34 56 (exampleNow.Add oneHour) exampleExpiry
      exampleSecret (by decide)⟩

/-- C17. For an origin among `A`, `B`, `C`, `newSignature` returns the lowercase
hexadecimal text of a digest of 20 bytes, that is 160 bits: 40 characters, each one of
`0` to `9` or `a` to `f`. -/
theorem newSignature_hex (from' : Bytes) (srcID managerID userID : Int) (expire : Time)
    (secretKey : Bytes) (h : from' = ConstFromA ∨ from' = ConstFromB ∨ from' = ConstFromC) :
    ∃ digest signature,
      newSignature from' srcID managerID userID expire secretKey = Except.ok signature
        ∧ digest = sha1Sum (signingInput from' srcID managerID userID expire.Format secretKey)
        ∧ digest.length = 20 ∧ (∀ b ∈ digest, b < 256)
        ∧ signature = hexEncode digest
        ∧ signature.length = 40
        ∧ ∀ c ∈ signature, (48 ≤ c ∧ c ≤ 57) ∨ (97 ≤ c ∧ c ≤ 102) := by
  refine ⟨_, _, newSignature_ok_of_known _ _ _ _ _ _ h, rfl, (sha1Sum_spec _).1,
    (sha1Sum_spec _).2, rfl, ?_, (hexEncode_spec _).2⟩
  rw [(hexEncode_spec _).1, (sha1Sum_spec _).1]

/-- C17, on the example: the signature of `exampleToken`. -/
theorem newSignature_hex_witness :
    newSignature ConstFromA 12 34 56 exampleExpiry exampleSecret
        = Except.ok (utf8 "5ecfc16e1413d888408779935fabd81c382da0c2")
      ∧ ∃ digest signature,
        newSignature ConstFromA 12 34 56 exampleExpiry exampleSecret = Except.ok signature
          ∧ digest = sha1Sum (signingInput ConstFromA 12 34 56 exampleExpiry.Format exampleSecret)
          ∧ digest.length = 20 ∧ (∀ b ∈ digest, b < 256)
          ∧ signature = hexEncode digest
          ∧ signature.length = 40
          ∧ ∀ c ∈ signature, (48 ≤ c ∧ c ≤ 57) ∨ (97 ≤ c ∧ c ≤ 102) :=
  ⟨by decide!, newSignature_hex ConstFromA 12 34 56 exampleExpiry exampleSecret (Or.inl rfl)⟩

/-! ## The wire format of a minted token -/

/-- What `appendInt` writes is ASCII: digits, after a `-` for a negative number. -/
theorem appendInt_ascii (x : Int) (width : Nat) : ∀ b ∈ appendInt x width, b < 0x80 := by
  have hp : ∀ b ∈ List.replicate (width - (FormatUint x.natAbs).length) 48 ++ FormatUint x.natAbs,
      b < 0x80 := by
    intro b hb
    simp only [List.mem_append, List.mem_replicate] at hb
    rcases hb with hb | hb
    · omega
    · have := FormatUint_digits _ b hb
      omega
  intro b hb
  unfold appendInt at hb
  by_cases h : x < 0
  · simp only [h, if_true, List.mem_cons] at hb
    rcases hb with rfl | hb
    · decide
    · exact hp b hb
  · simp only [h, if_false] at hb
    exact hp b hb

/-- The text `Format` writes is ASCII, whatever the year. -/
theorem Format_ascii (t : Time) : ∀ b ∈ t.Format, b < 0x80 := by
  intro b hb
  simp only [Time.Format, List.mem_append] at hb
  rcases hb with ((((hb | hb) | hb) | hb) | hb) | hb <;> exact appendInt_ascii _ _ b hb

/-- A minted token decodes to the claims it was made from, when the ids are 64-bit. -/
theorem minted_decodes_any (from' : Bytes) (srcID managerID userID : Int) (expire : Time)
    (secretKey : Bytes) (h : from' = ConstFromA ∨ from' = ConstFromB ∨ from' = ConstFromC)
    (hs0 : -9223372036854775808 ≤ srcID) (hs1 : srcID ≤ 9223372036854775807)
    (hm0 : -9223372036854775808 ≤ managerID) (hm1 : managerID ≤ 9223372036854775807)
    (hu0 : -9223372036854775808 ≤ userID) (hu1 : userID ≤ 9223372036854775807) :
    DecodeString (EncodeToString (Marshal
        (mintedClaims from' srcID managerID userID expire secretKey)))
      = some (Marshal (mintedClaims from' srcID managerID userID expire secretKey))
    ∧ Unmarshal (Marshal (mintedClaims from' srcID managerID userID expire secretKey))
      = some (mintedClaims from' srcID managerID userID expire secretKey) := by
  have hF : ∀ b ∈ from', b < 0x80 := fun b hb => (htmlSafe_plain b (known_origin_safe from' h b hb)).2.2.2
  have hS : ∀ b ∈ hexEncode (sha1Sum
      (signingInput from' srcID managerID userID expire.Format secretKey)), b < 0x80 :=
    fun b hb => (htmlSafe_plain b (hexEncode_safe _ b hb)).2.2.2
  refine ⟨DecodeString_EncodeToString _ (Marshal_bytes_any _), ?_⟩
  rw [Unmarshal_Marshal_any _ hs0 hs1 hm0 hm1 hu0 hu1]
  simp only [mintedClaims, toValidUTF8_ascii _ hF _ (le_refl _),
    toValidUTF8_ascii _ (Format_ascii expire) _ (le_refl _), toValidUTF8_ascii _ hS _ (le_refl _)]

/-- C15. The wire format of a minted token: whenever `GenerateSession` succeeds (the ids
being Go `int`s, so 64-bit), its result is the URL-safe padded base64 text of the JSON
text of the claims; decoding it and parsing the JSON gives exactly the claims with
`from` the origin, `src_id`, `manager_id` and `user_id` the ids, `expire` the instant
`now + lifetime` in the layout `20060102150405`, and `signature` what `newSignature`
returns for those values and the secret the resolver gave. -/
theorem GenerateSession_wire_format {σ : Type} (from' : Bytes) (srcID managerID userID : Int)
    (duration : Duration) (getSecretKey : Resolver σ) (now : Time) (st : σ) (token : Bytes)
    (hs : -9223372036854775808 ≤ srcID ∧ srcID ≤ 9223372036854775807)
    (hm : -9223372036854775808 ≤ managerID ∧ managerID ≤ 9223372036854775807)
    (hu : -9223372036854775808 ≤ userID ∧ userID ≤ 9223372036854775807)
    (h : (GenerateSession from' srcID managerID userID duration getSecretKey now st).1
      = Except.ok token) :
    ∃ secretKey jsonSource claims,
      (getSecretKey srcID managerID st).1 = Except.ok secretKey
        ∧ token = EncodeToString jsonSource ∧ jsonSource = Marshal claims
        ∧ DecodeString token = some jsonSource ∧ Unmarshal jsonSource = some claims
        ∧ claims.From = from' ∧ claims.SrcID = srcID ∧ claims.ManagerID = managerID
        ∧ claims.UserID = userID ∧ claims.Expire = (now.Add duration).Format
        ∧ newSignature from' srcID managerID userID (now.Add duration) secretKey
          = Except.ok claims.Signature := by
  unfold GenerateSession at h
  rcases hg : getSecretKey srcID managerID st with ⟨r, st1⟩
  rw [hg] at h
  cases r with
  | error err => simp at h
  | ok secretKey =>
    simp only at h
    by_cases hk : from' = ConstFromA ∨ from' = ConstFromB ∨ from' = ConstFromC
    · rw [newSession_known _ _ _ _ _ _ hk] at h
      have ht : token = EncodeToString (Marshal
          (mintedClaims from' srcID managerID userID (now.Add duration) secretKey)) := by
        injection h with h
        exact h.symm
      obtain ⟨hd, hun⟩ := minted_decodes_any from' srcID managerID userID (now.Add duration)
        secretKey hk hs.1 hs.2 hm.1 hm.2 hu.1 hu.2
      refine ⟨secretKey, _, mintedClaims from' srcID managerID userID (now.Add duration)
        secretKey, rfl, ht, rfl, by rw [ht]; exact hd, hun, rfl, rfl, rfl, rfl, rfl, ?_⟩
      rw [newSignature_ok_of_known _ _ _ _ _ _ hk]
      rfl
    · simp only [newSession, newSignature_error_of_unknown _ _ _ _ _ _ hk] at h
      cases h

/-- C15, on the example: `exampleToken` and its claims. -/
theorem GenerateSession_wire_format_witness :
    (GenerateSession ConstFromA 12 34 56 oneHour (fixedSecret exampleSecret) exampleNow 0).1
        = Except.ok exampleToken
      ∧ ∃ secretKey jsonSource claims,
        (fixedSecret exampleSecret 12 34 0).1 = Except.ok secretKey
          ∧ exampleToken = EncodeToString jsonSource ∧ jsonSource = Marshal claims
          ∧ DecodeString exampleToken = some jsonSource ∧ Unmarshal jsonSource = some claims
          ∧ claims.From = ConstFromA ∧ claims.SrcID = 12 ∧ claims.ManagerID = 34
          ∧ claims.UserID = 56 ∧ claims.Expire = (exampleNow.Add oneHour).Format
          ∧ newSignature ConstFromA 12 34 56 (exampleNow.Add oneHour) secretKey
            = Except.ok claims.Signature :=
  ⟨by decide!, GenerateSession_wire_format ConstFromA 12 34 56 oneHour
    (fixedSecret exampleSecret) exampleNow 0 exampleToken (by decide) (by decide) (by decide)
    (by decide!)⟩

/-! ## The calendar the other way: `Format` after `Parse` -/


/-- The days before a year, in closed form. -/
theorem daysSinceEpoch_closed (y : Int) :
    daysSinceEpoch y = 365 * (y - 1) + (y - 1) / 4 - (y - 1) / 100 + (y - 1) / 400 := by
  simp only [daysSinceEpoch]
  omega

theorem isLeap_iff (y : Int) : isLeap y = true ↔ (y % 4 = 0 ∧ (y % 100 ≠ 0 ∨ y % 400 = 0)) := by
  simp [isLeap]

/-- A year has 365 days, or 366 when it is a leap year. -/
theorem daysSinceEpoch_succ (y : Int) :
    daysSinceEpoch (y + 1) = daysSinceEpoch y + (if isLeap y = true then 366 else 365) := by
  rw [daysSinceEpoch_closed, daysSinceEpoch_closed]
  by_cases h : isLeap y = true
  · rw [if_pos h]
    rw [isLeap_iff] at h
    omega
  · rw [if_neg h]
    rw [isLeap_iff] at h
    omega

/-- Later years start later, by 365 days a year at least. -/
theorem daysSinceEpoch_mono (y : Int) (n : Nat) :
    daysSinceEpoch y + 365 * n ≤ daysSinceEpoch (y + n) := by
  induction n with
  | zero => simp
  | succ n ih =>
    have e : y + ((n + 1 : Nat) : Int) = (y + n) + 1 := by push_cast; ring
    rw [e, daysSinceEpoch_succ]
    push_cast
    split <;> omega

/-- A day number determines its year and its day of the year. -/
theorem year_unique (y y' a a' : Int) (h : daysSinceEpoch y + a = daysSinceEpoch y' + a')
    (ha : 0 ≤ a) (ha' : 0 ≤ a')
    (hb : a < 365 ∨ (a = 365 ∧ isLeap y = true))
    (hb' : a' < 365 ∨ (a' = 365 ∧ isLeap y' = true)) : y = y' ∧ a = a' := by
  have key : ∀ (u v b b' : Int), daysSinceEpoch u + b = daysSinceEpoch v + b' → 0 ≤ b' →
      (b < 365 ∨ (b = 365 ∧ isLeap u = true)) → ¬ u < v := by
    intro u v b b' hh hb0 hbb hlt
    obtain ⟨n, hn⟩ := Int.eq_ofNat_of_zero_le (by omega : 0 ≤ v - (u + 1))
    have hv : v = (u + 1) + n := by omega
    have h1 := daysSinceEpoch_mono (u + 1) n
    rw [← hv, daysSinceEpoch_succ] at h1
    by_cases hl : isLeap u = true
    · rw [if_pos hl] at h1; omega
    · rw [if_neg hl] at h1
      rcases hbb with hbb | hbb
      · omega
      · exact hl hbb.2
  have e : y = y' := by
    rcases lt_trichotomy y y' with hlt | heq | hgt
    · exact absurd hlt (key y y' a a' h ha' hb)
    · exact heq
    · exact absurd hgt (key y' y a' a h.symm ha hb')
  subst e
  exact ⟨rfl, by omega⟩

/-- The day of the year of a valid month and day lies within the year. -/
theorem yday_range (leap : Bool) (m d : Int) (hm1 : 1 ≤ m) (hm2 : m ≤ 12) (hd1 : 1 ≤ d)
    (hd2 : d ≤ (if m = 2 ∧ leap = true then 29 else daysBefore m - daysBefore (m - 1))) :
    0 ≤ daysBefore (m - 1) + (if leap = true ∧ m ≥ 3 then 1 else 0) + (d - 1)
      ∧ (daysBefore (m - 1) + (if leap = true ∧ m ≥ 3 then 1 else 0) + (d - 1) < 365
        ∨ (daysBefore (m - 1) + (if leap = true ∧ m ≥ 3 then 1 else 0) + (d - 1) = 365
          ∧ leap = true)) := by
  obtain ⟨v0, v1, v2, v3, v4, v5, v6, v7, v8, v9, v10, v11, v12⟩ := daysBefore_values
  cases leap <;> interval_cases m <;>
    simp only [v0, v1, v2, v3, v4, v5, v6, v7, v8, v9, v10, v11, v12, Int.reduceSub,
      Bool.false_eq_true, and_false, false_and, and_true, true_and, if_false, if_true,
      ge_iff_le, Int.reduceLE, Int.reduceEq, or_false] at hd2 ⊢ <;> omega

/-- The day of the year determines the month and the day of the month. -/
theorem monthDay_unique (leap : Bool) (m d m' d' : Int)
    (hm1 : 1 ≤ m) (hm2 : m ≤ 12) (hd1 : 1 ≤ d)
    (hd2 : d ≤ (if m = 2 ∧ leap = true then 29 else daysBefore m - daysBefore (m - 1)))
    (hm1' : 1 ≤ m') (hm2' : m' ≤ 12) (hd1' : 1 ≤ d')
    (hd2' : d' ≤ (if m' = 2 ∧ leap = true then 29 else daysBefore m' - daysBefore (m' - 1)))
    (h : daysBefore (m - 1) + (if leap = true ∧ m ≥ 3 then 1 else 0) + (d - 1)
      = daysBefore (m' - 1) + (if leap = true ∧ m' ≥ 3 then 1 else 0) + (d' - 1)) :
    m = m' ∧ d = d' := by
  obtain ⟨v0, v1, v2, v3, v4, v5, v6, v7, v8, v9, v10, v11, v12⟩ := daysBefore_values
  cases leap <;> interval_cases m <;> interval_cases m' <;>
    simp only [v0, v1, v2, v3, v4, v5, v6, v7, v8, v9, v10, v11, v12, Int.reduceSub,
      Bool.false_eq_true, and_false, false_and, and_true, true_and, if_false, if_true,
      ge_iff_le, Int.reduceLE, Int.reduceEq] at hd2 hd2' h ⊢ <;> omega

/-- The civil date of the day number of a valid date is that date: `absDate` inverts
the day count of `Date`. -/
theorem absDate_days (y m d : Int) (hm1 : 1 ≤ m) (hm2 : m ≤ 12) (hd1 : 1 ≤ d)
    (hd2 : d ≤ daysIn m y) :
    absDate (daysSinceEpoch y + daysBefore (m - 1)
        + (if isLeap y = true ∧ m ≥ 3 then 1 else 0) + (d - 1)) = ⟨y, m, d⟩ := by
  obtain ⟨a1, a2, a3, a4, a5⟩ := absDate_spec (daysSinceEpoch y + daysBefore (m - 1)
        + (if isLeap y = true ∧ m ≥ 3 then 1 else 0) + (d - 1))
  generalize absDate (daysSinceEpoch y + daysBefore (m - 1)
        + (if isLeap y = true ∧ m ≥ 3 then 1 else 0) + (d - 1)) = date at *
  obtain ⟨y', m', d'⟩ := date
  simp only at a1 a2 a3 a4 a5
  unfold daysIn at hd2 a4
  obtain ⟨r1, r2⟩ := yday_range (isLeap y) m d hm1 hm2 hd1 hd2
  obtain ⟨r1', r2'⟩ := yday_range (isLeap y') m' d' a1 a2 a3 a4
  obtain ⟨ey, ed⟩ := year_unique y' y
    (daysBefore (m' - 1) + (if isLeap y' = true ∧ m' ≥ 3 then 1 else 0) + (d' - 1))
    (daysBefore (m - 1) + (if isLeap y = true ∧ m ≥ 3 then 1 else 0) + (d - 1))
    (by omega) r1' r1 r2' r2
  subst ey
  obtain ⟨em, edd⟩ := monthDay_unique (isLeap y') m' d' m d a1 a2 a3 a4 hm1 hm2 hd1 hd2 ed
  rw [em, edd]

/-- What `Format` writes for the time `Date` builds from fields in range. -/
theorem Format_Date (Y M D H I S : Nat) (nsec : Int) (hY : Y ≤ 9999) (hM1 : 1 ≤ M)
    (hM2 : M ≤ 12) (hD1 : 1 ≤ D) (hD2 : (D : Int) ≤ daysIn M Y) (hH : H < 24) (hI : I < 60)
    (hS : S < 60) (hn0 : 0 ≤ nsec) (hn1 : nsec < 1000000000) :
    (Date Y M D H I S nsec).Format
      = [48 + Y / 1000, 48 + Y / 100 % 10, 48 + Y / 10 % 10, 48 + Y % 10,
          48 + M / 10, 48 + M % 10, 48 + D / 10, 48 + D % 10,
          48 + H / 10, 48 + H % 10, 48 + I / 10, 48 + I % 10, 48 + S / 10, 48 + S % 10] := by
  have hd31 := daysIn_le (M : Int) (Y : Int) (by omega) (by omega)
  have hdate := absDate_days (Y : Int) (M : Int) (D : Int) (by omega) (by omega) (by omega) hD2
  generalize hdays : daysSinceEpoch (Y : Int) + daysBefore ((M : Int) - 1)
    + (if isLeap (Y : Int) = true ∧ (M : Int) ≥ 3 then 1 else 0) + ((D : Int) - 1) = days at hdate
  have habs : (Date Y M D H I S nsec).abs = days * 86400 + H * 3600 + I * 60 + S := by
    simp only [Date, Time.abs, Time.Unix, UTC, hdays]
    omega
  have hq : (days * 86400 + (H : Int) * 3600 + I * 60 + S) / 86400 = days := by omega
  have hr : (days * 86400 + (H : Int) * 3600 + I * 60 + S) % 86400 = H * 3600 + I * 60 + S := by
    omega
  have c1 : ((H : Int) * 3600 + I * 60 + S) / 3600 = H := by omega
  have c2 : ((H : Int) * 3600 + I * 60 + S) % 3600 / 60 = I := by omega
  have c3 : ((H : Int) * 3600 + I * 60 + S) % 60 = S := by omega
  simp only [Time.Format, habs, hq, hr, hdate, c1, c2, c3]
  rw [appendInt_four _ (by omega) (by omega), appendInt_two _ (by omega) (by omega),
    appendInt_two _ (by omega) (by omega), appendInt_two _ (by omega) (by omega),
    appendInt_two _ (by omega) (by omega), appendInt_two _ (by omega) (by omega)]
  simp only [Int.toNat_ofNat, List.cons_append, List.nil_append]

/-- What `getnum` has read when it succeeds: two digits, or one digit that no digit
follows when the field is not of fixed width. -/
theorem getnum_inv (s : Bytes) ( fixed : Bool) (n : Int) (v : Bytes)
    (h : getnum s fixed = some (n, v)) :
    (∃ a b : Nat, a ≤ 9 ∧ b ≤ 9 ∧ s = (48 + a) :: (48 + b) :: v ∧ n = ((a * 10 + b : Nat) : Int))
      ∨ (fixed = false ∧ isDigit v 0 = false) := by
  unfold getnum at h
  cases s with
  | nil => simp [isDigit] at h
  | cons c r =>
    by_cases hc : 48 ≤ c ∧ c ≤ 57
    · have h0 : isDigit (c :: r) 0 = true := by simp [isDigit, hc]
      simp only [h0, not_true_eq_false, if_false] at h
      by_cases h1 : isDigit (c :: r) 1 = true
      · simp only [h1, not_true_eq_false, if_false, Option.some.injEq, Prod.mk.injEq] at h
        cases r with
        | nil => simp [isDigit] at h1
        | cons d r' =>
          have hd : 48 ≤ d ∧ d ≤ 57 := by simpa [isDigit] using h1
          left
          refine ⟨c - 48, d - 48, by omega, by omega, ?_, ?_⟩
          · have e1 : 48 + (c - 48) = c := by omega
            have e2 : 48 + (d - 48) = d := by omega
            rw [e1, e2, ← h.2]
            rfl
          · rw [← h.1]
            simp only [List.getD_cons_zero, List.getD_cons_succ]
      · have h1' : isDigit (c :: r) 1 = false := by simpa using h1
        simp only [h1', Bool.false_eq_true, not_false_eq_true, if_true] at h
        right
        cases fixed with
        | true => simp at h
        | false =>
          simp only [Bool.false_eq_true, if_false, Option.some.injEq, Prod.mk.injEq,
            List.drop_succ_cons, List.drop_zero] at h
          refine ⟨rfl, ?_⟩
          rw [← h.2]
          cases r with
          | nil => simp [isDigit]
          | cons d r' =>
            simp only [isDigit, List.get?_cons_succ, List.get?_cons_zero] at h1' ⊢
            exact h1'
    · have h0 : isDigit (c :: r) 0 = false := by simp [isDigit, hc]
      simp [h0] at h

/-- A field of fixed width starts with a digit. -/
theorem getnum_fixed_digit (s : Bytes) (n : Int) (v : Bytes) (h : getnum s true = some (n, v)) :
    (∃ a b : Nat, a ≤ 9 ∧ b ≤ 9 ∧ s = (48 + a) :: (48 + b) :: v ∧ n = ((a * 10 + b : Nat) : Int))
      ∧ isDigit s 0 = true := by
  rcases getnum_inv s true n v h with ⟨a, b, ha, hb, hs, hn⟩ | ⟨hf, -⟩
  · exact ⟨⟨a, b, ha, hb, hs, hn⟩, by rw [hs]; exact isDigit_cons_zero a _ ha⟩
  · cases hf

/-- The value of a run of digits is below the power of ten of its length. -/
theorem atoiFold_bound (l : Bytes) : ∀ (v w : Nat),
    l.foldl (fun acc c => acc.bind fun v =>
      if 48 ≤ c ∧ c ≤ 57 then some (v * 10 + (c - 48)) else none) (some v) = some w →
    w < (v + 1) * 10 ^ l.length := by
  induction l with
  | nil =>
    intro v w h
    simp only [List.foldl_nil, Option.some.injEq] at h
    simp only [List.length_nil, pow_zero, mul_one]
    omega
  | cons c r ih =>
    intro v w h
    by_cases hc : 48 ≤ c ∧ c ≤ 57
    · simp only [List.foldl_cons, Option.some_bind, hc, and_self, if_true] at h
      have := ih _ w h
      have e : (v * 10 + (c - 48) + 1) * 10 ^ r.length ≤ (v + 1) * 10 ^ (r.length + 1) := by
        have e0 : v * 10 + (c - 48) + 1 ≤ (v + 1) * 10 := by omega
        calc (v * 10 + (c - 48) + 1) * 10 ^ r.length
            ≤ ((v + 1) * 10) * 10 ^ r.length := Nat.mul_le_mul_right _ e0
          _ = (v + 1) * 10 ^ (r.length + 1) := by rw [pow_succ]; ring
      simp only [List.length_cons]
      omega
    · simp only [List.foldl_cons, Option.some_bind, hc, if_false] at h
      rw [atoiFold_none] at h
      cases h

theorem atoiDigits_bound (s : Bytes) (v : Nat) (h : atoiDigits s = some v) :
    v < 10 ^ s.length := by
  unfold atoiDigits at h
  split at h
  · cases h
  · simpa using atoiFold_bound s 0 v h

/-- The fraction that `parseNanoseconds` reads is less than a second. -/
theorem parseNanoseconds_bound (value : Bytes) (nbytes : Nat) (ns : Int)
    (h : parseNanoseconds value nbytes = some ns) : 0 ≤ ns ∧ ns < 1000000000 := by
  unfold parseNanoseconds at h
  simp only at h
  obtain ⟨k, hk, rfl⟩ := Option.map_eq_some'.mp h
  have hb := atoiDigits_bound _ _ hk
  have hne : (List.drop 1 (List.take (if nbytes > 10 then 10 else nbytes) value)) ≠ [] := by
    intro e
    rw [e] at hk
    simp [atoiDigits] at hk
  have hlen : (List.drop 1 (List.take (if nbytes > 10 then 10 else nbytes) value)).length
      ≤ (if nbytes > 10 then 10 else nbytes) - 1 := by
    simp only [List.length_drop, List.length_take]
    omega
  have hpos : 0 < (List.drop 1 (List.take (if nbytes > 10 then 10 else nbytes) value)).length :=
    List.length_pos.mpr hne
  generalize (List.drop 1 (List.take (if nbytes > 10 then 10 else nbytes) value)).length = len at *
  have hnb : (if nbytes > 10 then 10 else nbytes) ≤ 10 := by split <;> omega
  generalize (if nbytes > 10 then 10 else nbytes) = nb at *
  refine ⟨by positivity, ?_⟩
  have h1 : k * 10 ^ (10 - nb) < 10 ^ len * 10 ^ (10 - nb) :=
    Nat.mul_lt_mul_of_pos_right hb (by positivity)
  have h2 : 10 ^ len * 10 ^ (10 - nb) ≤ 10 ^ 9 := by
    rw [← pow_add]
    exact Nat.pow_le_pow_right (by decide) (by omega)
  have h3 : k * 10 ^ (10 - nb) < 1000000000 := by
    have : (10 : Nat) ^ 9 = 1000000000 := by norm_num
    omega
  exact_mod_cast h3

/-- The four digits of the year field. -/
theorem atoiDigits_take_four (value : Bytes) (year : Nat) (hl : ¬ value.length < 4)
    (h : atoiDigits (value.take 4) = some year) :
    ∃ y1 y2 y3 y4 : Nat, y1 ≤ 9 ∧ y2 ≤ 9 ∧ y3 ≤ 9 ∧ y4 ≤ 9
      ∧ value = (48 + y1) :: (48 + y2) :: (48 + y3) :: (48 + y4) :: value.drop 4
      ∧ year = ((y1 * 10 + y2) * 10 + y3) * 10 + y4 := by
  match value, hl, h with
  | [], hl, _ => simp at hl
  | [_], hl, _ => simp at hl
  | [_, _], hl, _ => simp at hl
  | [_, _, _], hl, _ => simp at hl
  | a :: b :: c :: d :: r, _, h =>
    have hd := atoiDigits_some_digits _ _ h
    simp only [List.take_succ_cons, List.take_zero, List.mem_cons, List.mem_singleton,
      List.not_mem_nil, or_false, forall_eq_or_imp, forall_eq] at hd
    obtain ⟨ha, hb, hc, hdd⟩ := hd
    have ea : 48 + (a - 48) = a := by omega
    have eb : 48 + (b - 48) = b := by omega
    have ec : 48 + (c - 48) = c := by omega
    have ed : 48 + (d - 48) = d := by omega
    refine ⟨a - 48, b - 48, c - 48, d - 48, by omega, by omega, by omega, by omega, ?_, ?_⟩
    · simp only [ea, eb, ec, ed, List.drop_succ_cons, List.drop_zero]
    · have := atoiDigits_four (a - 48) (b - 48) (c - 48) (d - 48) (by omega) (by omega) (by omega)
        (by omega)
      rw [ea, eb, ec, ed] at this
      simp only [List.take_succ_cons, List.take_zero] at h
      rw [this] at h
      exact (Option.some.inj h).symm

/-- Everything `Parse` has checked when it succeeds: the text is fourteen digits that
spell a valid date and time of day, followed by nothing or by a fractional second, and
the result is the `Date` of those fields. -/
theorem Parse_inv (value : Bytes) (t : Time) (h : Parse value = some t) :
    ∃ (y1 y2 y3 y4 m1 m2 d1 d2 h1 h2 i1 i2 s1 s2 : Nat) (nsec : Int) (rest : Bytes),
      (y1 ≤ 9 ∧ y2 ≤ 9 ∧ y3 ≤ 9 ∧ y4 ≤ 9 ∧ m1 ≤ 9 ∧ m2 ≤ 9 ∧ d1 ≤ 9 ∧ d2 ≤ 9 ∧ h1 ≤ 9 ∧ h2 ≤ 9
        ∧ i1 ≤ 9 ∧ i2 ≤ 9 ∧ s1 ≤ 9 ∧ s2 ≤ 9)
      ∧ value = [48 + y1, 48 + y2, 48 + y3, 48 + y4, 48 + m1, 48 + m2, 48 + d1, 48 + d2,
          48 + h1, 48 + h2, 48 + i1, 48 + i2, 48 + s1, 48 + s2] ++ rest
      ∧ (1 ≤ m1 * 10 + m2 ∧ m1 * 10 + m2 ≤ 12)
      ∧ (1 ≤ d1 * 10 + d2 ∧ ((d1 * 10 + d2 : Nat) : Int)
          ≤ daysIn ((m1 * 10 + m2 : Nat) : Int) ((((y1 * 10 + y2) * 10 + y3) * 10 + y4 : Nat) : Int))
      ∧ h1 * 10 + h2 < 24 ∧ i1 * 10 + i2 < 60 ∧ s1 * 10 + s2 < 60
      ∧ (0 ≤ nsec ∧ nsec < 1000000000)
      ∧ (rest = [] → nsec = 0)
      ∧ (rest ≠ [] → rest.head? = some 46 ∨ rest.head? = some 44)
      ∧ t = Date ((((y1 * 10 + y2) * 10 + y3) * 10 + y4 : Nat) : Int) ((m1 * 10 + m2 : Nat) : Int)
          ((d1 * 10 + d2 : Nat) : Int) ((h1 * 10 + h2 : Nat) : Int) ((i1 * 10 + i2 : Nat) : Int)
          ((s1 * 10 + s2 : Nat) : Int) nsec := by
  unfold Parse at h
  by_cases c1 : value.length < 4 ∨ ¬ isDigit value 0 = true
  · rw [if_pos c1] at h; cases h
  rw [if_neg c1] at h
  obtain ⟨year, hyear, h⟩ := Option.bind_eq_some.mp h
  obtain ⟨⟨month, v1⟩, hmonth, h⟩ := Option.bind_eq_some.mp h
  simp only at h
  by_cases c2 : month ≤ 0 ∨ 12 < month
  · rw [if_pos c2] at h; cases h
  rw [if_neg c2] at h
  obtain ⟨⟨day, v2⟩, hday, h⟩ := Option.bind_eq_some.mp h
  simp only at h
  obtain ⟨⟨hour, v3⟩, hhour, h⟩ := Option.bind_eq_some.mp h
  simp only at h
  by_cases c3 : 24 ≤ hour
  · rw [if_pos c3] at h; cases h
  rw [if_neg c3] at h
  obtain ⟨⟨min, v4⟩, hmin, h⟩ := Option.bind_eq_some.mp h
  simp only at h
  by_cases c4 : 60 ≤ min
  · rw [if_pos c4] at h; cases h
  rw [if_neg c4] at h
  obtain ⟨⟨sec, v5⟩, hsec, h⟩ := Option.bind_eq_some.mp h
  simp only at h
  by_cases c5 : 60 ≤ sec
  · rw [if_pos c5] at h; cases h
  rw [if_neg c5] at h
  obtain ⟨⟨nsec, v6⟩, hfrac, h⟩ := Option.bind_eq_some.mp h
  simp only at h
  by_cases hv6 : v6.length > 0
  · rw [if_pos hv6] at h; cases h
  rw [if_neg hv6] at h
  by_cases c6 : day < 1 ∨ day > daysIn month year
  · rw [if_pos c6] at h; cases h
  rw [if_neg c6] at h
  have ht : t = Date year month day hour min sec nsec := (Option.some.inj h).symm
  have hv6' : v6 = [] := List.length_eq_zero.mp (by omega)
  obtain ⟨y1, y2, y3, y4, hy1, hy2, hy3, hy4, evalue, eyear⟩ :=
    atoiDigits_take_four value year (fun hh => c1 (Or.inl hh)) hyear
  obtain ⟨⟨m1, m2, hm1, hm2, e1, emonth⟩, -⟩ := getnum_fixed_digit _ _ _ hmonth
  obtain ⟨⟨d1, d2, hd1, hd2, e2, eday⟩, -⟩ := getnum_fixed_digit _ _ _ hday
  obtain ⟨⟨i1, i2, hi1, hi2, e4, emin⟩, hdig4⟩ := getnum_fixed_digit _ _ _ hmin
  obtain ⟨⟨s1, s2, hs1, hs2, e5, esec⟩, -⟩ := getnum_fixed_digit _ _ _ hsec
  obtain ⟨h1, h2, hh1, hh2, e3, ehour⟩ : ∃ a b : Nat, a ≤ 9 ∧ b ≤ 9
      ∧ v2 = (48 + a) :: (48 + b) :: v3 ∧ hour = ((a * 10 + b : Nat) : Int) := by
    rcases getnum_inv _ _ _ _ hhour with hh | ⟨-, hh⟩
    · exact hh
    · rw [hh] at hdig4; cases hdig4
  have hns : (0 ≤ nsec ∧ nsec < 1000000000) ∧ (v5 = [] → nsec = 0)
      ∧ (v5 ≠ [] → v5.head? = some 46 ∨ v5.head? = some 44) := by
    by_cases hcond : v5.length ≥ 2 ∧ (v5.get? 0 = some 46 ∨ v5.get? 0 = some 44)
        ∧ isDigit v5 1 = true
    · rw [if_pos hcond] at hfrac
      obtain ⟨ns, hpn, hpair⟩ := Option.map_eq_some'.mp hfrac
      simp only [Prod.mk.injEq] at hpair
      rw [← hpair.1]
      refine ⟨parseNanoseconds_bound _ _ _ hpn, ?_, ?_⟩
      · intro e; rw [e] at hcond; simp at hcond
      · intro _
        cases v5 with
        | nil => simp at hcond
        | cons x r => simpa using hcond.2.1
    · rw [if_neg hcond] at hfrac
      simp only [Option.some.injEq, Prod.mk.injEq] at hfrac
      refine ⟨by omega, fun _ => hfrac.1.symm, ?_⟩
      intro hne
      rw [hfrac.2, hv6'] at hne
      exact absurd rfl hne
  refine ⟨y1, y2, y3, y4, m1, m2, d1, d2, h1, h2, i1, i2, s1, s2, nsec, v5,
    ⟨hy1, hy2, hy3, hy4, hm1, hm2, hd1, hd2, hh1, hh2, hi1, hi2, hs1, hs2⟩, ?_, ?_, ?_, ?_, ?_,
    ?_, hns.1, hns.2.1, hns.2.2, ?_⟩
  · rw [evalue, e1, e2, e3, e4, e5]
    simp
  · omega
  · subst eyear emonth eday
    omega
  · omega
  · omega
  · omega
  · rw [ht, eyear, emonth, eday, ehour, emin, esec]

/-- Formatting what `Parse` has read gives back the first fourteen characters of the
text: the whole text when it has no fractional second, and only then. -/
theorem Format_Parse (value : Bytes) (t : Time) (h : Parse value = some t) :
    t.Format = value.take 14 ∧ t.Format.length = 14 ∧ (t.Format = value ↔ value.length = 14) := by
  obtain ⟨y1, y2, y3, y4, m1, m2, d1, d2, h1, h2, i1, i2, s1, s2, nsec, rest,
    ⟨hy1, hy2, hy3, hy4, hm1, hm2, hd1, hd2, hh1, hh2, hi1, hi2, hs1, hs2⟩, hv, hm, hd, hh, hi,
    hs, hn, -, -, ht⟩ := Parse_inv value t h
  have hf := Format_Date (((y1 * 10 + y2) * 10 + y3) * 10 + y4) (m1 * 10 + m2) (d1 * 10 + d2)
    (h1 * 10 + h2) (i1 * 10 + i2) (s1 * 10 + s2) nsec (by omega) hm.1 hm.2 hd.1 hd.2 hh hi hs
    hn.1 hn.2
  have a1 : (((y1 * 10 + y2) * 10 + y3) * 10 + y4) / 1000 = y1 := by omega
  have a2 : (((y1 * 10 + y2) * 10 + y3) * 10 + y4) / 100 % 10 = y2 := by omega
  have a3 : (((y1 * 10 + y2) * 10 + y3) * 10 + y4) / 10 % 10 = y3 := by omega
  have a4 : (((y1 * 10 + y2) * 10 + y3) * 10 + y4) % 10 = y4 := by omega
  have b1 : (m1 * 10 + m2) / 10 = m1 := by omega
  have b2 : (m1 * 10 + m2) % 10 = m2 := by omega
  have b3 : (d1 * 10 + d2) / 10 = d1 := by omega
  have b4 : (d1 * 10 + d2) % 10 = d2 := by omega
  have b5 : (h1 * 10 + h2) / 10 = h1 := by omega
  have b6 : (h1 * 10 + h2) % 10 = h2 := by omega
  have b7 : (i1 * 10 + i2) / 10 = i1 := by omega
  have b8 : (i1 * 10 + i2) % 10 = i2 := by omega
  have b9 : (s1 * 10 + s2) / 10 = s1 := by omega
  have b10 : (s1 * 10 + s2) % 10 = s2 := by omega
  rw [a1, a2, a3, a4, b1, b2, b3, b4, b5, b6, b7, b8, b9, b10, ← ht] at hf
  refine ⟨?_, by rw [hf]; rfl, ?_⟩
  · rw [hf, hv]; rfl
  · rw [hf, hv]
    constructor
    · intro e
      rw [← e]; rfl
    · intro e
      have : rest = [] := List.length_eq_zero.mp (by simpa using e)
      rw [this]; rfl

/-! ## The claims about the zone of the expiry text -/

/-- What `Parse` makes of the text `Format` wrote for `t`: the instant `t` cut to whole
seconds and shifted by the offset that the zone of `t` has at `t`. It is `t` cut to
whole seconds exactly when that offset is zero. -/
theorem Parse_Format_offset (t : Time) (hy0 : 0 ≤ t.Year) (hy1 : t.Year ≤ 9999) :
    ∃ expireTime, Parse t.Format = some expireTime
      ∧ expireTime.unixNano = (t.Unix + t.loc.offsetAt t.Unix) * 1000000000
      ∧ (expireTime.unixNano = t.Unix * 1000000000 ↔ t.loc.offsetAt t.Unix = 0) := by
  obtain ⟨expireTime, hp, hun, -⟩ := Parse_Format_abs t hy0 hy1
  have e : expireTime.unixNano = (t.Unix + t.loc.offsetAt t.Unix) * 1000000000 := by
    rw [hun]
    simp only [Time.abs]
    omega
  refine ⟨expireTime, hp, e, ?_⟩
  rw [e]
  omega

/-- C12, the failing input evaluated: a process whose local zone is eight hours east of
UTC. For the expiry 2025-11-04T13:20:00.123456789Z, `newSession` writes the local wall
clock `20251104212000`, and `Parse` reads that text as 21:20:00 UTC, eight hours later
than the expiry cut to whole seconds, 13:20:00 UTC. -/
theorem expiry_text_read_in_another_zone :
    (nowPlus8.Add oneHour).unixNano = 1762262400123456789
      ∧ (nowPlus8.Add oneHour).Format = utf8 "20251104212000"
      ∧ (mintedClaims ConstFromA 12 34 56 (nowPlus8.Add oneHour) exampleSecret).Expire
        = utf8 "20251104212000"
      ∧ (Parse (nowPlus8.Add oneHour).Format).map Time.unixNano = some 1762291200000000000
      ∧ (nowPlus8.Add oneHour).Unix * 1000000000 = 1762262400000000000
      ∧ (1762291200000000000 : Int) - 1762262400000000000 = 8 * 3600 * 1000000000 := by
  refine ⟨by decide, by decide, by decide, by decide, by decide, by decide⟩

/-- The expiry boundary when the local zone is UTC at the expiry: a token minted with
the lifetime `-1 second` is rejected as expired at any time from the minting on, and a
token minted with the lifetime `+1 hour` is accepted at any time from the minting to one
second before the expiry. -/
theorem expiry_boundary_without_offset {σ : Type} (from' : Bytes) (srcID managerID userID : Int)
    (getSecretKey : Resolver σ) (secretKey : Bytes) (now now' : Time) (st st' : σ)
    (hfrom : from' = ConstFromA ∨ from' = ConstFromB ∨ from' = ConstFromC)
    (hs : -9223372036854775808 ≤ srcID ∧ srcID ≤ 9223372036854775807)
    (hm : -9223372036854775808 ≤ managerID ∧ managerID ≤ 9223372036854775807)
    (hu : -9223372036854775808 ≤ userID ∧ userID ≤ 9223372036854775807)
    (hg : ∀ a b s, (getSecretKey a b s).1 = Except.ok secretKey)
    (hnow : now.unixNano ≤ now'.unixNano) :
    (now.loc.offsetAt (now.Add minusOneSecond).Unix = 0 →
      0 ≤ (now.Add minusOneSecond).Year ∧ (now.Add minusOneSecond).Year ≤ 9999 →
      ∃ token, (GenerateSession from' srcID managerID userID minusOneSecond getSecretKey now st).1
          = Except.ok token
        ∧ VerifySession from' token getSecretKey now' st' = (Except.error Error.timeout, st'))
    ∧ (now.loc.offsetAt (now.Add oneHour).Unix = 0 →
      0 ≤ (now.Add oneHour).Year ∧ (now.Add oneHour).Year ≤ 9999 →
      now'.unixNano + 1000000000 ≤ now.unixNano + oneHour →
      ∃ token claims, (GenerateSession from' srcID managerID userID oneHour getSecretKey now st).1
          = Except.ok token
        ∧ (VerifySession from' token getSecretKey now' st').1 = Except.ok claims) := by
  have hgen : ∀ duration : Duration,
      (GenerateSession from' srcID managerID userID duration getSecretKey now st).1
        = Except.ok (EncodeToString (Marshal
            (mintedClaims from' srcID managerID userID (now.Add duration) secretKey))) := by
    intro duration
    have h1 := hg srcID managerID st
    rcases hgs : getSecretKey srcID managerID st with ⟨r, st1⟩
    rw [hgs] at h1
    simp only at h1
    subst h1
    simp only [GenerateSession, hgs, newSession_known _ _ _ _ _ _ hfrom]
  constructor
  · intro hzone hyear
    refine ⟨_, hgen minusOneSecond, ?_⟩
    obtain ⟨hd, hun⟩ := minted_decodes_any from' srcID managerID userID
      (now.Add minusOneSecond) secretKey hfrom hs.1 hs.2 hm.1 hm.2 hu.1 hu.2
    obtain ⟨expireTime, hp, he, -⟩ := Parse_Format_offset (now.Add minusOneSecond) hyear.1 hyear.2
    have hz : (now.Add minusOneSecond).loc.offsetAt (now.Add minusOneSecond).Unix = 0 := hzone
    refine VerifySession_timeout from' _ getSecretKey now' st' hd hun rfl hp ?_
    simp only [Time.Before, decide_eq_true_eq, he, hz]
    simp only [Time.Unix, Time.Add, minusOneSecond]
    omega
  · intro hzone hyear hlate
    have h1 := hg srcID managerID st'
    rcases hgs : getSecretKey srcID managerID st' with ⟨r, st1⟩
    rw [hgs] at h1
    simp only at h1
    subst h1
    refine ⟨_, mintedClaims from' srcID managerID userID (now.Add oneHour) secretKey,
      hgen oneHour, ?_⟩
    have hnow2 : now'.unixNano ≤ ((now.Add oneHour).abs - 62135596800) * 1000000000 := by
      have hz : (now.Add oneHour).loc.offsetAt (now.Add oneHour).Unix = 0 := hzone
      simp only [Time.abs, hz]
      simp only [Time.Unix, Time.Add]
      omega
    rw [VerifySession_minted from' srcID managerID userID (now.Add oneHour) secretKey
      getSecretKey now' st' st1 hfrom hs.1 hs.2 hm.1 hm.2 hu.1 hu.2 hyear.1 hyear.2 hgs hnow2]

/-- C13, the failing inputs evaluated. In a process whose local zone is eight hours east
of UTC, the token minted with the lifetime `-1 second` carries the expire text
`20251104201959`, which is read as a time almost eight hours ahead, and the token is
accepted at once. In a process whose local zone is five hours west of UTC, the token
minted with the lifetime `+1 hour` carries `20251104082000`, which is read as a time four
hours back, and the token is rejected as expired at once. -/
theorem expiry_boundary_in_other_zones :
    (GenerateSession ConstFromA 12 34 56 minusOneSecond (fixedSecret exampleSecret) nowPlus8 0).1
        = Except.ok (EncodeToString (Marshal
            (mintedClaims ConstFromA 12 34 56 (nowPlus8.Add minusOneSecond) exampleSecret)))
      ∧ (mintedClaims ConstFromA 12 34 56 (nowPlus8.Add minusOneSecond) exampleSecret).Expire
        = utf8 "20251104201959"
      ∧ VerifySession ConstFromA (EncodeToString (Marshal
            (mintedClaims ConstFromA 12 34 56 (nowPlus8.Add minusOneSecond) exampleSecret)))
          (fixedSecret exampleSecret) nowPlus8 1
        = (Except.ok (mintedClaims ConstFromA 12 34 56 (nowPlus8.Add minusOneSecond)
            exampleSecret), 2)
      ∧ (GenerateSession ConstFromA 12 34 56 oneHour (fixedSecret exampleSecret) nowMinus5 0).1
        = Except.ok (EncodeToString (Marshal
            (mintedClaims ConstFromA 12 34 56 (nowMinus5.Add oneHour) exampleSecret)))
      ∧ (mintedClaims ConstFromA 12 34 56 (nowMinus5.Add oneHour) exampleSecret).Expire
        = utf8 "20251104082000"
      ∧ VerifySession ConstFromA (EncodeToString (Marshal
            (mintedClaims ConstFromA 12 34 56 (nowMinus5.Add oneHour) exampleSecret)))
          (fixedSecret exampleSecret) nowMinus5 1
        = (Except.error Error.timeout, 1) := by
  refine ⟨by decide!, by decide!, by decide!, by decide!, by decide!, by decide!⟩

/-! ## The claim about the text that is signed at verification -/

/-- C14 (as amended). For a token that passes the decode, parse, origin, expiry and
secret steps, the signature that `VerifySession` recomputes is the digest of `from`,
the three ids, the first fourteen characters of the token's expire string and the
secret: the parsed expiry formatted again. That text is the token's expire string
exactly when the string has fourteen characters, that is no fractional second. The
token is accepted exactly when its signature is that digest. -/
theorem VerifySession_signed_text {σ : Type} (from' session : Bytes) (getSecretKey : Resolver σ)
    (now : Time) (st st1 : σ) (jsonSource : Bytes) (s : Session) (expireTime : Time)
    (secretKey : Bytes)
    (hd : DecodeString session = some jsonSource) (hu : Unmarshal jsonSource = some s)
    (hf : from' = s.From) (hp : Parse s.Expire = some expireTime)
    (hb : expireTime.Before now = false)
    (hg : getSecretKey s.SrcID s.ManagerID st = (Except.ok secretKey, st1)) :
    expireTime.Format = s.Expire.take 14
      ∧ (expireTime.Format = s.Expire ↔ s.Expire.length = 14)
      ∧ (∀ signature,
          newSignature s.From s.SrcID s.ManagerID s.UserID expireTime secretKey
            = Except.ok signature →
          signature = hexEncode (sha1Sum (signingInput s.From s.SrcID s.ManagerID s.UserID
            (s.Expire.take 14) secretKey)))
      ∧ ((from' = ConstFromA ∨ from' = ConstFromB ∨ from' = ConstFromC) →
          newSignature s.From s.SrcID s.ManagerID s.UserID expireTime secretKey
              = Except.ok (hexEncode (sha1Sum (signingInput s.From s.SrcID s.ManagerID s.UserID
                  (s.Expire.take 14) secretKey)))
            ∧ (VerifySession from' session getSecretKey now st = (Except.ok s, st1)
                ↔ s.Signature = hexEncode (sha1Sum (signingInput s.From s.SrcID s.ManagerID
                    s.UserID (s.Expire.take 14) secretKey)))) := by
  obtain ⟨e1, -, e3⟩ := Format_Parse s.Expire expireTime hp
  refine ⟨e1, e3, ?_, ?_⟩
  · intro signature hs
    unfold newSignature at hs
    split at hs
    · rw [e1] at hs
      injection hs with hs
      exact hs.symm
    · cases hs
  · intro hk
    have hk' : s.From = ConstFromA ∨ s.From = ConstFromB ∨ s.From = ConstFromC := hf ▸ hk
    have hs := newSignature_ok_of_known s.From s.SrcID s.ManagerID s.UserID expireTime
      secretKey hk'
    rw [e1] at hs
    refine ⟨hs, ?_⟩
    constructor
    · intro hok
      by_contra hne
      have := VerifySession_unauthorized from' session getSecretKey now st hd hu hf hp hb hg hs
        (fun e => hne e.symm)
      rw [this] at hok
      cases hok
    · intro heq
      exact VerifySession_accept from' session getSecretKey now st hd hu hf hp hb hg
        (by rw [hs, heq])

/-- C14, on `exampleToken`, whose expire text has fourteen characters. -/
theorem VerifySession_signed_text_witness :
    exampleExpiry.Format = exampleClaims.Expire.take 14
      ∧ (exampleExpiry.Format = exampleClaims.Expire ↔ exampleClaims.Expire.length = 14)
      ∧ (∀ signature,
          newSignature exampleClaims.From exampleClaims.SrcID exampleClaims.ManagerID
              exampleClaims.UserID exampleExpiry exampleSecret = Except.ok signature →
          signature = hexEncode (sha1Sum (signingInput exampleClaims.From exampleClaims.SrcID
            exampleClaims.ManagerID exampleClaims.UserID (exampleClaims.Expire.take 14)
            exampleSecret)))
      ∧ ((ConstFromA = ConstFromA ∨ ConstFromA = ConstFromB ∨ ConstFromA = ConstFromC) →
          newSignature exampleClaims.From exampleClaims.SrcID exampleClaims.ManagerID
              exampleClaims.UserID exampleExpiry exampleSecret
              = Except.ok (hexEncode (sha1Sum (signingInput exampleClaims.From
                  exampleClaims.SrcID exampleClaims.ManagerID exampleClaims.UserID
                  (exampleClaims.Expire.take 14) exampleSecret)))
            ∧ (VerifySession ConstFromA exampleToken (fixedSecret exampleSecret) exampleNow 0
                  = (Except.ok exampleClaims, 1)
                ↔ exampleClaims.Signature = hexEncode (sha1Sum (signingInput exampleClaims.From
                    exampleClaims.SrcID exampleClaims.ManagerID exampleClaims.UserID
                    (exampleClaims.Expire.take 14) exampleSecret)))) :=
  VerifySession_signed_text ConstFromA exampleToken (fixedSecret exampleSecret) exampleNow 0 1
    (Marshal exampleClaims) exampleClaims exampleExpiry exampleSecret (by decide!) (by decide!)
    rfl rfl (by decide) rfl

/-- C14, counterexample: the claims of `exampleToken` with `.5` appended to the expire
text. The token passes every step and is accepted; the parsed expiry is written again
as `20251104132000`, not as the token's `20251104132000.5`, and the signature that was
recomputed and found equal to the token's is not the digest over the token's expire
string. -/
theorem fractional_second_is_not_signed :
    VerifySession ConstFromA (EncodeToString (Marshal fractionClaims))
        (fixedSecret exampleSecret) exampleNow 0 = (Except.ok fractionClaims, 1)
      ∧ fractionClaims.Expire = utf8 "20251104132000.5"
      ∧ (Parse fractionClaims.Expire).map Time.Format = some (utf8 "20251104132000")
      ∧ (Parse fractionClaims.Expire).map
          (fun expireTime => newSignature ConstFromA 12 34 56 expireTime exampleSecret)
        = some (Except.ok fractionClaims.Signature)
      ∧ fractionClaims.Signature
        ≠ hexEncode (sha1Sum (signingInput ConstFromA 12 34 56 fractionClaims.Expire
            exampleSecret)) := by
  refine ⟨by decide!, by decide, by decide!, by decide!, by decide!⟩

/-! ## Verification with another secret than the one of the minting -/

/-- What `appendInt` writes: digits, after a `-` for a negative number. -/
theorem appendInt_chars (x : Int) (width : Nat) :
    ∀ b ∈ appendInt x width, (48 ≤ b ∧ b ≤ 57) ∨ b = 45 := by
  have hp : ∀ b ∈ List.replicate (width - (FormatUint x.natAbs).length) 48 ++ FormatUint x.natAbs,
      (48 ≤ b ∧ b ≤ 57) ∨ b = 45 := by
    intro b hb
    simp only [List.mem_append, List.mem_replicate] at hb
    rcases hb with hb | hb
    · omega
    · exact Or.inl (FormatUint_digits _ b hb)
  intro b hb
  unfold appendInt at hb
  by_cases h : x < 0
  · simp only [h, if_true, List.mem_cons] at hb
    rcases hb with rfl | hb
    · exact Or.inr rfl
    · exact hp b hb
  · simp only [h, if_false] at hb
    exact hp b hb

/-- The text `Format` writes holds digits and, for a year before year 0, a `-`. -/
theorem Format_chars (t : Time) : ∀ b ∈ t.Format, (48 ≤ b ∧ b ≤ 57) ∨ b = 45 := by
  intro b hb
  simp only [Time.Format, List.mem_append] at hb
  rcases hb with ((((hb | hb) | hb) | hb) | hb) | hb <;> exact appendInt_chars _ _ b hb

/-- When `Parse` accepts a text that `Format` wrote, formatting the result gives that
text again. -/
theorem Format_Parse_Format (t expireTime : Time) (hp : Parse t.Format = some expireTime) :
    expireTime.Format = t.Format := by
  obtain ⟨-, -, e3⟩ := Format_Parse t.Format expireTime hp
  rw [e3]
  obtain ⟨y1, y2, y3, y4, m1, m2, d1, d2, h1, h2, i1, i2, s1, s2, nsec, rest, -, hv, -, -, -, -,
    -, -, -, hrest, -⟩ := Parse_inv t.Format expireTime hp
  have hnil : rest = [] := by
    by_contra hne
    cases rest with
    | nil => exact hne rfl
    | cons c r =>
      have hc : c = 46 ∨ c = 44 := by simpa using hrest hne
      have hmem : c ∈ t.Format := by rw [hv]; simp
      have := Format_chars t c hmem
      omega
  rw [hv, hnil]
  rfl

/-- Verification of a minted token that has not expired, by a resolver that may return
another secret than the one the token was minted with: it is accepted when the digest
under the resolver's secret is the signature of the token, and unauthorized otherwise. -/
theorem VerifySession_minted_live {σ : Type} (from' : Bytes) (srcID managerID userID : Int)
    (expire : Time) (secret1 secret2 : Bytes) (getSecretKey : Resolver σ) (now : Time)
    (st st1 : σ) (expireTime : Time)
    (h : from' = ConstFromA ∨ from' = ConstFromB ∨ from' = ConstFromC)
    (hs0 : -9223372036854775808 ≤ srcID) (hs1 : srcID ≤ 9223372036854775807)
    (hm0 : -9223372036854775808 ≤ managerID) (hm1 : managerID ≤ 9223372036854775807)
    (hu0 : -9223372036854775808 ≤ userID) (hu1 : userID ≤ 9223372036854775807)
    (hp : Parse expire.Format = some expireTime) (hb : expireTime.Before now = false)
    (hg : getSecretKey srcID managerID st = (Except.ok secret2, st1)) :
    VerifySession from'
        (EncodeToString (Marshal (mintedClaims from' srcID managerID userID expire secret1)))
        getSecretKey now st
      = (if hexEncode (sha1Sum (signingInput from' srcID managerID userID expire.Format secret2))
            = hexEncode (sha1Sum (signingInput from' srcID managerID userID expire.Format secret1))
          then Except.ok (mintedClaims from' srcID managerID userID expire secret1)
          else Except.error Error.unauthorized, st1) := by
  obtain ⟨hd, hu⟩ := minted_decodes_any from' srcID managerID userID expire secret1
    h hs0 hs1 hm0 hm1 hu0 hu1
  have hfmt := Format_Parse_Format expire expireTime hp
  have hsig : newSignature from' srcID managerID userID expireTime secret2
      = Except.ok (hexEncode (sha1Sum
          (signingInput from' srcID managerID userID expire.Format secret2))) := by
    rw [newSignature_ok_of_known _ _ _ _ _ _ h, hfmt]
  by_cases e : hexEncode (sha1Sum (signingInput from' srcID managerID userID expire.Format secret2))
      = hexEncode (sha1Sum (signingInput from' srcID managerID userID expire.Format secret1))
  · rw [if_pos e]
    refine VerifySession_accept from' _ getSecretKey now st hd hu rfl hp hb hg ?_
    show newSignature from' srcID managerID userID expireTime secret2 = _
    rw [hsig, e]
    rfl
  · rw [if_neg e]
    exact VerifySession_unauthorized from' _ getSecretKey now st hd hu rfl hp hb hg hsig e

/-- Two hex digits determine the digit values. -/
theorem hexDigit_injective (a b : Nat) (ha : a < 16) (hb : b < 16) (h : hexDigit a = hexDigit b) :
    a = b := by
  unfold hexDigit at h
  split at h <;> split at h <;> omega

/-- The hex text determines the bytes. -/
theorem hexEncode_injective (bs : Bytes) : ∀ cs : Bytes, (∀ b ∈ bs, b < 256) →
    (∀ c ∈ cs, c < 256) → hexEncode bs = hexEncode cs → bs = cs := by
  induction bs with
  | nil =>
    intro cs _ _ h
    cases cs with
    | nil => rfl
    | cons c r => simp [hexEncode] at h
  | cons b r ih =>
    intro cs hbs hcs h
    cases cs with
    | nil => simp [hexEncode] at h
    | cons c r' =>
      simp only [hexEncode, List.cons.injEq] at h
      obtain ⟨h1, h2, h3⟩ := h
      have hb := hbs b (List.mem_cons_self _ _)
      have hc := hcs c (List.mem_cons_self _ _)
      have e1 := hexDigit_injective _ _ (Nat.mod_lt _ (by decide)) (Nat.mod_lt _ (by decide)) h1
      have e2 := hexDigit_injective _ _ (Nat.mod_lt _ (by decide)) (Nat.mod_lt _ (by decide)) h2
      have e : b = c := by omega
      rw [e, ih r' (fun x hx => hbs x (List.mem_cons_of_mem _ hx))
        (fun x hx => hcs x (List.mem_cons_of_mem _ hx)) h3]

/-- Secret dependency, as far as the code decides it. For an origin among `A`, `B`, `C`,
64-bit ids and two different secrets, the two signing inputs differ and the two
signatures are the hex texts of their SHA-1 digests, so the signatures differ exactly
when the digests differ. A token minted with the first secret and not yet expired when
it is verified, by a resolver that returns the second secret, fails with the
unauthorized error when the signatures differ; it is accepted when they are equal. -/
theorem VerifySession_other_secret {σ τ : Type} (from' : Bytes) (srcID managerID userID : Int)
    (duration : Duration) (mint : Resolver σ) (verify : Resolver τ) (secret1 secret2 : Bytes)
    (now now' : Time) (st : σ) (st' : τ) (expireTime : Time)
    (hfrom : from' = ConstFromA ∨ from' = ConstFromB ∨ from' = ConstFromC)
    (hs : -9223372036854775808 ≤ srcID ∧ srcID ≤ 9223372036854775807)
    (hm : -9223372036854775808 ≤ managerID ∧ managerID ≤ 9223372036854775807)
    (hu : -9223372036854775808 ≤ userID ∧ userID ≤ 9223372036854775807)
    (hne : secret1 ≠ secret2)
    (hmint : (mint srcID managerID st).1 = Except.ok secret1)
    (hverify : (verify srcID managerID st').1 = Except.ok secret2)
    (hp : Parse (now.Add duration).Format = some expireTime)
    (hb : expireTime.Before now' = false) :
    ∃ signature1 signature2 token,
      newSignature from' srcID managerID userID (now.Add duration) secret1 = Except.ok signature1
        ∧ newSignature from' srcID managerID userID (now.Add duration) secret2
          = Except.ok signature2
        ∧ signingInput from' srcID managerID userID (now.Add duration).Format secret1
          ≠ signingInput from' srcID managerID userID (now.Add duration).Format secret2
        ∧ (signature1 = signature2
            ↔ sha1Sum (signingInput from' srcID managerID userID (now.Add duration).Format secret1)
              = sha1Sum (signingInput from' srcID managerID userID (now.Add duration).Format
                  secret2))
        ∧ (GenerateSession from' srcID managerID userID duration mint now st).1 = Except.ok token
        ∧ (signature1 ≠ signature2 →
            (VerifySession from' token verify now' st').1 = Except.error Error.unauthorized)
        ∧ (signature1 = signature2 →
            ∃ claims, (VerifySession from' token verify now' st').1 = Except.ok claims) := by
  rcases hgm : mint srcID managerID st with ⟨r, st1⟩
  rw [hgm] at hmint
  simp only at hmint
  subst hmint
  rcases hgv : verify srcID managerID st' with ⟨r', st1'⟩
  rw [hgv] at hverify
  simp only at hverify
  subst hverify
  have hv := VerifySession_minted_live from' srcID managerID userID (now.Add duration) secret1
    secret2 verify now' st' st1' expireTime hfrom hs.1 hs.2 hm.1 hm.2 hu.1 hu.2 hp hb hgv
  refine ⟨_, _, EncodeToString (Marshal
      (mintedClaims from' srcID managerID userID (now.Add duration) secret1)),
    newSignature_ok_of_known _ _ _ _ _ _ hfrom,
    newSignature_ok_of_known _ _ _ _ _ _ hfrom, ?_, ?_, ?_, ?_, ?_⟩
  · intro e
    exact hne (List.append_cancel_left e)
  · constructor
    · exact hexEncode_injective _ _ (sha1Sum_spec _).2 (sha1Sum_spec _).2
    · intro e; rw [e]
  · simp only [GenerateSession, hgm, newSession_known _ _ _ _ _ _ hfrom]
  · intro hdiff
    rw [hv, if_neg (fun e => hdiff e.symm)]
  · intro hsame
    rw [hv, if_pos hsame.symm]
    exact ⟨_, rfl⟩

/-- On `exampleToken`, minted with `exampleSecret` and verified with the secret `wrong`:
the signatures differ and the token is rejected as unauthorized. -/
theorem VerifySession_other_secret_witness :
    (VerifySession ConstFromA exampleToken (fixedSecret (utf8 "wrong")) exampleNow 0).1
        = Except.error Error.unauthorized
      ∧ ∃ signature1 signature2 token,
        newSignature ConstFromA 12 34 56 (exampleNow.Add oneHour) exampleSecret
            = Except.ok signature1
          ∧ newSignature ConstFromA 12 34 56 (exampleNow.Add oneHour) (utf8 "wrong")
            = Except.ok signature2
          ∧ signingInput ConstFromA 12 34 56 (exampleNow.Add oneHour).Format exampleSecret
            ≠ signingInput ConstFromA 12 34 56 (exampleNow.Add oneHour).Format (utf8 "wrong")
          ∧ (signature1 = signature2
              ↔ sha1Sum (signingInput ConstFromA 12 34 56 (exampleNow.Add oneHour).Format
                  exampleSecret)
                = sha1Sum (signingInput ConstFromA 12 34 56 (exampleNow.Add oneHour).Format
                    (utf8 "wrong")))
          ∧ (GenerateSession ConstFromA 12 34 56 oneHour (fixedSecret exampleSecret)
              exampleNow 0).1 = Except.ok token
          ∧ (signature1 ≠ signature2 →
              (VerifySession ConstFromA token (fixedSecret (utf8 "wrong")) exampleNow 0).1
                = Except.error Error.unauthorized)
          ∧ (signature1 = signature2 →
              ∃ claims, (VerifySession ConstFromA token (fixedSecret (utf8 "wrong"))
                exampleNow 0).1 = Except.ok claims) :=
  ⟨by decide!, VerifySession_other_secret ConstFromA 12 34 56 oneHour (fixedSecret exampleSecret)
    (fixedSecret (utf8 "wrong")) exampleSecret (utf8 "wrong") exampleNow exampleNow 0 0
    exampleExpiry (Or.inl rfl) (by decide) (by decide) (by decide) (by decide) rfl rfl rfl
    (by decide)⟩

/-! ## The claims about the error table and the error handler -/

/-- Storing under a key that the map does not hold adds one entry. -/
theorem CodeMap.set_fresh (m : CodeMap) (k : Int) (v : Bytes) (h : k ∉ m.keys) :
    m.set k v = (k, v) :: m := by
  unfold CodeMap.set
  congr 1
  rw [List.filter_eq_self]
  intro e he
  have : e.1 ≠ k := by
    intro hk
    exact h (by rw [← hk]; exact List.mem_map_of_mem Prod.fst he)
  simpa using this

/-- The loop of `init` on a list without duplicate codes, none of them a key yet: every
entry of the list is added in turn. -/
theorem init_loop (config : List errConfig) : ∀ m : CodeMap,
    (config.map errConfig.code).Nodup → (∀ e ∈ config, e.code ∉ m.keys) →
    config.foldl (fun codeMapping errConfig => codeMapping.set errConfig.code errConfig.msg) m
      = (config.map fun e => (e.code, e.msg)).reverse ++ m := by
  induction config with
  | nil => intro m _ _; rfl
  | cons e r ih =>
    intro m hnd hfresh
    simp only [List.map_cons, List.nodup_cons] at hnd
    simp only [List.foldl_cons]
    rw [CodeMap.set_fresh m e.code e.msg (hfresh e (List.mem_cons_self _ _))]
    rw [ih _ hnd.2]
    · simp
    · intro e' he'
      simp only [CodeMap.keys, List.map_cons, List.mem_cons, not_or]
      refine ⟨?_, hfresh e' (List.mem_cons_of_mem _ he')⟩
      intro heq
      exact hnd.1 (by rw [← heq]; exact List.mem_map_of_mem errConfig.code he')

/-- Looking up a key in entries without duplicate keys finds the value listed with it. -/
theorem lookup_of_mem (l : List (Int × Bytes)) (h : (l.map Prod.fst).Nodup) (k : Int)
    (v : Bytes) (hm : (k, v) ∈ l) : l.lookup k = some v := by
  induction l with
  | nil => simp at hm
  | cons p r ih =>
    obtain ⟨k', v'⟩ := p
    simp only [List.map_cons, List.nodup_cons] at h
    simp only [List.mem_cons, Prod.mk.injEq] at hm
    rcases hm with ⟨rfl, rfl⟩ | hm
    · simp [List.lookup]
    · have hne : k ≠ k' := by
        intro e
        exact h.1 (by rw [← e]; exact List.mem_map_of_mem Prod.fst hm)
      have hb : (k == k') = false := by simpa using hne
      simp only [List.lookup, hb]
      exact ih h.2 hm

/-- The map that `init` builds from a list without duplicate codes has one key for each
entry and maps each code to the message listed with it. -/
theorem init_of_nodup (config : List errConfig) (h : (config.map errConfig.code).Nodup) :
    (init config).len = config.length
      ∧ (init config).keys.Nodup
      ∧ (∀ k, k ∈ (init config).keys ↔ k ∈ config.map errConfig.code)
      ∧ ∀ e ∈ config, (init config).get e.code = some e.msg := by
  have e : init config = (config.map fun e => (e.code, e.msg)).reverse := by
    unfold init
    rw [init_loop config [] h (by intro e _; simp [CodeMap.keys])]
    simp
  have hk : (init config).keys = (config.map errConfig.code).reverse := by
    rw [e]
    simp [CodeMap.keys, List.map_reverse, Function.comp_def]
  refine ⟨by rw [e]; simp [CodeMap.len], by rw [hk]; exact List.nodup_reverse.mpr h,
    by intro k; rw [hk]; simp, ?_⟩
  intro x hx
  unfold CodeMap.get
  apply lookup_of_mem
  · have := hk
    unfold CodeMap.keys at this
    rw [this]
    exact List.nodup_reverse.mpr h
  · rw [e]
    simp only [List.mem_reverse, List.mem_map]
    exact ⟨x, hx, rfl⟩

/-- C20. The error-code table has no duplicate codes: the eight entries of
`errCodeConfig` have the pairwise distinct codes 4001 to 4007 and 5001, and the map that
`init` builds from the list has exactly eight keys, these codes, and maps each listed
code to the message listed beside it. -/
theorem errCodeConfig_distinct :
    errCodeConfig.length = 8
      ∧ errCodeConfig.map errConfig.code = [4001, 4002, 4003, 4004, 4005, 4006, 4007, 5001]
      ∧ (errCodeConfig.map errConfig.code).Nodup
      ∧ (init errCodeConfig).len = 8
      ∧ (init errCodeConfig).keys.Nodup
      ∧ (∀ e ∈ errCodeConfig, e.code ∈ (init errCodeConfig).keys)
      ∧ (∀ k ∈ (init errCodeConfig).keys, k ∈ errCodeConfig.map errConfig.code)
      ∧ ∀ e ∈ errCodeConfig, (init errCodeConfig).get e.code = some e.msg := by
  refine ⟨by decide, by decide, by decide, by decide, by decide, by decide, by decide, by decide⟩

/-- C19. `Errorf` returns nil exactly when the given error is nil. For an error that is
not nil it returns an `*errCommon` with the given code, whose `Error()` text is the
message the table holds for the code, or `undefind err msg code` and the code when the
table has none, and whose log message is that text, ` - ` and the text of the wrapped
error, followed by ` - ` and the extra messages joined by single spaces when there are
any. -/
theorem Errorf_spec (codeMapping : CodeMap) (err : GoErrorValue) (errCode : Int)
    (msg : List Bytes) :
    (Errorf codeMapping err errCode msg = none ↔ err = none)
      ∧ ∀ e, err = some e →
        ∃ errMsg logMsg,
          Errorf codeMapping err errCode msg
              = some (ErrorObject.common
                  (some { errCode := errCode, errMsg := errMsg, logMsg := logMsg }))
            ∧ (ErrorObject.common
                (some { errCode := errCode, errMsg := errMsg, logMsg := logMsg })).Error = errMsg
            ∧ (∀ m, codeMapping.get errCode = some m → errMsg = m)
            ∧ (codeMapping.get errCode = none
                → errMsg = utf8 "undefind err msg code " ++ Itoa errCode)
            ∧ (msg = [] → logMsg = errMsg ++ utf8 " - " ++ e.Error)
            ∧ (msg ≠ [] →
                logMsg = errMsg ++ utf8 " - " ++ e.Error ++ utf8 " - " ++ Join msg (utf8 " ")) := by
  constructor
  · cases err with
    | none => simp [Errorf]
    | some e => simp [Errorf]
  · intro e he
    subst he
    refine ⟨_, _, rfl, rfl, ?_, ?_, ?_, ?_⟩
    · intro m hm
      simp only [hm]
    · intro hn
      simp only [hn]
    · intro hmsg
      simp [hmsg]
    · intro hmsg
      have : msg.length > 0 := List.length_pos.mpr hmsg
      simp [this]

/-- C19, on three calls with the table of `errCodeConfig`: a listed code without extra
messages, an unlisted code with two extra messages, and the nil error. -/
theorem Errorf_spec_witness :
    Errorf codeMapping otherError 4005 []
        = some (ErrorObject.common (some
            { errCode := 4005, errMsg := utf8 "无效签名",
              logMsg := utf8 "无效签名 - connection refused" }))
      ∧ Errorf codeMapping otherError 42 [utf8 "x", utf8 "y"]
        = some (ErrorObject.common (some
            { errCode := 42, errMsg := utf8 "undefind err msg code 42",
              logMsg := utf8 "undefind err msg code 42 - connection refused - x y" }))
      ∧ Errorf codeMapping none 4005 [] = none
      ∧ ((Errorf codeMapping otherError 4005 [] = none ↔ otherError = none)
        ∧ ∀ e, otherError = some e →
          ∃ errMsg logMsg,
            Errorf codeMapping otherError 4005 []
                = some (ErrorObject.common
                    (some { errCode := 4005, errMsg := errMsg, logMsg := logMsg }))
              ∧ (ErrorObject.common
                  (some { errCode := 4005, errMsg := errMsg, logMsg := logMsg })).Error = errMsg
              ∧ (∀ m, codeMapping.get 4005 = some m → errMsg = m)
              ∧ (codeMapping.get 4005 = none
                  → errMsg = utf8 "undefind err msg code " ++ Itoa 4005)
              ∧ (([] : List Bytes) = [] → logMsg = errMsg ++ utf8 " - " ++ e.Error)
              ∧ (([] : List Bytes) ≠ [] →
                  logMsg = errMsg ++ utf8 " - " ++ e.Error ++ utf8 " - "
                    ++ Join [] (utf8 " "))) :=
  ⟨by decide, by decide, by decide, Errorf_spec codeMapping otherError 4005 []⟩

/-- C18 (as amended). The envelope of `ErrHandler`: whatever it sends has the status
200. When the response is already committed nothing is sent. Otherwise, for a request
whose method is not `HEAD`, the JSON envelope is sent: for an error built by `Errorf`,
`err_no` is the code and `err_msg` the message of the code; for an error of another
type, `err_no` is -1 and `err_msg` the text of the error. For a `HEAD` request the
status is sent without a body. -/
theorem ErrHandler_envelope (codeMapping : CodeMap) (e : ErrorObject) (errCode : Int)
    (msg : List Bytes) (text : Bytes) (c : Context) :
    (∃ handled errMsg,
        ErrHandler (Errorf codeMapping (some e) errCode msg) c = some handled
          ∧ (Errorf codeMapping (some e) errCode msg).map ErrorObject.Error = some errMsg
          ∧ (∀ m, codeMapping.get errCode = some m → errMsg = m)
          ∧ (codeMapping.get errCode = none
              → errMsg = utf8 "undefind err msg code " ++ Itoa errCode)
          ∧ handled.sent
            = (if c.Committed = true then none
                else if c.Method = HEAD then some (Sent.noContent 200)
                else some (Sent.json 200 { Code := errCode, Msg := errMsg })))
      ∧ (∃ handled,
        ErrHandler (some (ErrorObject.other text)) c = some handled
          ∧ handled.sent
            = (if c.Committed = true then none
                else if c.Method = HEAD then some (Sent.noContent 200)
                else some (Sent.json 200 { Code := -1, Msg := text }))) := by
  constructor
  · refine ⟨_, (match codeMapping.get errCode with
        | some m => m
        | none => utf8 "undefind err msg code " ++ Itoa errCode), rfl, rfl, ?_, ?_, ?_⟩
    · intro m hm
      simp only [hm]
    · intro hn
      simp only [hn]
    · cases hc : c.Committed <;> cases hs : c.sendError <;> by_cases hm : c.Method = HEAD <;>
        simp [hc, hs, hm, StatusOK]
  · refine ⟨_, rfl, ?_⟩
    cases hc : c.Committed <;> cases hs : c.sendError <;> by_cases hm : c.Method = HEAD <;>
      simp [hc, hs, hm, StatusOK]

/-- C18, counterexample: a `HEAD` request whose response is not committed. For the error
that `Errorf` builds for code 4005, `ErrHandler` sends the status 200 and no body, so
there is no `err_no` and no `err_msg`. -/
theorem head_request_gets_no_body :
    headRequest.Committed = false ∧ headRequest.Method = HEAD
      ∧ ErrHandler (Errorf codeMapping otherError 4005 []) headRequest
        = some { log := [utf8 "uri:/login err:errNo:4005 errMsg:无效签名 info:无效签名 - connection refused"],
                 sent := some (Sent.noContent 200) }
      ∧ ErrHandler (Errorf codeMapping otherError 4005 []) getRequest
        = some { log := [utf8 "uri:/login err:errNo:4005 errMsg:无效签名 info:无效签名 - connection refused"],
                 sent := some (Sent.json 200 { Code := 4005, Msg := utf8 "无效签名" }) } := by
  refine ⟨by decide, by decide, by decide!, by decide!⟩

/-! ## The claim about tampering with the claims -/

/-- The last step of `VerifySession` for claims whose signature is the hex text of a
known digest: the token is accepted when the digest of the signing input formed at
verification is that digest, and unauthorized otherwise. -/
theorem VerifySession_compare {σ : Type} (from' session : Bytes) (getSecretKey : Resolver σ)
    (now : Time) (st st1 : σ) (jsonSource : Bytes) (s : Session) (expireTime : Time)
    (secretKey input0 : Bytes)
    (hd : DecodeString session = some jsonSource) (hu : Unmarshal jsonSource = some s)
    (hf : from' = s.From) (hp : Parse s.Expire = some expireTime)
    (hb : expireTime.Before now = false)
    (hg : getSecretKey s.SrcID s.ManagerID st = (Except.ok secretKey, st1))
    (hk : s.From = ConstFromA ∨ s.From = ConstFromB ∨ s.From = ConstFromC)
    (hsig : s.Signature = hexEncode (sha1Sum input0)) :
    VerifySession from' session getSecretKey now st
      = (if sha1Sum (signingInput s.From s.SrcID s.ManagerID s.UserID (s.Expire.take 14)
              secretKey) = sha1Sum input0
          then Except.ok s else Except.error Error.unauthorized, st1) := by
  obtain ⟨e1, -, -⟩ := Format_Parse s.Expire expireTime hp
  have hs := newSignature_ok_of_known s.From s.SrcID s.ManagerID s.UserID expireTime
    secretKey hk
  rw [e1] at hs
  by_cases e : sha1Sum (signingInput s.From s.SrcID s.ManagerID s.UserID (s.Expire.take 14)
      secretKey) = sha1Sum input0
  · rw [if_pos e]
    exact VerifySession_accept from' session getSecretKey now st hd hu hf hp hb hg
      (by rw [hs, hsig, e])
  · rw [if_neg e]
    refine VerifySession_unauthorized from' session getSecretKey now st hd hu hf hp hb hg hs ?_
    intro h
    rw [hsig] at h
    exact e (hexEncode_injective _ _ (sha1Sum_spec _).2 (sha1Sum_spec _).2 h)

/-- The signing input determines the user id, the rest being the same. -/
theorem signingInput_userID (from' : Bytes) (srcID managerID u u' : Int) (text key : Bytes)
    (h : signingInput from' srcID managerID u text key
      = signingInput from' srcID managerID u' text key) : u = u' := by
  unfold signingInput at h
  exact Itoa_injective _ _ (List.append_cancel_left
    (List.append_cancel_right (List.append_cancel_right h)))

/-- The signing input determines the manager id, the rest being the same. -/
theorem signingInput_managerID (from' : Bytes) (srcID m m' userID : Int) (text key : Bytes)
    (h : signingInput from' srcID m userID text key
      = signingInput from' srcID m' userID text key) : m = m' := by
  unfold signingInput at h
  exact Itoa_injective _ _ (List.append_cancel_left (List.append_cancel_right
    (List.append_cancel_right (List.append_cancel_right h))))

/-- The signing input determines the source id, the rest being the same. -/
theorem signingInput_srcID (from' : Bytes) (a a' managerID userID : Int) (text key : Bytes)
    (h : signingInput from' a managerID userID text key
      = signingInput from' a' managerID userID text key) : a = a' := by
  unfold signingInput at h
  exact Itoa_injective _ _ (List.append_cancel_left (List.append_cancel_right
    (List.append_cancel_right (List.append_cancel_right (List.append_cancel_right h)))))

/-- The signing input determines the expiry text, the rest being the same. -/
theorem signingInput_text (from' : Bytes) (srcID managerID userID : Int) (text text' key : Bytes)
    (h : signingInput from' srcID managerID userID text key
      = signingInput from' srcID managerID userID text' key) : text = text' := by
  unfold signingInput at h
  exact List.append_cancel_left (List.append_cancel_right h)

/-- What is known of the claims of an accepted token. -/
theorem accepted_token {σ : Type} (from' session : Bytes) (getSecretKey : Resolver σ)
    (now : Time) (st st1 : σ) (s : Session)
    (hok : VerifySession from' session getSecretKey now st = (Except.ok s, st1)) :
    ∃ expireTime secretKey,
      from' = s.From ∧ (s.From = ConstFromA ∨ s.From = ConstFromB ∨ s.From = ConstFromC)
        ∧ idsInt64 s ∧ (∀ b ∈ s.From, b < 0x80) ∧ (∀ b ∈ s.Expire, b < 0x80)
        ∧ (∀ b ∈ s.Signature, b < 0x80)
        ∧ Parse s.Expire = some expireTime ∧ expireTime.Before now = false
        ∧ getSecretKey s.SrcID s.ManagerID st = (Except.ok secretKey, st1)
        ∧ s.Signature = hexEncode (sha1Sum (signingInput s.From s.SrcID s.ManagerID s.UserID
            (s.Expire.take 14) secretKey)) := by
  obtain ⟨js, t, k, -, hu, hf, hp, hb, hg, hs⟩ := VerifySession_ok_inv _ _ _ _ _ hok
  have hknown : s.From = ConstFromA ∨ s.From = ConstFromB ∨ s.From = ConstFromC := by
    by_contra hn
    rw [newSignature_error_of_unknown _ _ _ _ _ _ hn] at hs
    cases hs
  obtain ⟨e1, -, -⟩ := Format_Parse s.Expire t hp
  have hsigeq : s.Signature = hexEncode (sha1Sum
      (signingInput s.From s.SrcID s.ManagerID s.UserID (s.Expire.take 14) k)) := by
    rw [newSignature_ok_of_known _ _ _ _ _ _ hknown, e1] at hs
    exact (Except.ok.inj hs).symm
  refine ⟨t, k, hf, hknown, Unmarshal_idsInt64 js s hu,
    fun b hb => (htmlSafe_plain b (known_origin_safe s.From hknown b hb)).2.2.2,
    Parse_ascii s.Expire t hp, ?_, hp, hb, hg, hsigeq⟩
  intro b hb
  rw [hsigeq] at hb
  exact (htmlSafe_plain b (hexEncode_safe _ b hb)).2.2.2

/-- Claims with 64-bit ids and ASCII strings survive the re-encoding: the base64 text of
their JSON text decodes to them. -/
theorem reencoded (s : Session) (hids : idsInt64 s) (hF : ∀ b ∈ s.From, b < 0x80)
    (hE : ∀ b ∈ s.Expire, b < 0x80) (hS : ∀ b ∈ s.Signature, b < 0x80) :
    DecodeString (EncodeToString (Marshal s)) = some (Marshal s)
      ∧ Unmarshal (Marshal s) = some s := by
  refine ⟨DecodeString_EncodeToString _ (Marshal_bytes_any s), ?_⟩
  rw [Unmarshal_Marshal_any s hids.1.1 hids.1.2 hids.2.1.1 hids.2.1.2 hids.2.2.1 hids.2.2.2]
  simp only [toValidUTF8_ascii _ hF _ (le_refl _), toValidUTF8_ascii _ hE _ (le_refl _),
    toValidUTF8_ascii _ hS _ (le_refl _)]

/-- A changed origin: the token fails the origin comparison, and the resolver is not
called. -/
theorem tampered_from {σ : Type} (from' session : Bytes) (getSecretKey : Resolver σ)
    (now : Time) (st st1 : σ) (s : Session) (x : Bytes)
    (hok : VerifySession from' session getSecretKey now st = (Except.ok s, st1))
    (hx : x ≠ s.From) :
    VerifySession from' (EncodeToString (Marshal { s with From := x })) getSecretKey now st
      = (Except.error (Error.diffFrom from' (toValidUTF8 x.length x)), st) := by
  obtain ⟨t, k, hf, hknown, hids, hF, hE, hS, -, -, -, -⟩ :=
    accepted_token from' session getSecretKey now st st1 s hok
  have hd' := DecodeString_EncodeToString _ (Marshal_bytes_any { s with From := x })
  have hu' := Unmarshal_Marshal_any { s with From := x } hids.1.1 hids.1.2
    hids.2.1.1 hids.2.1.2 hids.2.2.1 hids.2.2.2
  have hne : from' ≠ toValidUTF8 x.length x := by
    intro heq
    have hascii := ascii_of_toValidUTF8 x.length x (le_refl _)
      (fun b hb => hF b (by rw [← hf, heq]; exact hb))
    rw [toValidUTF8_ascii _ hascii _ (le_refl _)] at heq
    exact hx (by rw [← heq, hf])
  exact VerifySession_diffFrom from' _ getSecretKey now st hd' hu' hne

/-- A changed user id: the resolver gives the same secret, and the token is accepted
only if the digest of the changed signing input is the digest of the original one. -/
theorem tampered_userID {σ : Type} (from' session : Bytes) (getSecretKey : Resolver σ)
    (now : Time) (st st1 : σ) (s : Session) (secretKey : Bytes) (userID : Int)
    (hok : VerifySession from' session getSecretKey now st = (Except.ok s, st1))
    (hg : getSecretKey s.SrcID s.ManagerID st = (Except.ok secretKey, st1))
    (hr : -9223372036854775808 ≤ userID ∧ userID ≤ 9223372036854775807) :
    VerifySession from' (EncodeToString (Marshal { s with UserID := userID })) getSecretKey
        now st
      = (if sha1Sum (signingInput s.From s.SrcID s.ManagerID userID (s.Expire.take 14)
              secretKey)
            = sha1Sum (signingInput s.From s.SrcID s.ManagerID s.UserID (s.Expire.take 14)
              secretKey)
          then Except.ok { s with UserID := userID } else Except.error Error.unauthorized,
          st1) := by
  obtain ⟨t, k, hf, hknown, hids, hF, hE, hS, hp, hb, hg', hsig⟩ :=
    accepted_token from' session getSecretKey now st st1 s hok
  have hk : k = secretKey := by
    rw [hg] at hg'
    injection hg' with h1 _
    injection h1 with h1
    exact h1.symm
  subst hk
  obtain ⟨hd', hu'⟩ := reencoded { s with UserID := userID } ⟨hids.1, hids.2.1, hr⟩ hF hE hS
  exact VerifySession_compare from' _ getSecretKey now st st1 _ { s with UserID := userID } t k
    _ hd' hu' hf hp hb hg hknown hsig

/-- A changed source id or manager id: the resolver is asked for the changed ids. When it
fails the token fails with the secret-resolution error; when it returns a secret the
token is accepted only if the digest of the changed signing input, with that secret, is
the digest the signature of the token was made from. -/
theorem tampered_ids {σ : Type} (from' session : Bytes) (getSecretKey : Resolver σ)
    (now : Time) (st st1 : σ) (s : Session) (secretKey : Bytes) (srcID managerID : Int)
    (hok : VerifySession from' session getSecretKey now st = (Except.ok s, st1))
    (hg : getSecretKey s.SrcID s.ManagerID st = (Except.ok secretKey, st1))
    (hr : -9223372036854775808 ≤ srcID ∧ srcID ≤ 9223372036854775807)
    (hr' : -9223372036854775808 ≤ managerID ∧ managerID ≤ 9223372036854775807) :
    (∀ err st2, getSecretKey srcID managerID st = (Except.error err, st2) →
        VerifySession from'
            (EncodeToString (Marshal { s with SrcID := srcID, ManagerID := managerID }))
            getSecretKey now st
          = (Except.error (Error.verifyGetSecretKey srcID managerID s.UserID err), st2))
      ∧ (∀ key st2, getSecretKey srcID managerID st = (Except.ok key, st2) →
        VerifySession from'
            (EncodeToString (Marshal { s with SrcID := srcID, ManagerID := managerID }))
            getSecretKey now st
          = (if sha1Sum (signingInput s.From srcID managerID s.UserID (s.Expire.take 14) key)
                = sha1Sum (signingInput s.From s.SrcID s.ManagerID s.UserID
                    (s.Expire.take 14) secretKey)
              then Except.ok { s with SrcID := srcID, ManagerID := managerID }
              else Except.error Error.unauthorized, st2)) := by
  obtain ⟨t, k, hf, hknown, hids, hF, hE, hS, hp, hb, hg', hsig⟩ :=
    accepted_token from' session getSecretKey now st st1 s hok
  have hk : k = secretKey := by
    rw [hg] at hg'
    injection hg' with h1 _
    injection h1 with h1
    exact h1.symm
  subst hk
  obtain ⟨hd', hu'⟩ := reencoded { s with SrcID := srcID, ManagerID := managerID }
    ⟨hr, hr', hids.2.2⟩ hF hE hS
  constructor
  · intro err st2 he
    exact VerifySession_resolver_error from' _ getSecretKey now st hd' hu' hf hp hb he
  · intro key st2 he
    exact VerifySession_compare from' _ getSecretKey now st st2 _
      { s with SrcID := srcID, ManagerID := managerID } t key _ hd' hu' hf hp hb he hknown hsig

/-- A changed expire text: the token fails with the expiry-parse error when the text
does not parse and with the expired error when it parses to a time before the clock;
otherwise the resolver gives the same secret, and the token is accepted only if the
digest of the signing input with the first fourteen characters of the changed text is
the digest of the original one. -/
theorem tampered_expire {σ : Type} (from' session : Bytes) (getSecretKey : Resolver σ)
    (now : Time) (st st1 : σ) (s : Session) (secretKey x : Bytes)
    (hok : VerifySession from' session getSecretKey now st = (Except.ok s, st1))
    (hg : getSecretKey s.SrcID s.ManagerID st = (Except.ok secretKey, st1)) :
    (Parse x = none →
        VerifySession from' (EncodeToString (Marshal { s with Expire := x })) getSecretKey
            now st
          = (Except.error (Error.parseExpire (toValidUTF8 x.length x)), st))
      ∧ (∀ t, Parse x = some t → t.Before now = true →
        VerifySession from' (EncodeToString (Marshal { s with Expire := x })) getSecretKey
            now st
          = (Except.error Error.timeout, st))
      ∧ (∀ t, Parse x = some t → t.Before now = false →
        VerifySession from' (EncodeToString (Marshal { s with Expire := x })) getSecretKey
            now st
          = (if sha1Sum (signingInput s.From s.SrcID s.ManagerID s.UserID (x.take 14)
                  secretKey)
                = sha1Sum (signingInput s.From s.SrcID s.ManagerID s.UserID
                    (s.Expire.take 14) secretKey)
              then Except.ok { s with Expire := x } else Except.error Error.unauthorized,
              st1)) := by
  obtain ⟨t0, k, hf, hknown, hids, hF, hE, hS, hp, hb, hg', hsig⟩ :=
    accepted_token from' session getSecretKey now st st1 s hok
  have hk : k = secretKey := by
    rw [hg] at hg'
    injection hg' with h1 _
    injection h1 with h1
    exact h1.symm
  subst hk
  have hd' := DecodeString_EncodeToString _ (Marshal_bytes_any { s with Expire := x })
  have hu' := Unmarshal_Marshal_any { s with Expire := x } hids.1.1 hids.1.2
    hids.2.1.1 hids.2.1.2 hids.2.2.1 hids.2.2.2
  simp only [toValidUTF8_ascii _ hF _ (le_refl _), toValidUTF8_ascii _ hS _ (le_refl _)] at hu'
  refine ⟨?_, ?_, ?_⟩
  · intro hnone
    have hnone' : Parse (toValidUTF8 x.length x) = none := by
      cases hpx : Parse (toValidUTF8 x.length x) with
      | none => rfl
      | some t' =>
        have hascii := ascii_of_toValidUTF8 x.length x (le_refl _) (Parse_ascii _ t' hpx)
        rw [toValidUTF8_ascii _ hascii _ (le_refl _), hnone] at hpx
        cases hpx
    exact VerifySession_parse_none from' _ getSecretKey now st hd' hu' hf hnone'
  · intro t hpx hbx
    have hascii := Parse_ascii x t hpx
    rw [toValidUTF8_ascii _ hascii _ (le_refl _)] at hu'
    exact VerifySession_timeout from' _ getSecretKey now st hd' hu' hf hpx hbx
  · intro t hpx hbx
    have hascii := Parse_ascii x t hpx
    rw [toValidUTF8_ascii _ hascii _ (le_refl _)] at hu'
    exact VerifySession_compare from' _ getSecretKey now st st1 _ { s with Expire := x } t k
      _ hd' hu' hf hpx hbx hg hknown hsig

/-- C5 (as amended). Claim tampering: let `VerifySession` accept a token and return the
claims `s`, and let one claim field of `s` be changed and the claims re-encoded (JSON,
then base64), the signature kept, under the same expected origin, clock, resolver and
resolver state.
* A changed `from` fails with the origin-mismatch error, the resolver not being called.
* A changed `user_id` gives a different signing input and fails with the unauthorized
  error, unless the SHA-1 digests of the two signing inputs are equal.
* A changed `src_id` or `manager_id` fails with the secret-resolution error when the
  resolver fails for the changed ids; when it returns a secret, the token fails with
  the unauthorized error unless the digest of the changed signing input with that
  secret is the digest of the original one (the inputs differ when the secret is the
  same).
* A changed `expire` fails with the expiry-parse error when it does not parse and with
  the expired error when it parses to a time before the clock. Otherwise it is accepted
  when its first fourteen characters are unchanged, so a change in the fractional second
  is not detected; when they are changed, the signing input differs and the token fails
  with the unauthorized error unless the two digests are equal. -/
theorem VerifySession_claims_tampered {σ : Type} (from' session : Bytes)
    (getSecretKey : Resolver σ) (now : Time) (st st1 : σ) (s : Session)
    (hok : VerifySession from' session getSecretKey now st = (Except.ok s, st1)) :
    (∀ x, x ≠ s.From →
        VerifySession from' (EncodeToString (Marshal { s with From := x })) getSecretKey now st
          = (Except.error (Error.diffFrom from' (toValidUTF8 x.length x)), st))
      ∧ (∃ secretKey, getSecretKey s.SrcID s.ManagerID st = (Except.ok secretKey, st1))
      ∧ ∀ secretKey, getSecretKey s.SrcID s.ManagerID st = (Except.ok secretKey, st1) →
        s.Signature = hexEncode (sha1Sum (signingInput s.From s.SrcID s.ManagerID s.UserID
            (s.Expire.take 14) secretKey))
        ∧ (∀ userID, -9223372036854775808 ≤ userID ∧ userID ≤ 9223372036854775807 →
            userID ≠ s.UserID →
            signingInput s.From s.SrcID s.ManagerID userID (s.Expire.take 14) secretKey
                ≠ signingInput s.From s.SrcID s.ManagerID s.UserID (s.Expire.take 14) secretKey
              ∧ VerifySession from' (EncodeToString (Marshal { s with UserID := userID }))
                  getSecretKey now st
                = (if sha1Sum (signingInput s.From s.SrcID s.ManagerID userID
                        (s.Expire.take 14) secretKey)
                      = sha1Sum (signingInput s.From s.SrcID s.ManagerID s.UserID
                        (s.Expire.take 14) secretKey)
                    then Except.ok { s with UserID := userID }
                    else Except.error Error.unauthorized, st1))
        ∧ (∀ srcID, -9223372036854775808 ≤ srcID ∧ srcID ≤ 9223372036854775807 →
            srcID ≠ s.SrcID →
            (∀ err st2, getSecretKey srcID s.ManagerID st = (Except.error err, st2) →
                VerifySession from' (EncodeToString (Marshal { s with SrcID := srcID }))
                    getSecretKey now st
                  = (Except.error (Error.verifyGetSecretKey srcID s.ManagerID s.UserID err),
                      st2))
              ∧ (∀ key st2, getSecretKey srcID s.ManagerID st = (Except.ok key, st2) →
                (key = secretKey →
                  signingInput s.From srcID s.ManagerID s.UserID (s.Expire.take 14) key
                    ≠ signingInput s.From s.SrcID s.ManagerID s.UserID (s.Expire.take 14)
                        secretKey)
                ∧ VerifySession from' (EncodeToString (Marshal { s with SrcID := srcID }))
                    getSecretKey now st
                  = (if sha1Sum (signingInput s.From srcID s.ManagerID s.UserID
                          (s.Expire.take 14) key)
                        = sha1Sum (signingInput s.From s.SrcID s.ManagerID s.UserID
                          (s.Expire.take 14) secretKey)
                      then Except.ok { s with SrcID := srcID }
                      else Except.error Error.unauthorized, st2)))
        ∧ (∀ managerID,
            -9223372036854775808 ≤ managerID ∧ managerID ≤ 9223372036854775807 →
            managerID ≠ s.ManagerID →
            (∀ err st2, getSecretKey s.SrcID managerID st = (Except.error err, st2) →
                VerifySession from' (EncodeToString (Marshal { s with ManagerID := managerID }))
                    getSecretKey now st
                  = (Except.error (Error.verifyGetSecretKey s.SrcID managerID s.UserID err),
                      st2))
              ∧ (∀ key st2, getSecretKey s.SrcID managerID st = (Except.ok key, st2) →
                (key = secretKey →
                  signingInput s.From s.SrcID managerID s.UserID (s.Expire.take 14) key
                    ≠ signingInput s.From s.SrcID s.ManagerID s.UserID (s.Expire.take 14)
                        secretKey)
                ∧ VerifySession from' (EncodeToString (Marshal { s with ManagerID := managerID }))
                    getSecretKey now st
                  = (if sha1Sum (signingInput s.From s.SrcID managerID s.UserID
                          (s.Expire.take 14) key)
                        = sha1Sum (signingInput s.From s.SrcID s.ManagerID s.UserID
                          (s.Expire.take 14) secretKey)
                      then Except.ok { s with ManagerID := managerID }
                      else Except.error Error.unauthorized, st2)))
        ∧ (∀ x, x ≠ s.Expire →
            (Parse x = none →
                VerifySession from' (EncodeToString (Marshal { s with Expire := x }))
                    getSecretKey now st
                  = (Except.error (Error.parseExpire (toValidUTF8 x.length x)), st))
              ∧ (∀ t, Parse x = some t → t.Before now = true →
                VerifySession from' (EncodeToString (Marshal { s with Expire := x }))
                    getSecretKey now st
                  = (Except.error Error.timeout, st))
              ∧ (∀ t, Parse x = some t → t.Before now = false →
                (x.take 14 = s.Expire.take 14 →
                  VerifySession from' (EncodeToString (Marshal { s with Expire := x }))
                      getSecretKey now st
                    = (Except.ok { s with Expire := x }, st1))
                ∧ (x.take 14 ≠ s.Expire.take 14 →
                  signingInput s.From s.SrcID s.ManagerID s.UserID (x.take 14) secretKey
                      ≠ signingInput s.From s.SrcID s.ManagerID s.UserID (s.Expire.take 14)
                          secretKey
                    ∧ VerifySession from' (EncodeToString (Marshal { s with Expire := x }))
                        getSecretKey now st
                      = (if sha1Sum (signingInput s.From s.SrcID s.ManagerID s.UserID
                              (x.take 14) secretKey)
                            = sha1Sum (signingInput s.From s.SrcID s.ManagerID s.UserID
                              (s.Expire.take 14) secretKey)
                          then Except.ok { s with Expire := x }
                          else Except.error Error.unauthorized, st1)))) := by
  obtain ⟨t0, k, -, -, -, -, -, -, -, -, hg0, hsig0⟩ :=
    accepted_token from' session getSecretKey now st st1 s hok
  refine ⟨fun x hx => tampered_from from' session getSecretKey now st st1 s x hok hx,
    ⟨k, hg0⟩, ?_⟩
  intro secretKey hg
  have hk : k = secretKey := by
    rw [hg] at hg0
    injection hg0 with h1 _
    injection h1 with h1
    exact h1.symm
  subst hk
  refine ⟨hsig0, ?_, ?_, ?_, ?_⟩
  · intro userID hr hne
    exact ⟨fun e => hne (signingInput_userID _ _ _ _ _ _ _ e),
      tampered_userID from' session getSecretKey now st st1 s k userID hok hg hr⟩
  · intro srcID hr hne
    have hids := (accepted_token from' session getSecretKey now st st1 s hok)
    obtain ⟨-, -, -, -, hids, -⟩ := hids
    obtain ⟨h1, h2⟩ := tampered_ids from' session getSecretKey now st st1 s k srcID s.ManagerID
      hok hg hr hids.2.1
    refine ⟨h1, fun key st2 he => ⟨?_, h2 key st2 he⟩⟩
    intro hkey e
    rw [hkey] at e
    exact hne (signingInput_srcID _ _ _ _ _ _ _ e)
  · intro managerID hr hne
    have hids := (accepted_token from' session getSecretKey now st st1 s hok)
    obtain ⟨-, -, -, -, hids, -⟩ := hids
    obtain ⟨h1, h2⟩ := tampered_ids from' session getSecretKey now st st1 s k s.SrcID managerID
      hok hg hids.1 hr
    refine ⟨h1, fun key st2 he => ⟨?_, h2 key st2 he⟩⟩
    intro hkey e
    rw [hkey] at e
    exact hne (signingInput_managerID _ _ _ _ _ _ _ e)
  · intro x _
    obtain ⟨h1, h2, h3⟩ := tampered_expire from' session getSecretKey now st st1 s k x hok hg
    refine ⟨h1, h2, fun t hp hb => ⟨?_, ?_⟩⟩
    · intro hsame
      have := h3 t hp hb
      rw [hsame, if_pos rfl] at this
      exact this
    · intro hdiff
      exact ⟨fun e => hdiff (signingInput_text _ _ _ _ _ _ _ e), h3 t hp hb⟩

/-- C5, on `exampleToken`: the origin changed from `A` to `B`, and the user id changed
from 56 to 57. -/
theorem VerifySession_claims_tampered_witness :
    VerifySession ConstFromA exampleToken (fixedSecret exampleSecret) exampleNow 0
        = (Except.ok exampleClaims, 1)
      ∧ VerifySession ConstFromA
          (EncodeToString (Marshal { exampleClaims with From := utf8 "B" }))
          (fixedSecret exampleSecret) exampleNow 0
        = (Except.error (Error.diffFrom ConstFromA
            (toValidUTF8 (utf8 "B").length (utf8 "B"))), 0)
      ∧ (signingInput exampleClaims.From exampleClaims.SrcID exampleClaims.ManagerID 57
            (exampleClaims.Expire.take 14) exampleSecret
          ≠ signingInput exampleClaims.From exampleClaims.SrcID exampleClaims.ManagerID
            exampleClaims.UserID (exampleClaims.Expire.take 14) exampleSecret
        ∧ VerifySession ConstFromA
            (EncodeToString (Marshal { exampleClaims with UserID := 57 }))
            (fixedSecret exampleSecret) exampleNow 0
          = (if sha1Sum (signingInput exampleClaims.From exampleClaims.SrcID
                  exampleClaims.ManagerID 57 (exampleClaims.Expire.take 14) exampleSecret)
                = sha1Sum (signingInput exampleClaims.From exampleClaims.SrcID
                  exampleClaims.ManagerID exampleClaims.UserID
                  (exampleClaims.Expire.take 14) exampleSecret)
              then Except.ok { exampleClaims with UserID := 57 }
              else Except.error Error.unauthorized, 1))
      ∧ VerifySession ConstFromA (EncodeToString (Marshal tamperedUserClaims))
          (fixedSecret exampleSecret) exampleNow 0
        = (Except.error Error.unauthorized, 1) :=
  ⟨by decide!,
    (VerifySession_claims_tampered ConstFromA exampleToken (fixedSecret exampleSecret)
      exampleNow 0 1 exampleClaims (by decide!)).1 (utf8 "B") (by decide),
    ((VerifySession_claims_tampered ConstFromA exampleToken (fixedSecret exampleSecret)
      exampleNow 0 1 exampleClaims (by decide!)).2.2 exampleSecret rfl).2.1 57
      ⟨by decide, by decide⟩ (by decide),
    by decide!⟩

/-- C5, counterexample. The claims `fractionClaims`, whose expire text is
`20251104132000.5`, are accepted; with the one character `5` changed to `6` they are
accepted again, so this change of the expire field does not make `VerifySession` fail.
On `exampleToken`, the origin changed from `A` to `B` fails with the origin-mismatch
error, and the hour of the expire text changed from `13` to `11` fails with the expired
error: neither is the unauthorized error or a parse error. -/
theorem fraction_tampering_is_accepted :
    VerifySession ConstFromA (EncodeToString (Marshal fractionClaims))
        (fixedSecret exampleSecret) exampleNow 0 = (Except.ok fractionClaims, 1)
      ∧ fractionClaims.Expire = utf8 "20251104132000.5"
      ∧ EncodeToString (Marshal { fractionClaims with Expire := utf8 "20251104132000.6" })
        ≠ EncodeToString (Marshal fractionClaims)
      ∧ VerifySession ConstFromA
          (EncodeToString (Marshal { fractionClaims with Expire := utf8 "20251104132000.6" }))
          (fixedSecret exampleSecret) exampleNow 0
        = (Except.ok { fractionClaims with Expire := utf8 "20251104132000.6" }, 1)
      ∧ VerifySession ConstFromA exampleToken (fixedSecret exampleSecret) exampleNow 0
        = (Except.ok exampleClaims, 1)
      ∧ VerifySession ConstFromA (EncodeToString (Marshal tamperedFromClaims))
          (fixedSecret exampleSecret) exampleNow 0
        = (Except.error (Error.diffFrom ConstFromA ConstFromB), 0)
      ∧ VerifySession ConstFromA
          (EncodeToString (Marshal { exampleClaims with Expire := utf8 "20251104112000" }))
          (fixedSecret exampleSecret) exampleNow 0
        = (Except.error Error.timeout, 0) := by
  refine ⟨by decide!, by decide, by decide!, by decide!, by decide!, by decide!, by decide!⟩

end BotKit
